import Mathlib

/-!
Mixin kernel: transaction validation and node election.

A shallow embedding of `common/validation.go`, `kernel/election.go` and the importer
loop of `kernel/import.go`.

Conventions of the embedding:

* a 32-byte `crypto.Hash` or `crypto.Key` is the natural number its bytes spell
  big-endian; the zero hash is `0`, so `HasValue` is `≠ 0`;
* the money type `common.Integer` is an unbounded signed integer (`Int`);
* a Go function that returns a value and an `error` returns `Except (Fault ε) α`:
  `Fault.err e` is a returned error, `Fault.goPanic` a runtime panic (index out of
  range, nil dereference, explicit `panic`);
* constants and collaborators that the files use but do not declare are the
  fields of `Config`, `Collab` and the other environment structures.
-/

set_option autoImplicit false

namespace Mixin

/-! ## Basic types -/

namespace crypto

/-- A 32-byte hash, read as a big-endian number. -/
abbrev Hash := Nat

/-- A 32-byte curve point or scalar, read as a big-endian number. -/
abbrev Key := Nat

/-- A 64-byte signature. -/
abbrev Signature := Nat

/-- The method `HasValue` of `crypto.Hash` and `crypto.Key`: not all bytes are zero. -/
def HasValue (h : Nat) : Bool := h != 0

end crypto

/-- The money type `common.Integer`, in units of the smallest amount. -/
abbrev Integer := Int

/-- What a Go call can yield in place of its value: a returned error or a runtime panic. -/
inductive Fault (ε : Type) where
  | err (e : ε)
  | goPanic
  deriving DecidableEq, Repr

deriving instance DecidableEq for Except

/-- An error handed back by a store; the validator passes it on as it is. -/
abbrev StoreErr := String

/-- Constants of the packages `common` and `config` that the code refers to. -/
structure Config where
  TxVersionHashSignature : Nat
  XINAssetId : crypto.Hash
  ExtraSizeGeneralLimit : Int
  ExtraSizeStorageStep : Int
  ExtraSizeStorageCapacity : Int
  /-- The value of `NewIntegerFromString(ExtraStoragePriceStep)`. -/
  ExtraStoragePriceStep : Integer
  SliceCountLimit : Nat
  OutputTypeScript : Nat
  OutputTypeWithdrawalSubmit : Nat
  OutputTypeWithdrawalClaim : Nat
  OutputTypeNodePledge : Nat
  OutputTypeNodeCancel : Nat
  OutputTypeNodeAccept : Nat
  OutputTypeNodeRemove : Nat
  OutputTypeCustodianUpdateNodes : Nat
  TransactionTypeMint : Nat
  TransactionTypeNodePledge : Nat
  TransactionTypeNodeCancel : Nat
  TransactionTypeNodeAccept : Nat
  TransactionTypeNodeRemove : Nat
  TransactionTypeCustodianUpdateNodes : Nat
  TransactionTypeCustodianSlashNodes : Nat
  KernelMinimumNodesCount : Nat
  /-- A `time.Duration`, in nanoseconds. -/
  KernelNodePledgePeriodMinimum : Int
  KernelNodeAcceptPeriodMinimum : Int
  KernelNodeAcceptPeriodMaximum : Int
  KernelNodeAcceptTimeBegin : Nat
  KernelNodeAcceptTimeEnd : Nat
  KernelMintTimeBegin : Nat
  KernelMintTimeEnd : Nat
  SnapshotRoundGap : Nat
  SnapshotReferenceThreshold : Nat
  KernelNodePledgeAmount : Integer

/-- An address, as far as its two public keys. -/
structure Address where
  PublicSpendKey : crypto.Key
  PublicViewKey : crypto.Key
  deriving DecidableEq, Repr

/-! ## Data model -/

structure MintData where
  Amount : Integer
  deriving DecidableEq, Repr

structure DepositData where
  Amount : Integer
  deriving DecidableEq, Repr

structure WithdrawalData where
  Address : String
  deriving DecidableEq, Repr

structure Input where
  Hash : crypto.Hash
  Index : Nat
  Genesis : List Nat
  Deposit : Option DepositData
  Mint : Option MintData
  deriving DecidableEq, Repr

/-- The field `Type` of the source is `Typ` here. -/
structure Output where
  Typ : Nat
  Amount : Integer
  Keys : List crypto.Key
  Withdrawal : Option WithdrawalData
  Script : List Nat
  Mask : crypto.Key
  deriving DecidableEq, Repr

structure UTXO extends Input, Output where
  Asset : crypto.Hash
  deriving DecidableEq, Repr

structure UTXOWithLock extends UTXO where
  LockHash : crypto.Hash
  deriving DecidableEq, Repr

/-- The list `Signers` holds Go `int`s. -/
structure AggregatedSignature where
  Signers : List Int
  Signature : crypto.Signature
  deriving DecidableEq, Repr

/-- One entry of `SignaturesMap`, a Go `map[uint16]*crypto.Signature`, as the list of its pairs. -/
abbrev SigMap := List (Nat × crypto.Signature)

structure Transaction where
  Version : Nat
  Asset : crypto.Hash
  Inputs : List Input
  Outputs : List Output
  References : List crypto.Hash
  Extra : List Nat
  deriving DecidableEq, Repr

/-- A nil `SignaturesMap` is `none`. -/
structure SignedTransaction extends Transaction where
  AggregatedSignature : Option AggregatedSignature
  SignaturesMap : Option (List SigMap)
  deriving DecidableEq, Repr

/-- The slice `tx.SignaturesMap` as validateUTXO indexes it; a nil slice has no entry. -/
def SignedTransaction.sigs (tx : SignedTransaction) : List SigMap :=
  tx.SignaturesMap.getD []

/-- Collaborators of the two files: curve check, script checks, signature verification, string
forms and the payload hash. -/
structure Collab where
  /-- The method `Key.CheckKey`. -/
  CheckKey : crypto.Key → Bool
  /-- The method `Script.VerifyFormat`; `true` when it returns no error. -/
  VerifyFormat : List Nat → Bool
  /-- The method `Script.Validate(sigs)`; `true` when it returns no error. -/
  Validate : List Nat → Nat → Bool
  /-- The function `crypto.AggregateVerify`; `true` when it returns no error. -/
  AggregateVerify : crypto.Signature → List crypto.Key → List Int → crypto.Hash → Bool
  /-- The function `crypto.BatchVerify`. -/
  BatchVerify : crypto.Hash → List crypto.Key → List (Option crypto.Signature) → Bool
  /-- The method `Script.String`. -/
  ScriptString : List Nat → String
  /-- The method `Key.String`. -/
  KeyString : crypto.Key → String
  /-- The method `Address.String`. -/
  AddressString : Address → String
  /-- The method `PayloadHash` of a versioned transaction. -/
  PayloadHash : SignedTransaction → crypto.Hash

/-- The interface `UTXOLockReader`: `ReadUTXOLock(hash, index)` gives an error, nil or a UTXO. -/
structure UTXOLockReader where
  ReadUTXOLock : crypto.Hash → Nat → Except StoreErr (Option UTXOWithLock)

/-- The interface `GhostLocker` over a store state `σ`: `LockGhostKeys(keys, hash, fork)`
gives back its error, if any, and the state it leaves. -/
structure GhostLocker (σ : Type) where
  LockGhostKeys : σ → List crypto.Key → crypto.Hash → Bool → Option StoreErr × σ

/-- The errors `validateInputs`, `validateOutputs` and `validateUTXO` build with `fmt.Errorf`,
one constructor for each format string, and `store` for an error a store returned. -/
inductive VErr where
  /-- Format "invalid genesis %v". -/
  | invalidGenesis (i : Input)
  /-- Format "invalid input %s". -/
  | invalidInput (hash : crypto.Hash) (index : Nat)
  | store (e : StoreErr)
  /-- Format "input not found %s:%d". -/
  | inputNotFound (hash : crypto.Hash) (index : Nat)
  /-- Format "invalid input asset %s %s". -/
  | invalidInputAsset (utxoAsset txAsset : crypto.Hash)
  /-- Format "input locked for transaction %s". -/
  | inputLocked (lockHash : crypto.Hash)
  /-- Format "batch verification not ready %d %d". -/
  | batchNotReady (inputs keySigs : Nat)
  /-- Format "aggregate verification failure %s". -/
  | aggregateFailure
  /-- Format "batch verification failure %d %d". -/
  | batchFailure (keys sigs : Nat)
  /-- Format "invalid output keys count %d". -/
  | invalidOutputKeysCount (n : Nat)
  /-- Format "invalid output amount %s". -/
  | invalidOutputAmount (a : Integer)
  /-- Format "invalid output key %s". -/
  | invalidOutputKey (k : crypto.Key)
  /-- Format "invalid output key format %s". -/
  | invalidOutputKeyFormat (k : crypto.Key)
  /-- Format "invalid output keys count %d for kernel multisig transaction". -/
  | kernelMultisigKeys (n : Nat)
  /-- Format "invalid output script %s for kernel multisig transaction". -/
  | kernelMultisigScript (s : List Nat)
  /-- Format "invalid output empty mask %s for kernel multisig transaction". -/
  | kernelMultisigMask (m : crypto.Key)
  /-- The error of `Script.VerifyFormat`. -/
  | scriptFormat (s : List Nat)
  /-- Format "invalid script output empty mask %s". -/
  | scriptOutputEmptyMask (m : crypto.Key)
  /-- Format "invalid script output with withdrawal %s". -/
  | scriptOutputWithdrawal (a : String)
  /-- Format "invalid input output amount %s %s". -/
  | invalidInputOutputAmount (input output : Integer)
  /-- Format "invalid signature map index %d %d". -/
  | invalidSignatureMapIndex (i keys : Nat)
  /-- The error of `Script.Validate`. -/
  | scriptValidate (s : List Nat) (signers : Nat)
  /-- Format "pledge input used for invalid transaction type %d". -/
  | pledgeInputInvalidType (txType : Nat)
  /-- Format "accept input used for invalid transaction type %d". -/
  | acceptInputInvalidType (txType : Nat)
  /-- Format "should do more validation on those %d UTXOs". -/
  | moreValidation (utxoType : Nat)
  /-- Format "invalid input type %d". -/
  | invalidInputType (utxoType : Nat)
  deriving DecidableEq, Repr

/-! ## common/validation.go -/

/-- The map `keySigs` of validateInputs. Its Go keys are the pointers `utxo.Keys[i]`; every UTXO
read brings its own keys, so a pointer is named by the position of its key in `allKeys`
(`offset + i`). An entry holds that position, the key and the signature (nil in the
aggregated case). -/
abbrev KeySigs := List (Nat × crypto.Key × Option crypto.Signature)

/-- The assignment `keySigs[p] = s`: overwrite the entry of the pointer, or add one. -/
def KeySigs.assign : KeySigs → Nat → crypto.Key → Option crypto.Signature → KeySigs
  | [], pos, k, s => [(pos, k, s)]
  | (p, k0, s0) :: rest, pos, k, s =>
    if p = pos then (p, k, s) :: rest else (p, k0, s0) :: KeySigs.assign rest pos k s

/-- The loop over `as.Signers` of validateUTXO (lines 322-330): gives the marked keySigs and the
count `signers`. -/
def aggregatedSignersLoop (utxo : UTXO) (offset limit : Int) :
    List Int → KeySigs → Nat → Except (Fault VErr) (KeySigs × Nat)
  | [], keySigs, signers => .ok (keySigs, signers)
  | m :: rest, keySigs, signers =>
    if m ≥ limit then .ok (keySigs, signers)
    else if m < offset then aggregatedSignersLoop utxo offset limit rest keySigs signers
    else
      match utxo.Keys[(m - offset).toNat]? with
      | none => .error .goPanic
      | some k =>
        aggregatedSignersLoop utxo offset limit rest (keySigs.assign m.toNat k none) (signers + 1)

/-- The loop over `sigs[index]` of validateUTXO (lines 333-338). -/
def signaturesLoop (utxo : UTXO) (offset : Nat) : SigMap → KeySigs → Except (Fault VErr) KeySigs
  | [], keySigs => .ok keySigs
  | (i, sig) :: rest, keySigs =>
    if i ≥ utxo.Keys.length then .error (.err (.invalidSignatureMapIndex i utxo.Keys.length))
    else
      match utxo.Keys[i]? with
      | none => .error .goPanic
      | some k => signaturesLoop utxo offset rest (keySigs.assign (offset + i) k (some sig))

/-- The function `validateUTXO`; returns the keySigs it leaves when it returns no error. -/
def validateUTXO (c : Config) (x : Collab) (index : Nat) (utxo : UTXO) (sigs : List SigMap)
    (as : Option AggregatedSignature) (txType : Nat) (keySigs : KeySigs) (offset : Nat) :
    Except (Fault VErr) KeySigs :=
  if utxo.Typ = c.OutputTypeScript ∨ utxo.Typ = c.OutputTypeNodeRemove then
    match as with
    | some a =>
      match aggregatedSignersLoop utxo offset (offset + utxo.Keys.length) a.Signers keySigs 0 with
      | .error e => .error e
      | .ok (ks, signers) =>
        if x.Validate utxo.Script signers then .ok ks
        else .error (.err (.scriptValidate utxo.Script signers))
    | none =>
      match sigs[index]? with
      | none => .error .goPanic
      | some sm =>
        match signaturesLoop utxo offset sm keySigs with
        | .error e => .error e
        | .ok ks =>
          if x.Validate utxo.Script sm.length then .ok ks
          else .error (.err (.scriptValidate utxo.Script sm.length))
  else if utxo.Typ = c.OutputTypeNodePledge then
    if txType = c.TransactionTypeNodeAccept ∨ txType = c.TransactionTypeNodeCancel then .ok keySigs
    else .error (.err (.pledgeInputInvalidType txType))
  else if utxo.Typ = c.OutputTypeNodeAccept then
    if txType = c.TransactionTypeNodeRemove then .ok keySigs
    else .error (.err (.acceptInputInvalidType txType))
  else if utxo.Typ = c.OutputTypeNodeCancel then .error (.err (.moreValidation utxo.Typ))
  else .error (.err (.invalidInputType utxo.Typ))

/-- The fingerprint `fk` of an input, "%s:%d" of the hex of its hash and of its index. The hex of
a hash has 64 digits, so the string determines the pair, and the pair stands for it. -/
abbrev Fingerprint := crypto.Hash × Nat

/-- The fingerprint of an input. -/
def Input.fk (i : Input) : Fingerprint := (i.Hash, i.Index)

/-- The variables of the loop of validateInputs. The map `inputsFilter` is the list of its
entries in the order they were added. -/
structure InputsState where
  inputsFilter : List (Fingerprint × UTXO)
  inputAmount : Integer
  allKeys : List crypto.Key
  keySigs : KeySigs
  deriving DecidableEq, Repr

/-- How the loop over `tx.Inputs` ends when it yields no error: by the `return` of a Mint or
Deposit input, or by running off the inputs. -/
inductive InputsExit where
  | returned (inputsFilter : List (Fingerprint × UTXO)) (inputAmount : Integer)
  | completed (st : InputsState)
  deriving DecidableEq, Repr

/-- The loop of validateInputs (lines 176-218), from input number `i` on. -/
def validateInputsLoop (c : Config) (x : Collab) (store : UTXOLockReader) (tx : SignedTransaction)
    (hash : crypto.Hash) (txType : Nat) (fork : Bool) :
    Nat → List Input → InputsState → Except (Fault VErr) InputsExit
  | _, [], st => .ok (.completed st)
  | i, inp :: rest, st =>
    if inp.Genesis.length > 0 then .error (.err (.invalidGenesis inp))
    else
      match inp.Mint with
      | some mint => .ok (.returned st.inputsFilter mint.Amount)
      | none =>
        match inp.Deposit with
        | some deposit => .ok (.returned st.inputsFilter deposit.Amount)
        | none =>
          if st.inputsFilter.any (fun e => e.1 = inp.fk) then
            .error (.err (.invalidInput inp.Hash inp.Index))
          else
            match store.ReadUTXOLock inp.Hash inp.Index with
            | .error e => .error (.err (.store e))
            | .ok none => .error (.err (.inputNotFound inp.Hash inp.Index))
            | .ok (some utxo) =>
              if utxo.Asset ≠ tx.Asset then
                .error (.err (.invalidInputAsset utxo.Asset tx.Asset))
              else if crypto.HasValue utxo.LockHash ∧ utxo.LockHash ≠ hash ∧ fork = false then
                .error (.err (.inputLocked utxo.LockHash))
              else
                match validateUTXO c x i utxo.toUTXO tx.sigs tx.AggregatedSignature txType
                    st.keySigs st.allKeys.length with
                | .error e => .error e
                | .ok ks =>
                  validateInputsLoop c x store tx hash txType fork (i + 1) rest
                    { inputsFilter := st.inputsFilter ++ [(inp.fk, utxo.toUTXO)]
                      inputAmount := st.inputAmount + utxo.Amount
                      allKeys := st.allKeys ++ utxo.Keys
                      keySigs := ks }

/-- The method `validateInputs`; gives `inputsFilter` and `inputAmount` when the error is nil. -/
def validateInputs (c : Config) (x : Collab) (store : UTXOLockReader) (tx : SignedTransaction)
    (hash : crypto.Hash) (txType : Nat) (fork : Bool) :
    Except (Fault VErr) (List (Fingerprint × UTXO) × Integer) :=
  match validateInputsLoop c x store tx hash txType fork 0 tx.Inputs
      { inputsFilter := [], inputAmount := 0, allKeys := [], keySigs := [] } with
  | .error e => .error e
  | .ok (.returned inputsFilter inputAmount) => .ok (inputsFilter, inputAmount)
  | .ok (.completed st) =>
    if st.keySigs.length = 0 ∧
        (txType = c.TransactionTypeNodeAccept ∨ txType = c.TransactionTypeNodeRemove) then
      .ok (st.inputsFilter, st.inputAmount)
    else if st.keySigs.length < tx.Inputs.length then
      .error (.err (.batchNotReady tx.Inputs.length st.keySigs.length))
    else
      match tx.AggregatedSignature with
      | some a =>
        if x.AggregateVerify a.Signature st.allKeys a.Signers hash then
          .ok (st.inputsFilter, st.inputAmount)
        else .error (.err .aggregateFailure)
      | none =>
        if x.BatchVerify hash (st.keySigs.map (fun e => e.2.1)) (st.keySigs.map (fun e => e.2.2))
        then .ok (st.inputsFilter, st.inputAmount)
        else .error (.err (.batchFailure st.keySigs.length st.keySigs.length))

/-- The variables of the loop of validateOutputs. The map `ghostKeysFilter` is the list of the
keys set to true. -/
structure OutputsState where
  outputAmount : Integer
  ghostKeysFilter : List crypto.Key
  ghostKeys : List crypto.Key
  deriving DecidableEq, Repr

/-- The loop over `o.Keys` of validateOutputs (lines 265-275). -/
def ghostKeysLoop (x : Collab) :
    List crypto.Key → List crypto.Key → List crypto.Key →
      Except (Fault VErr) (List crypto.Key × List crypto.Key)
  | [], ghostKeysFilter, ghostKeys => .ok (ghostKeysFilter, ghostKeys)
  | k :: rest, ghostKeysFilter, ghostKeys =>
    if k ∈ ghostKeysFilter then .error (.err (.invalidOutputKey k))
    else if x.CheckKey k = false then .error (.err (.invalidOutputKeyFormat k))
    else ghostKeysLoop x rest (ghostKeysFilter ++ [k]) (ghostKeys ++ [k])

/-- The output types of the first case of the switch of validateOutputs (lines 278-282). -/
def isKernelMultisig (c : Config) (t : Nat) : Prop :=
  t = c.OutputTypeWithdrawalSubmit ∨ t = c.OutputTypeWithdrawalClaim ∨
    t = c.OutputTypeNodePledge ∨ t = c.OutputTypeNodeCancel ∨ t = c.OutputTypeNodeAccept

instance (c : Config) (t : Nat) : Decidable (isKernelMultisig c t) := by
  unfold isKernelMultisig; infer_instance

/-- The loop of validateOutputs (lines 252-305). -/
def validateOutputsLoop (c : Config) (x : Collab) :
    List Output → OutputsState → Except (Fault VErr) OutputsState
  | [], st => .ok st
  | o :: rest, st =>
    if o.Keys.length > c.SliceCountLimit then .error (.err (.invalidOutputKeysCount o.Keys.length))
    else if o.Amount ≤ 0 then .error (.err (.invalidOutputAmount o.Amount))
    else if o.Withdrawal.isSome then
      validateOutputsLoop c x rest { st with outputAmount := st.outputAmount + o.Amount }
    else
      match ghostKeysLoop x o.Keys st.ghostKeysFilter st.ghostKeys with
      | .error e => .error e
      | .ok (ghostKeysFilter, ghostKeys) =>
        if isKernelMultisig c o.Typ then
          if o.Keys.length ≠ 0 then .error (.err (.kernelMultisigKeys o.Keys.length))
          else if o.Script.length ≠ 0 then .error (.err (.kernelMultisigScript o.Script))
          else if crypto.HasValue o.Mask then .error (.err (.kernelMultisigMask o.Mask))
          else
            validateOutputsLoop c x rest
              { outputAmount := st.outputAmount + o.Amount
                ghostKeysFilter := ghostKeysFilter
                ghostKeys := ghostKeys }
        else
          if x.VerifyFormat o.Script = false then .error (.err (.scriptFormat o.Script))
          else if crypto.HasValue o.Mask = false then
            .error (.err (.scriptOutputEmptyMask o.Mask))
          else
            match o.Withdrawal with
            | some w => .error (.err (.scriptOutputWithdrawal w.Address))
            | none =>
              validateOutputsLoop c x rest
                { outputAmount := st.outputAmount + o.Amount
                  ghostKeysFilter := ghostKeysFilter
                  ghostKeys := ghostKeys }

/-- The method `validateOutputs`, run on the ghost-key store in state `s`; gives its result and
the state of the store afterwards. -/
def validateOutputs {σ : Type} (c : Config) (x : Collab) (store : GhostLocker σ) (s : σ)
    (tx : Transaction) (hash : crypto.Hash) (inputAmount : Integer) (fork : Bool) :
    Except (Fault VErr) Unit × σ :=
  match validateOutputsLoop c x tx.Outputs
      { outputAmount := 0, ghostKeysFilter := [], ghostKeys := [] } with
  | .error e => (.error e, s)
  | .ok st =>
    if inputAmount ≠ st.outputAmount then
      (.error (.err (.invalidInputOutputAmount inputAmount st.outputAmount)), s)
    else
      match store.LockGhostKeys s st.ghostKeys hash fork with
      | (some e, s1) => (.error (.err (.store e)), s1)
      | (none, s1) => (.ok (), s1)

/-- Modelled from the spec: the method `Count` of the money type (its "count-of-steps"), which
the files call but do not declare; `x.Count(y)` is the quotient `so.amount /
ExtraStoragePriceStep` of the extra-size limit of §4.1. GetExtraLimit multiplies the result
with an integer constant and converts the product with `int(limit)` (lines 117-121), so the
result is a machine integer that is not an `int`: it is taken as a `uint64`, a quotient that
does not fit being reduced modulo 2^64. -/
def Integer.Count (x y : Integer) : Nat := (x / y).toNat % 2 ^ 64

/-- The conversion `int(u)` of a `uint64` to the signed 64-bit type `int`. -/
def uint64ToInt (u : Nat) : Int :=
  if u % 2 ^ 64 < 2 ^ 63 then ((u % 2 ^ 64 : Nat) : Int) else ((u % 2 ^ 64 : Nat) : Int) - 2 ^ 64

/-- The loop of findStorageOutput (lines 126-139) from output number `i` on. The pointer `so` is
nil or points to one of `tx.Outputs`; it is held as the position and the output it points to. -/
def findStorageOutputLoop (x : Collab) :
    Nat → List Output → Option (Nat × Output) → Option (Nat × Output)
  | _, [], so => so
  | i, out :: rest, so =>
    if out.Keys.length ≠ 1 then findStorageOutputLoop x (i + 1) rest so
    else if x.ScriptString out.Script ≠ "fffe40" then findStorageOutputLoop x (i + 1) rest so
    else
      let so1 : Nat × Output := match so with
        | none => (i, out)
        | some s => s
      let so2 : Nat × Output := if out.Amount > so1.2.Amount then (i, out) else so1
      findStorageOutputLoop x (i + 1) rest (some so2)

/-- The position in `tx.Outputs` of the output findStorageOutput returns, if it returns one. -/
def findStorageOutputIndex (x : Collab) (tx : Transaction) : Option Nat :=
  (findStorageOutputLoop x 0 tx.Outputs none).map (fun s => s.1)

/-- The method `findStorageOutput`. -/
def findStorageOutput (x : Collab) (tx : Transaction) : Option Output :=
  (findStorageOutputLoop x 0 tx.Outputs none).map (fun s => s.2)

/-- The method `GetExtraLimit`. The product `cells * ExtraSizeStorageStep` is a `uint64`
product: it wraps at 2^64. -/
def GetExtraLimit (c : Config) (x : Collab) (tx : Transaction) : Except (Fault VErr) Int :=
  if tx.Version < c.TxVersionHashSignature then .error .goPanic
  else if tx.Asset ≠ c.XINAssetId then .ok c.ExtraSizeGeneralLimit
  else
    match findStorageOutput x tx with
    | none => .ok c.ExtraSizeGeneralLimit
    | some out =>
      if out.Typ = c.OutputTypeScript then
        let step := c.ExtraStoragePriceStep
        if out.Amount < step then .ok c.ExtraSizeGeneralLimit
        else
          let cells := Integer.Count out.Amount step
          let limit : Nat := (((cells : Int) * c.ExtraSizeStorageStep) % 2 ^ 64).toNat
          if (limit : Int) > c.ExtraSizeStorageCapacity then .ok c.ExtraSizeStorageCapacity
          else .ok (uint64ToInt limit)
      else if out.Typ = c.OutputTypeCustodianUpdateNodes then .ok c.ExtraSizeStorageCapacity
      else .ok c.ExtraSizeGeneralLimit

/-! ## kernel/election.go -/

/-- The constant `MaxKernelNodesCount`. -/
def MaxKernelNodesCount : Nat := 50

/-- The constant `time.Hour` of the Go library, in nanoseconds. -/
def timeHour : Nat := 3600000000000

/-- A value of type `uint64`: arithmetic on it wraps at 2^64. -/
def u64 (n : Nat) : Nat := n % 2 ^ 64

/-- Subtraction of `uint64` values. -/
def u64sub (a b : Nat) : Nat := (u64 a + (2 ^ 64 - u64 b)) % 2 ^ 64

/-- The conversion `uint64(d)` of a signed 64-bit value. -/
def toUint64 (d : Int) : Nat := (d % 2 ^ 64).toNat

/-- The conversion `time.Duration(u)` of a `uint64` to a signed 64-bit value. -/
def toDuration (u : Nat) : Int := if u64 u < 2 ^ 63 then (u64 u : Int) else (u64 u : Int) - 2 ^ 64

/-- The states of a node (§3 of the specification). -/
inductive NodeState where
  | Pledging
  | Accepted
  | Cancelled
  | Removed
  deriving DecidableEq, Repr

structure CNode where
  IdForNetwork : crypto.Hash
  Signer : Address
  Payee : Address
  Transaction : crypto.Hash
  Timestamp : Nat
  State : NodeState
  deriving DecidableEq, Repr

/-- The fields of a snapshot that the election code reads. -/
structure Snapshot where
  NodeId : crypto.Hash
  RoundNumber : Nat
  Timestamp : Nat
  deriving DecidableEq, Repr

/-- A versioned transaction is a signed transaction with cached bytes. -/
abbrev VersionedTransaction := SignedTransaction

/-- The field `State` of a chain; the election code reads whether it is nil and the number of
its cache round. -/
structure ChainState where
  CacheRoundNumber : Nat
  deriving DecidableEq, Repr

/-- A chain, without the pointer to its node, which the functions take as an argument. -/
structure Chain where
  ChainId : crypto.Hash
  ConsensusInfo : Option CNode
  State : Option ChainState
  deriving DecidableEq, Repr

/-- The kernel node as the election code reads it. The methods and store calls that the file
uses but does not declare are fields. -/
structure Node where
  IdForNetwork : crypto.Hash
  Epoch : Nat
  GraphTimestamp : Nat
  networkId : crypto.Hash
  allNodesSortedWithState : List CNode
  genesisNodes : List crypto.Hash
  /-- The method `NodesListWithoutState(threshold, acceptedOnly)`. -/
  NodesListWithoutState : Nat → Bool → List CNode
  /-- The method `PledgingNode(timestamp)`. -/
  PledgingNode : Nat → Option CNode
  /-- The call `persistStore.ReadTransaction(hash)`: an error, nil or the transaction. -/
  ReadTransaction : crypto.Hash → Except StoreErr (Option VersionedTransaction)
  /-- The value of `consensusSnap.SoleTransaction()` for the snapshot that
  `ReadLastConsensusSnapshotWithHack()` returns; none when the call panics. -/
  lastConsensusSoleTransaction : Option crypto.Hash
  /-- The method `getOrCreateChain(id)`. -/
  getOrCreateChain : crypto.Hash → Chain
  /-- The call `persistStore.AddNodeOperation(tx, timestamp, threshold, finalized)`: its error. -/
  AddNodeOperation : VersionedTransaction → Nat → Nat → Bool → Option StoreErr

/-- The errors the election code builds with `fmt.Errorf`, one constructor for each format
string, and `store` for an error a store returned. -/
inductive KErr where
  | store (e : StoreErr)
  /-- Format "still pledging now %s". -/
  | stillPledging (signer : Address)
  /-- Format "local time invalid %d %d". -/
  | localTimeInvalid (now epoch : Nat)
  /-- Format "invalid node remove hour %d". -/
  | invalidRemoveHour (hour : Nat)
  /-- Format "invalid timestamp %d %d". -/
  | invalidTimestamp (nodeTimestamp now : Nat)
  /-- Format "invalid period %d %d %d %d". -/
  | invalidPeriod (minimum elapse : Int) (now nodeTimestamp : Nat)
  /-- Format "invalid node pending state %s %s". -/
  | invalidNodePendingState (signer : Address) (state : NodeState)
  /-- Format "all old nodes removed %d". -/
  | allOldNodesRemoved (accepted : Nat)
  /-- Format "never handle the node remove transaction by the node self". -/
  | removeBySelf
  /-- Format "accept transaction not available yet %s". -/
  | acceptNotAvailable (hash : crypto.Hash)
  /-- Format "accept transaction malformed %s %s". -/
  | acceptMalformed (expected actual : crypto.Hash)
  /-- Format "invalid accept transaction extra %s". -/
  | invalidAcceptExtra (extra : List Nat)
  /-- Format "invalid accept transaction extra %s %s %s". -/
  | invalidAcceptExtraKeys (extra : List Nat) (signer : crypto.Key) (payee : List Nat)
  /-- Format "node remove operation at %d only by %s not %s". -/
  | removeOnlyBy (timestamp : Nat) (eid nodeId : crypto.Hash)
  /-- Format "invalid node remove transaction %s %s". -/
  | invalidRemoveTransaction (built given : crypto.Hash)
  /-- Format "invalid graph round %s %d". -/
  | invalidGraphRound (chainId : crypto.Hash) (number : Nat)
  /-- Format "no consensus pledging node %t". -/
  | noConsensusPledgingNode
  /-- Format "invalid consensus pledging node %s %s". -/
  | invalidConsensusPledgingNode (pledging info : Address)
  /-- Format "invalid snapshot timestamp %d %d". -/
  | invalidSnapshotTimestamp (bound timestamp : Nat)
  /-- Format "invalid node accept hour %d". -/
  | invalidAcceptHour (hour : Nat)
  /-- Format "invalid accept period %d %d". -/
  | invalidAcceptPeriod (bound elapse : Int)
  /-- Format "pledge transaction not available yet %s". -/
  | pledgeNotAvailable (hash : crypto.Hash)
  /-- Format "pledge transaction malformed %s %s". -/
  | pledgeMalformed (expected actual : crypto.Hash)
  /-- Format "invalid pledge transaction extra %s". -/
  | invalidPledgeExtra (extra : List Nat)
  /-- Format "invalid pledge transaction extra %s %s". -/
  | invalidPledgeExtraSigner (extra : List Nat) (signer : crypto.Key)
  /-- Format "invalid snapshot round %d". -/
  | invalidSnapshotRound (round : Nat)
  /-- Format "invalid node accept transaction %s %s". -/
  | invalidAcceptTransaction (built given : crypto.Hash)
  /-- Format "node pledge operation at %d only by %s not %s". -/
  | pledgeOnlyBy (timestamp : Nat) (eid nodeId : crypto.Hash)
  /-- Format "invalid node pledge hour %d". -/
  | invalidPledgeHour (hour : Nat)
  /-- Format "invalid pledge amount %s". -/
  | invalidPledgeAmount (amount : Integer)
  /-- Format "invalid pledge period %d %d". -/
  | invalidPledgePeriod (minimum elapse : Int)
  /-- Format "invalid node signer key %s %s". -/
  | invalidNodeSignerKey (extra : List Nat) (address : Address)
  /-- Format "maximum kernel nodes count reached because cosi signauture mask limit %s". -/
  | maximumNodesReached (hash : crypto.Hash)
  /-- Format "invalid consensus status". -/
  | invalidConsensusStatus
  /-- Format "invalid node cancel hour %d". -/
  | invalidCancelHour (hour : Nat)
  /-- Format "invalid cancel period %d %d". -/
  | invalidCancelPeriod (bound elapse : Int)
  deriving DecidableEq, Repr

/-- The operations the switch of electSnapshotNode lets through (lines 54-62). -/
def isElectedOperation (c : Config) (operation : Nat) : Prop :=
  operation = c.TransactionTypeMint ∨ operation = c.TransactionTypeNodeRemove ∨
    operation = c.TransactionTypeNodePledge ∨
    operation = c.TransactionTypeCustodianUpdateNodes ∨
    operation = c.TransactionTypeCustodianSlashNodes

instance (c : Config) (operation : Nat) : Decidable (isElectedOperation c operation) := by
  unfold isElectedOperation; infer_instance

/-- The value `day` of electSnapshotNode (line 68): the `uint64` difference of `now` and the
epoch, in days. -/
def electionDay (epoch now : Nat) : Nat := u64sub now epoch / (timeHour * 24)

/-- The slice expression `s[1 : len(s)-1]`; none when it panics. -/
def sliceInner {α : Type} (s : List α) : Option (List α) :=
  if s.length < 2 then none else some ((s.drop 1).take (s.length - 2))

/-- The method `electSnapshotNode`. -/
def electSnapshotNode (c : Config) (node : Node) (operation : Nat) (now : Nat) :
    Except (Fault KErr) crypto.Hash :=
  if isElectedOperation c operation then
    let accepted := node.NodesListWithoutState now true
    if accepted.length < c.KernelMinimumNodesCount then .error .goPanic
    else
      match sliceInner accepted with
      | none => .error .goPanic
      | some accepted1 =>
        let day := electionDay node.Epoch now
        if accepted1.length = 0 then .error .goPanic
        else
          let idx := (day + operation) % accepted1.length
          match accepted1[idx]? with
          | none => .error .goPanic
          | some n => .ok n.IdForNetwork
  else .ok 0

/-- The value `hour` of the hour checks: `(timestamp - node.Epoch) / uint64(time.Hour) % 24`. -/
def consensusHour (node : Node) (timestamp : Nat) : Nat :=
  u64sub timestamp node.Epoch / timeHour % 24

/-- The method `checkConsensusAcceptHour`. -/
def checkConsensusAcceptHour (c : Config) (node : Node) (timestamp : Nat) : Bool :=
  let hour := consensusHour node timestamp
  decide (hour ≥ c.KernelNodeAcceptTimeBegin) && decide (hour ≤ c.KernelNodeAcceptTimeEnd)

/-- The method `checkConsensusPledgeHour`. -/
def checkConsensusPledgeHour (c : Config) (node : Node) (timestamp : Nat) : Bool :=
  let hour := consensusHour node timestamp
  let isMint := decide (hour ≥ c.KernelMintTimeBegin) && decide (hour ≤ c.KernelMintTimeEnd)
  let isAccept :=
    decide (hour ≥ c.KernelNodeAcceptTimeBegin) && decide (hour ≤ c.KernelNodeAcceptTimeEnd)
  !isMint && !isAccept

/-- The method `checkNodeAcceptPossibility` of a chain of `node`. -/
def checkNodeAcceptPossibility (c : Config) (x : Collab) (node : Node) (chain : Chain)
    (timestamp : Nat) (finalized : Bool) : Except (Fault KErr) Unit :=
  let epoch := node.Epoch
  match chain.State with
  | some st => .error (.err (.invalidGraphRound chain.ChainId st.CacheRoundNumber))
  | none =>
    match node.PledgingNode timestamp with
    | none => .error (.err .noConsensusPledgingNode)
    | some pledging =>
      match chain.ConsensusInfo with
      | none => .error .goPanic
      | some ci =>
        if x.AddressString pledging.Signer ≠ x.AddressString ci.Signer then
          .error (.err (.invalidConsensusPledgingNode pledging.Signer ci.Signer))
        else if timestamp < epoch then .error (.err (.invalidSnapshotTimestamp epoch timestamp))
        else if checkConsensusAcceptHour c node timestamp = false then
          .error (.err (.invalidAcceptHour (consensusHour node timestamp)))
        else
          let threshold := u64 (c.SnapshotRoundGap * c.SnapshotReferenceThreshold)
          if finalized = false ∧ u64 (timestamp + u64 (threshold * 2)) < node.GraphTimestamp then
            .error (.err (.invalidSnapshotTimestamp node.GraphTimestamp timestamp))
          else if timestamp < pledging.Timestamp then
            .error (.err (.invalidSnapshotTimestamp pledging.Timestamp timestamp))
          else
            let elapse := toDuration (u64sub timestamp pledging.Timestamp)
            if elapse < c.KernelNodeAcceptPeriodMinimum then
              .error (.err (.invalidAcceptPeriod c.KernelNodeAcceptPeriodMinimum elapse))
            else if elapse > c.KernelNodeAcceptPeriodMaximum then
              .error (.err (.invalidAcceptPeriod c.KernelNodeAcceptPeriodMaximum elapse))
            else .ok ()

/-- The `n` bytes that spell `v` big-endian. -/
def natToBytes : Nat → Nat → List Nat
  | 0, _ => []
  | n + 1, v => natToBytes n (v / 256) ++ [v % 256]

/-- The number a list of bytes spells big-endian. -/
def bytesToNat (bs : List Nat) : Nat := bs.foldl (fun acc b => acc * 256 + b) 0

/-- The slice `k[:]` of a key: its 32 bytes. -/
def crypto.keyBytes (k : crypto.Key) : List Nat := natToBytes 32 k

/-- The key that `copy(key[:], src)` leaves in a zero key: the first 32 bytes of `src`, the
rest zero. -/
def crypto.copyKey (src : List Nat) : crypto.Key :=
  bytesToNat (src.take 32 ++ List.replicate (32 - src.length) 0)

/-- Modelled from the spec: the constructors `NewTransaction`, `AddInput`, `AddOutputWithType`
and `AsVersioned`, which the file calls but does not declare, as they build the accept
transaction of §4.3 (Build Accept, step 5): input (pledge.hash, 0), one output of type NodeAccept
with the amount of the pledge and no keys, script or mask, extra of the pledge, and the
reference to the sole transaction of the last consensus snapshot. -/
def newNodeAcceptTransaction (c : Config) (pledgeHash : crypto.Hash) (amount : Integer)
    (extra : List Nat) (reference : crypto.Hash) : VersionedTransaction :=
  { Version := c.TxVersionHashSignature
    Asset := c.XINAssetId
    Inputs := [{ Hash := pledgeHash, Index := 0, Genesis := [], Deposit := none, Mint := none }]
    Outputs := [{ Typ := c.OutputTypeNodeAccept, Amount := amount, Keys := [],
                  Withdrawal := none, Script := [], Mask := 0 }]
    References := [reference]
    Extra := extra
    AggregatedSignature := none
    SignaturesMap := none }

/-- The method `buildNodeAcceptTransaction` of a chain of `node`. -/
def buildNodeAcceptTransaction (c : Config) (x : Collab) (node : Node) (chain : Chain)
    (timestamp : Nat) (finalized : Bool) : Except (Fault KErr) VersionedTransaction :=
  match checkNodeAcceptPossibility c x node chain timestamp finalized with
  | .error e => .error e
  | .ok () =>
    match chain.ConsensusInfo with
    | none => .error .goPanic
    | some ci =>
      match node.ReadTransaction ci.Transaction with
      | .error e => .error (.err (.store e))
      | .ok none => .error (.err (.pledgeNotAvailable ci.Transaction))
      | .ok (some pledge) =>
        if x.PayloadHash pledge ≠ ci.Transaction then
          .error (.err (.pledgeMalformed ci.Transaction (x.PayloadHash pledge)))
        else
          let signer := ci.Signer.PublicSpendKey
          if pledge.Extra.length ≠ 32 * 2 then .error (.err (.invalidPledgeExtra pledge.Extra))
          else if crypto.keyBytes signer ≠ pledge.Extra.take 32 then
            .error (.err (.invalidPledgeExtraSigner (pledge.Extra.take 32) signer))
          else
            match pledge.Outputs[0]? with
            | none => .error .goPanic
            | some out0 =>
              match node.lastConsensusSoleTransaction with
              | none => .error .goPanic
              | some reference =>
                .ok (newNodeAcceptTransaction c ci.Transaction out0.Amount pledge.Extra reference)

/-- The timestamp a snapshot validator works with (lines 332-335, 485-488): the clock when the
snapshot has none and is this node's own, the snapshot's otherwise. -/
def snapshotTimestamp (node : Node) (clockNow : Nat) (s : Snapshot) : Nat :=
  if s.Timestamp = 0 ∧ s.NodeId = node.IdForNetwork then clockNow else s.Timestamp

/-- The method `validateNodeAcceptSnapshot`; `clockNow` is what `clock.NowUnixNano()` returns. -/
def validateNodeAcceptSnapshot (c : Config) (x : Collab) (node : Node) (clockNow : Nat)
    (s : Snapshot) (tx : VersionedTransaction) (finalized : Bool) : Except (Fault KErr) Unit :=
  let timestamp := snapshotTimestamp node clockNow s
  if s.RoundNumber ≠ 0 then .error (.err (.invalidSnapshotRound s.RoundNumber))
  else
    let chain := node.getOrCreateChain s.NodeId
    match buildNodeAcceptTransaction c x node chain timestamp finalized with
    | .error e => .error e
    | .ok ver =>
      if x.PayloadHash ver ≠ x.PayloadHash tx then
        .error (.err (.invalidAcceptTransaction (x.PayloadHash ver) (x.PayloadHash tx)))
      else .ok ()

/-- How the loop of validateNodePledgeSnapshot ends when it yields no error: by the `return nil`
on a node that records the transaction, or by running off the list with a count. -/
inductive PledgeExit where
  | returned
  | completed (totalNodes : Nat)
  deriving DecidableEq, Repr

/-- The loop of validateNodePledgeSnapshot (lines 508-533). -/
def validateNodePledgeLoop (c : Config) (x : Collab) (tx : VersionedTransaction)
    (timestamp : Nat) (signerSpend : crypto.Key) :
    List CNode → Nat → Except (Fault KErr) PledgeExit
  | [], totalNodes => .ok (.completed totalNodes)
  | cn :: rest, totalNodes =>
    if cn.Transaction = x.PayloadHash tx then .ok .returned
    else if cn.Timestamp > timestamp then
      .error (.err (.invalidSnapshotTimestamp cn.Timestamp timestamp))
    else
      let elapse := toDuration (u64sub timestamp cn.Timestamp)
      if elapse < c.KernelNodePledgePeriodMinimum then
        .error (.err (.invalidPledgePeriod c.KernelNodePledgePeriodMinimum elapse))
      else if x.KeyString cn.Signer.PublicSpendKey = x.KeyString signerSpend then
        .error (.err (.invalidNodeSignerKey tx.Extra cn.Signer))
      else if x.KeyString cn.Payee.PublicSpendKey = x.KeyString signerSpend then
        .error (.err (.invalidNodeSignerKey tx.Extra cn.Payee))
      else
        match cn.State with
        | .Accepted => validateNodePledgeLoop c x tx timestamp signerSpend rest (totalNodes + 1)
        | .Removed => validateNodePledgeLoop c x tx timestamp signerSpend rest totalNodes
        | .Cancelled => validateNodePledgeLoop c x tx timestamp signerSpend rest totalNodes
        | .Pledging => .error (.err (.invalidNodePendingState cn.Signer cn.State))

/-- The value `offset` of validateNodePledgeSnapshot (line 507), a `uint64` sum. -/
def pledgeOffset (c : Config) (timestamp : Nat) : Nat :=
  u64 (timestamp + toUint64 c.KernelNodePledgePeriodMinimum)

/-- The method `validateNodePledgeSnapshot`; `clockNow` is what `clock.NowUnixNano()` returns. -/
def validateNodePledgeSnapshot (c : Config) (x : Collab) (node : Node) (clockNow : Nat)
    (s : Snapshot) (tx : VersionedTransaction) (finalized : Bool) : Except (Fault KErr) Unit :=
  let timestamp := snapshotTimestamp node clockNow s
  match electSnapshotNode c node c.TransactionTypeNodePledge timestamp with
  | .error e => .error e
  | .ok eid =>
    if eid ≠ s.NodeId then .error (.err (.pledgeOnlyBy timestamp eid s.NodeId))
    else if timestamp < node.Epoch then
      .error (.err (.invalidSnapshotTimestamp node.Epoch timestamp))
    else if checkConsensusPledgeHour c node timestamp = false then
      .error (.err (.invalidPledgeHour (consensusHour node timestamp)))
    else
      match tx.Outputs[0]? with
      | none => .error .goPanic
      | some out0 =>
        if out0.Amount ≠ c.KernelNodePledgeAmount then
          .error (.err (.invalidPledgeAmount out0.Amount))
        else
          let signerSpend := crypto.copyKey tx.Extra
          let offset := pledgeOffset c timestamp
          match validateNodePledgeLoop c x tx timestamp signerSpend
              (node.NodesListWithoutState offset false) 0 with
          | .error e => .error e
          | .ok .returned => .ok ()
          | .ok (.completed totalNodes) =>
            if totalNodes ≥ MaxKernelNodesCount then
              .error (.err (.maximumNodesReached (x.PayloadHash tx)))
            else
              match node.AddNodeOperation tx timestamp
                  (u64 (toUint64 c.KernelNodePledgePeriodMinimum * 2)) finalized with
              | some e => .error (.err (.store e))
              | none => .ok ()

/-- The fields of a final round that the election code reads. -/
structure FinalRound where
  NodeId : crypto.Hash
  Number : Nat
  Hash : crypto.Hash
  deriving DecidableEq, Repr

/-- Collaborators of the remove and bootstrap paths of the election code that the file uses but
does not declare. -/
structure KernelCollab where
  /-- The method `NodeTransactionExtraAsSigner` of a transaction. -/
  NodeTransactionExtraAsSigner : VersionedTransaction → Address
  /-- The value `signer.Hash().ForNetwork(networkId)`. -/
  AddressIdForNetwork : Address → crypto.Hash → crypto.Hash
  /-- The script `common.NewThresholdScript(1)`. -/
  ThresholdScript1 : List Nat
  /-- The mask and the ghost key that `AddOutputWithType` derives for the payee of a candidate
  from the seed `blake3(payee ‖ "NODEREMOVE" ‖ signer)` doubled. -/
  RemoveOutputGhost : CNode → crypto.Key × crypto.Key
  /-- The function `loadFinalRoundForNode(store, id, number)`. -/
  loadFinalRoundForNode : crypto.Hash → Nat → Except StoreErr FinalRound

/-- How far the loop of checkRemovePossibility has got: the candidate named by `old`, if any,
and the Accepted nodes seen. -/
structure RemoveState where
  candi : Option CNode
  accepted : List CNode
  deriving DecidableEq, Repr

/-- The condition `old != nil && h == old.PayloadHash()` of the remove path. -/
def namedByOld (x : Collab) (old : Option VersionedTransaction) (h : crypto.Hash) : Bool :=
  match old with
  | some o => decide (h = x.PayloadHash o)
  | none => false

/-- The loop of checkRemovePossibility (lines 88-109). -/
def checkRemoveLoop (c : Config) (x : Collab) (now : Nat) (old : Option VersionedTransaction) :
    List CNode → RemoveState → Except (Fault KErr) RemoveState
  | [], st => .ok st
  | cn :: rest, st =>
    if namedByOld x old cn.Transaction then
      checkRemoveLoop c x now old rest { st with candi := some cn }
    else if now < cn.Timestamp then .error (.err (.invalidTimestamp cn.Timestamp now))
    else
      let elapse := toDuration (u64sub now cn.Timestamp)
      if elapse < c.KernelNodePledgePeriodMinimum then
        .error (.err (.invalidPeriod c.KernelNodePledgePeriodMinimum elapse now cn.Timestamp))
      else
        match cn.State with
        | .Accepted => checkRemoveLoop c x now old rest { st with accepted := st.accepted ++ [cn] }
        | .Cancelled => checkRemoveLoop c x now old rest st
        | .Removed => checkRemoveLoop c x now old rest st
        | .Pledging => .error (.err (.invalidNodePendingState cn.Signer cn.State))

/-- The method `checkRemovePossibility`. -/
def checkRemovePossibility (c : Config) (x : Collab) (node : Node) (nodeId : crypto.Hash)
    (now : Nat) (old : Option VersionedTransaction) : Except (Fault KErr) CNode :=
  match node.PledgingNode now with
  | some p => .error (.err (.stillPledging p.Signer))
  | none =>
    if now < node.Epoch then .error (.err (.localTimeInvalid now node.Epoch))
    else if checkConsensusAcceptHour c node now = false then
      .error (.err (.invalidRemoveHour (consensusHour node now)))
    else
      match checkRemoveLoop c x now old (node.NodesListWithoutState now false)
          { candi := none, accepted := [] } with
      | .error e => .error e
      | .ok st =>
        if st.accepted.length ≤ c.KernelMinimumNodesCount then
          .error (.err (.allOldNodesRemoved st.accepted.length))
        else
          let candi : Option CNode := match st.candi with
            | none => st.accepted[0]?
            | some cn => some cn
          match candi with
          | none => .error .goPanic
          | some cn =>
            if cn.IdForNetwork = nodeId then .error (.err .removeBySelf)
            else .ok cn

/-- Modelled from the spec: the constructors `NewTransaction`, `AddInput`, `AddOutputWithType`
and `AsVersioned`, which the file calls but does not declare, as they build the remove
transaction of §4.3 (Build Remove, step 5): input (candidate.transaction, 0), one output of type
NodeRemove for the payee of the candidate with the script Threshold(1) and the amount of the
accept output, extra of the accept, and the reference to the sole transaction of the last
consensus snapshot. -/
def newNodeRemoveTransaction (c : Config) (k : KernelCollab) (candi : CNode) (amount : Integer)
    (extra : List Nat) (reference : crypto.Hash) : VersionedTransaction :=
  { Version := c.TxVersionHashSignature
    Asset := c.XINAssetId
    Inputs := [{ Hash := candi.Transaction, Index := 0, Genesis := [], Deposit := none,
                 Mint := none }]
    Outputs := [{ Typ := c.OutputTypeNodeRemove, Amount := amount,
                  Keys := [(k.RemoveOutputGhost candi).2], Withdrawal := none,
                  Script := k.ThresholdScript1, Mask := (k.RemoveOutputGhost candi).1 }]
    References := [reference]
    Extra := extra
    AggregatedSignature := none
    SignaturesMap := none }

/-- The part of buildNodeRemoveTransaction after the return of `old` (lines 131-162): the
transaction built for the candidate from its accept transaction. -/
def buildNodeRemoveFromAccept (c : Config) (x : Collab) (k : KernelCollab) (node : Node)
    (candi : CNode) : Except (Fault KErr) VersionedTransaction :=
  match node.ReadTransaction candi.Transaction with
  | .error e => .error (.err (.store e))
  | .ok none => .error (.err (.acceptNotAvailable candi.Transaction))
  | .ok (some accept) =>
    if x.PayloadHash accept ≠ candi.Transaction then
      .error (.err (.acceptMalformed candi.Transaction (x.PayloadHash accept)))
    else
      let signer := candi.Signer.PublicSpendKey
      let payee := crypto.keyBytes candi.Payee.PublicSpendKey
      if accept.Extra.length ≠ 32 * 2 then .error (.err (.invalidAcceptExtra accept.Extra))
      else if crypto.keyBytes signer ++ payee ≠ accept.Extra then
        .error (.err (.invalidAcceptExtraKeys accept.Extra signer payee))
      else
        match accept.Outputs[0]? with
        | none => .error .goPanic
        | some out0 =>
          match node.lastConsensusSoleTransaction with
          | none => .error .goPanic
          | some reference =>
            .ok (newNodeRemoveTransaction c k candi out0.Amount accept.Extra reference)

/-- The method `buildNodeRemoveTransaction`. -/
def buildNodeRemoveTransaction (c : Config) (x : Collab) (k : KernelCollab) (node : Node)
    (nodeId : crypto.Hash) (timestamp : Nat) (old : Option VersionedTransaction) :
    Except (Fault KErr) VersionedTransaction :=
  match checkRemovePossibility c x node nodeId timestamp old with
  | .error e => .error e
  | .ok candi =>
    match old with
    | some o =>
      if candi.Transaction = x.PayloadHash o then .ok o
      else buildNodeRemoveFromAccept c x k node candi
    | none => buildNodeRemoveFromAccept c x k node candi

/-- The method `validateNodeRemoveSnapshot`; `clockNow` is what `clock.NowUnixNano()` returns. -/
def validateNodeRemoveSnapshot (c : Config) (x : Collab) (k : KernelCollab) (node : Node)
    (clockNow : Nat) (s : Snapshot) (tx : VersionedTransaction) (finalized : Bool) :
    Except (Fault KErr) Unit :=
  let timestamp := snapshotTimestamp node clockNow s
  match electSnapshotNode c node c.TransactionTypeNodeRemove timestamp with
  | .error e => .error e
  | .ok eid =>
    if eid ≠ s.NodeId then .error (.err (.removeOnlyBy timestamp eid s.NodeId))
    else
      let signer := k.NodeTransactionExtraAsSigner tx
      let id := k.AddressIdForNetwork signer node.networkId
      if node.allNodesSortedWithState.any (fun cn =>
          decide (cn.State = .Removed) && decide (cn.IdForNetwork = id) &&
            (finalized && decide (cn.Transaction = x.PayloadHash tx))) then .ok ()
      else
        match buildNodeRemoveTransaction c x k node s.NodeId timestamp (some tx) with
        | .error e => .error e
        | .ok cantx =>
          if x.PayloadHash cantx ≠ x.PayloadHash tx then
            .error (.err (.invalidRemoveTransaction (x.PayloadHash cantx) (x.PayloadHash tx)))
          else .ok ()

/-- The function `nodeDistance` of getInitialExternalReference: the absolute difference of the
two hashes as big-endian integers, modulo 100. -/
def nodeDistance (a b : crypto.Hash) : Nat := ((a : Int) - (b : Int)).natAbs % 100

/-- The loop of getInitialExternalReference (lines 473-479): the pair of `externalId` and
`distance`. -/
def externalReferenceLoop (nodeId : crypto.Hash) :
    List crypto.Hash → crypto.Hash × Nat → crypto.Hash × Nat
  | [], st => st
  | id :: rest, st =>
    let nd := nodeDistance nodeId id
    if nd < st.2 then externalReferenceLoop nodeId rest (id, nd)
    else externalReferenceLoop nodeId rest st

/-- The value of `externalId` when getInitialExternalReference calls loadFinalRoundForNode; none
when `node.genesisNodes[0]` panics. -/
def initialExternalId (node : Node) (s : Snapshot) : Option crypto.Hash :=
  match node.genesisNodes[0]? with
  | none => none
  | some g0 =>
    some (externalReferenceLoop s.NodeId node.genesisNodes (g0, nodeDistance s.NodeId g0)).1

/-- The method `getInitialExternalReference`. -/
def getInitialExternalReference (k : KernelCollab) (node : Node) (s : Snapshot) :
    Except (Fault KErr) FinalRound :=
  match initialExternalId node s with
  | none => .error .goPanic
  | some externalId =>
    match k.loadFinalRoundForNode externalId 0 with
    | .error e => .error (.err (.store e))
    | .ok round => .ok round

/-! ## The method Validate -/

/-- The errors that `Validate`, `validateReferences` and `validateScriptTransaction` build with
`fmt.Errorf`, one constructor for each format string; `store` for an error a store returned,
`inner` for an error of validateInputs or validateOutputs and `typed` for the error of a
validator of one transaction type that is not in the file. -/
inductive TxErr where
  /-- Format "invalid tx version %d". -/
  | invalidVersion (version : Nat)
  /-- Format "invalid tx type %d". -/
  | invalidType (txType : Nat)
  /-- Format "invalid tx inputs or outputs %d %d". -/
  | invalidInputsOrOutputs (inputs outputs : Nat)
  /-- Format "invalid tx inputs or outputs %d %d %d". -/
  | invalidCounts (inputs outputs references : Nat)
  /-- Format "invalid extra size %d". -/
  | invalidExtraSize (size : Nat)
  /-- Format "invalid transaction size %d". -/
  | invalidTransactionSize (size : Nat)
  /-- Format "invalid signatures map %d". -/
  | invalidSignaturesMap (size : Nat)
  /-- Format "invalid tx signature number %d %d %d". -/
  | invalidSignatureNumber (inputs signatures txType : Nat)
  /-- Format "too many references %d". -/
  | tooManyReferences (references : Nat)
  /-- Format "reference not found %s". -/
  | referenceNotFound (reference : crypto.Hash)
  /-- Format "invalid input amount %s". -/
  | invalidInputAmount (amount : Integer)
  /-- Format "invalid utxo type %d". -/
  | invalidUtxoType (utxoType : Nat)
  /-- Format "invalid transaction type %d". -/
  | invalidTransactionType (txType : Nat)
  | store (e : StoreErr)
  | inner (e : VErr)
  | typed (e : String)
  deriving DecidableEq, Repr

/-- What Validate uses besides `Config` and `Collab`: further constants, the methods
`TransactionType` and `PayloadMarshal`, the data store in a state `σ` and the validators of the
transaction types, which are not in the file. A validator gives back its error, if any, and
the state of the store it leaves. -/
structure ValidateEnv (σ : Type) where
  TransactionTypeUnknown : Nat
  TransactionTypeScript : Nat
  TransactionTypeDeposit : Nat
  TransactionTypeWithdrawalSubmit : Nat
  TransactionTypeWithdrawalClaim : Nat
  ReferencesCountLimit : Nat
  TransactionMaximumSize : Nat
  /-- The method `TransactionType`. -/
  TransactionType : SignedTransaction → Nat
  /-- The method `PayloadMarshal`. -/
  PayloadMarshal : VersionedTransaction → List Nat
  /-- The call `store.ReadTransaction(hash)`: an error, or the transaction (nil when absent) and
  the snapshot id. -/
  ReadTransaction : σ → crypto.Hash → Except StoreErr (Option VersionedTransaction × String)
  /-- The store as a reader of UTXOs. -/
  utxoReader : σ → UTXOLockReader
  /-- The store as a locker of ghost keys. -/
  ghostLocker : GhostLocker σ
  validateMint : σ → VersionedTransaction → Option String × σ
  validateDeposit :
    σ → SignedTransaction → crypto.Hash → Option (List SigMap) → Nat → Option String × σ
  validateWithdrawalSubmit : SignedTransaction → List (Fingerprint × UTXO) → Option String
  validateWithdrawalClaim :
    σ → SignedTransaction → List (Fingerprint × UTXO) → Nat → Option String × σ
  validateNodePledge :
    σ → SignedTransaction → List (Fingerprint × UTXO) → Nat → Option String × σ
  validateNodeCancel :
    σ → SignedTransaction → crypto.Hash → Option (List SigMap) → Nat → Option String × σ
  validateNodeAccept : σ → SignedTransaction → Nat → Option String × σ
  validateNodeRemove : σ → SignedTransaction → Option String × σ
  validateCustodianUpdateNodes : σ → SignedTransaction → Nat → Option String × σ
  validateCustodianSlashNodes : σ → SignedTransaction → Option String × σ

/-- The function `validateScriptTransaction`, over the entries of the map in the order they were
added. -/
def validateScriptTransaction {σ : Type} (c : Config) (v : ValidateEnv σ) :
    List (Fingerprint × UTXO) → Except (Fault TxErr) Unit
  | [] => .ok ()
  | e :: rest =>
    if e.2.Typ ≠ c.OutputTypeScript ∧ e.2.Typ ≠ c.OutputTypeNodeRemove then
      .error (.err (.invalidUtxoType e.2.Typ))
    else validateScriptTransaction c v rest

/-- The loop of validateReferences (lines 157-165). -/
def validateReferencesLoop {σ : Type} (v : ValidateEnv σ) (s : σ) :
    List crypto.Hash → Except (Fault TxErr) Unit
  | [] => .ok ()
  | r :: rest =>
    match v.ReadTransaction s r with
    | .error e => .error (.err (.store e))
    | .ok (rtx, snap) =>
      if rtx.isNone ∨ snap = "" then .error (.err (.referenceNotFound r))
      else validateReferencesLoop v s rest

/-- The function `validateReferences`. -/
def validateReferences {σ : Type} (v : ValidateEnv σ) (s : σ) (tx : SignedTransaction) :
    Except (Fault TxErr) Unit :=
  if tx.References.length > v.ReferencesCountLimit then
    .error (.err (.tooManyReferences tx.References.length))
  else validateReferencesLoop v s tx.References

/-- The result of a validator of one transaction type as a result of Validate. -/
def typedResult {σ : Type} (r : Option String × σ) : Except (Fault TxErr) Unit × σ :=
  match r with
  | (some e, s) => (.error (.err (.typed e)), s)
  | (none, s) => (.ok (), s)

/-- The switch on the transaction type at the end of Validate (lines 67-91). -/
def validateByType {σ : Type} (c : Config) (x : Collab) (v : ValidateEnv σ) (s : σ)
    (ver : VersionedTransaction) (txType : Nat) (inputsFilter : List (Fingerprint × UTXO))
    (snapTime : Nat) : Except (Fault TxErr) Unit × σ :=
  if txType = v.TransactionTypeScript then (validateScriptTransaction c v inputsFilter, s)
  else if txType = c.TransactionTypeMint then typedResult (v.validateMint s ver)
  else if txType = v.TransactionTypeDeposit then
    typedResult (v.validateDeposit s ver (x.PayloadHash ver) ver.SignaturesMap snapTime)
  else if txType = v.TransactionTypeWithdrawalSubmit then
    typedResult (v.validateWithdrawalSubmit ver inputsFilter, s)
  else if txType = v.TransactionTypeWithdrawalClaim then
    typedResult (v.validateWithdrawalClaim s ver inputsFilter snapTime)
  else if txType = c.TransactionTypeNodePledge then
    typedResult (v.validateNodePledge s ver inputsFilter snapTime)
  else if txType = c.TransactionTypeNodeCancel then
    typedResult (v.validateNodeCancel s ver (x.PayloadHash ver) ver.SignaturesMap snapTime)
  else if txType = c.TransactionTypeNodeAccept then
    typedResult (v.validateNodeAccept s ver snapTime)
  else if txType = c.TransactionTypeNodeRemove then typedResult (v.validateNodeRemove s ver)
  else if txType = c.TransactionTypeCustodianUpdateNodes then
    typedResult (v.validateCustodianUpdateNodes s ver snapTime)
  else if txType = c.TransactionTypeCustodianSlashNodes then
    typedResult (v.validateCustodianSlashNodes s ver)
  else (.error (.err (.invalidTransactionType txType)), s)

/-- The gate on the shape of the signatures of Validate (lines 39-49): its error, if any. -/
def signatureGate (c : Config) (tx : SignedTransaction) (txType : Nat) : Option TxErr :=
  match tx.AggregatedSignature with
  | some _ =>
    match tx.SignaturesMap with
    | some m => some (.invalidSignaturesMap m.length)
    | none => none
  | none =>
    if tx.Inputs.length ≠ tx.sigs.length ∧ txType ≠ c.TransactionTypeNodeAccept ∧
        txType ≠ c.TransactionTypeNodeRemove then
      some (.invalidSignatureNumber tx.Inputs.length tx.sigs.length txType)
    else none

/-- The gates of Validate before the references are read (lines 14-49): their error, if any. -/
def structuralGates {σ : Type} (c : Config) (x : Collab) (v : ValidateEnv σ)
    (ver : VersionedTransaction) (txType : Nat) : Option (Fault TxErr) :=
  if ver.Version ≠ c.TxVersionHashSignature then some (.err (.invalidVersion ver.Version))
  else if txType = v.TransactionTypeUnknown then some (.err (.invalidType txType))
  else if ver.Inputs.length < 1 ∨ ver.Outputs.length < 1 then
    some (.err (.invalidInputsOrOutputs ver.Inputs.length ver.Outputs.length))
  else if ver.Inputs.length > c.SliceCountLimit ∨ ver.Outputs.length > c.SliceCountLimit ∨
      ver.References.length > c.SliceCountLimit then
    some (.err (.invalidCounts ver.Inputs.length ver.Outputs.length ver.References.length))
  else
    match GetExtraLimit c x ver.toTransaction with
    | .error _ => some .goPanic
    | .ok limit =>
      if (ver.Extra.length : Int) > limit then some (.err (.invalidExtraSize ver.Extra.length))
      else if (v.PayloadMarshal ver).length > v.TransactionMaximumSize then
        some (.err (.invalidTransactionSize (v.PayloadMarshal ver).length))
      else
        match signatureGate c ver txType with
        | some e => some (.err e)
        | none => none

/-- An error of validateInputs or validateOutputs as an error of Validate. -/
def liftFault : Fault VErr → Fault TxErr
  | .err e => .err (.inner e)
  | .goPanic => .goPanic

/-- The method `Validate` on the data store in state `s`; gives its result and the state of the
store afterwards. -/
def Validate {σ : Type} (c : Config) (x : Collab) (v : ValidateEnv σ) (s : σ)
    (ver : VersionedTransaction) (snapTime : Nat) (fork : Bool) :
    Except (Fault TxErr) Unit × σ :=
  let txType := v.TransactionType ver
  match structuralGates c x v ver txType with
  | some e => (.error e, s)
  | none =>
    match validateReferences v s ver with
    | .error e => (.error e, s)
    | .ok () =>
      match validateInputs c x (v.utxoReader s) ver (x.PayloadHash ver) txType fork with
      | .error e => (.error (liftFault e), s)
      | .ok (inputsFilter, inputAmount) =>
        if inputAmount ≤ 0 then (.error (.err (.invalidInputAmount inputAmount)), s)
        else
          match validateOutputs c x v.ghostLocker s ver.toTransaction (x.PayloadHash ver)
              inputAmount fork with
          | (.error e, s1) => (.error (liftFault e), s1)
          | (.ok (), s1) => validateByType c x v s1 ver txType inputsFilter snapTime

/-! ## Reference definitions and sample values -/

/-- The amount of the UTXO the store returns for an input (zero when it returns none). -/
def storeAmount (store : UTXOLockReader) (inp : Input) : Integer :=
  match store.ReadUTXOLock inp.Hash inp.Index with
  | .ok (some utxo) => utxo.Amount
  | _ => 0

/-- An input that carries neither a Mint nor a Deposit descriptor. -/
def Input.plain (inp : Input) : Bool := inp.Mint.isNone && inp.Deposit.isNone

/-- The ghost keys validateOutputs collects: the keys of the outputs without a withdrawal, in
output order. -/
def collectedGhostKeys (outs : List Output) : List crypto.Key :=
  ((outs.filter (fun o => o.Withdrawal.isNone)).map (fun o => o.Keys)).flatten

/-- The keys of all the outputs, in output order. -/
def allOutputKeys (outs : List Output) : List crypto.Key :=
  (outs.map (fun o => o.Keys)).flatten

/-- The outputs findStorageOutput considers: exactly one key and the script "fffe40". -/
def isStorageOutput (x : Collab) (o : Output) : Bool :=
  o.Keys.length = 1 && x.ScriptString o.Script = "fffe40"

/-- The reference choice of the storage output, in the words of the specification: among the
outputs with exactly one key and script "fffe40", the one of maximum amount, the earliest one on
ties; none when there is no such output. -/
def storageOutputSpec (x : Collab) (outs : List Output) : Option Output :=
  match ((outs.filter (isStorageOutput x)).map (fun o => o.Amount)).max? with
  | none => none
  | some m => (outs.filter (isStorageOutput x)).find? (fun o => o.Amount = m)

/-- The reference definition of the extra limit, in the words of the specification. -/
def extraLimitSpec (c : Config) (x : Collab) (tx : Transaction) : Int :=
  if tx.Asset ≠ c.XINAssetId then c.ExtraSizeGeneralLimit
  else
    match storageOutputSpec x tx.Outputs with
    | none => c.ExtraSizeGeneralLimit
    | some so =>
      if so.Typ = c.OutputTypeCustodianUpdateNodes then c.ExtraSizeStorageCapacity
      else if (so.Typ ≠ c.OutputTypeScript ∧ so.Typ ≠ c.OutputTypeCustodianUpdateNodes) ∨
          so.Amount < c.ExtraStoragePriceStep then c.ExtraSizeGeneralLimit
      else min c.ExtraSizeStorageCapacity
        ((so.Amount / c.ExtraStoragePriceStep) * c.ExtraSizeStorageStep)

/-- One step of the choice of findStorageOutput on a considered output. -/
def storageStep (acc : Option Output) (o : Output) : Option Output :=
  match acc with
  | none => some o
  | some s => if o.Amount > s.Amount then some o else some s

/-- A storage output of the sample configuration. -/
def storageOutput (typ : Nat) (amount : Integer) : Output :=
  { Typ := typ, Amount := amount, Keys := [31], Withdrawal := none, Script := [255, 254, 64],
    Mask := 77 }

/-- The number of nodes of a list in state Accepted. -/
def acceptedCount (ns : List CNode) : Nat := ns.countP (fun cn => cn.State = .Accepted)

/-- Modelled from the spec: the finalisation of a Pledge, which is not in the two files; by §3
(Lifecycles) "a CNode is created by a finalised Pledge", in state Pledging. -/
def finalisePledge (ns : List CNode) (created : CNode) : List CNode :=
  ns ++ [{ created with State := .Pledging }]

/-- Modelled from the spec: the finalisation of an Accept, which is not in the two files; by §3
(Lifecycles) the node created by the pledge `pledge` "transitions to Accepted when a matching
Accept is finalised". -/
def finaliseAccept (ns : List CNode) (pledge : crypto.Hash) : List CNode :=
  ns.map (fun cn =>
    if cn.State = .Pledging ∧ cn.Transaction = pledge then { cn with State := .Accepted } else cn)

/-- Modelled from the spec: a sequence of accepted pledges, each followed by its accept (§3,
Lifecycles and N3; §8, P8). The state is the node list. In one round a kernel node, whose
`NodesListWithoutState(offset, false)` at the pledge offset is that list, accepts with
validateNodePledgeSnapshot a pledge that the list does not record; the pledge and then its
accept are finalised. -/
inductive PledgeAcceptRun (c : Config) (x : Collab) : List CNode → List CNode → Prop where
  | start (ns : List CNode) : PledgeAcceptRun c x ns ns
  | round {ns0 ns : List CNode} (node : Node) (clockNow : Nat) (s : Snapshot)
      (tx : VersionedTransaction) (finalized : Bool) (created : CNode) :
      PledgeAcceptRun c x ns0 ns →
      node.NodesListWithoutState (pledgeOffset c (snapshotTimestamp node clockNow s)) false = ns →
      (∀ cn ∈ ns, cn.Transaction ≠ x.PayloadHash tx) →
      validateNodePledgeSnapshot c x node clockNow s tx finalized = .ok () →
      created.Transaction = x.PayloadHash tx →
      PledgeAcceptRun c x ns0 (finaliseAccept (finalisePledge ns created) (x.PayloadHash tx))

/-- A configuration to evaluate the definitions on. -/
def sampleConfig : Config where
  TxVersionHashSignature := 5
  XINAssetId := 1000
  ExtraSizeGeneralLimit := 512
  ExtraSizeStorageStep := 1024
  ExtraSizeStorageCapacity := 4194304
  ExtraStoragePriceStep := 10000
  SliceCountLimit := 256
  OutputTypeScript := 0
  OutputTypeWithdrawalSubmit := 161
  OutputTypeWithdrawalClaim := 169
  OutputTypeNodePledge := 163
  OutputTypeNodeCancel := 170
  OutputTypeNodeAccept := 164
  OutputTypeNodeRemove := 166
  OutputTypeCustodianUpdateNodes := 177
  TransactionTypeMint := 1
  TransactionTypeNodePledge := 6
  TransactionTypeNodeCancel := 18
  TransactionTypeNodeAccept := 7
  TransactionTypeNodeRemove := 9
  TransactionTypeCustodianUpdateNodes := 19
  TransactionTypeCustodianSlashNodes := 20
  KernelMinimumNodesCount := 7
  KernelNodePledgePeriodMinimum := 43200000000000
  KernelNodeAcceptPeriodMinimum := 43200000000000
  KernelNodeAcceptPeriodMaximum := 604800000000000
  KernelNodeAcceptTimeBegin := 13
  KernelNodeAcceptTimeEnd := 19
  KernelMintTimeBegin := 7
  KernelMintTimeEnd := 9
  SnapshotRoundGap := 3000000000
  SnapshotReferenceThreshold := 10
  KernelNodePledgeAmount := 1350000000000

/-- Collaborators that let every key, script and signature pass. -/
def sampleCollab : Collab where
  CheckKey := fun _ => true
  VerifyFormat := fun _ => true
  Validate := fun _ _ => true
  AggregateVerify := fun _ _ _ _ => true
  BatchVerify := fun _ _ _ => true
  ScriptString := fun s => if s = [255, 254, 64] then "fffe40" else ""
  KeyString := fun k => toString k
  AddressString := fun a => toString a.PublicSpendKey ++ ":" ++ toString a.PublicViewKey
  PayloadHash := fun tx => 100 + tx.Inputs.length + tx.Extra.length

/-- A ghost-key store without state whose lock always succeeds. -/
def sampleLocker : GhostLocker Unit where
  LockGhostKeys := fun s _ _ _ => (none, s)

/-- An input that names the output `index` of the transaction `hash`. -/
def plainInput (hash : crypto.Hash) (index : Nat) : Input :=
  { Hash := hash, Index := index, Genesis := [], Deposit := none, Mint := none }

/-- A script output of the sample configuration. -/
def scriptOutput (amount : Integer) (keys : List crypto.Key) : Output :=
  { Typ := 0, Amount := amount, Keys := keys, Withdrawal := none, Script := [255, 254, 1],
    Mask := 77 }

/-- A store with one script UTXO, the output 0 of transaction 11, of amount 5 and with the lock
hash `lock`. -/
def sampleStore (lock : crypto.Hash) : UTXOLockReader where
  ReadUTXOLock := fun h i =>
    if h = 11 ∧ i = 0 then
      .ok (some { toInput := plainInput 11 0, toOutput := scriptOutput 5 [21], Asset := 1000,
                  LockHash := lock })
    else .ok none

/-- An input that names the output 0 of the zero hash and carries a Mint descriptor. -/
def mintInput (amount : Integer) : Input :=
  { Hash := 0, Index := 0, Genesis := [], Deposit := none, Mint := some { Amount := amount } }

/-- An output that carries a withdrawal descriptor. -/
def withdrawalOutput (typ : Nat) (amount : Integer) (keys : List crypto.Key) : Output :=
  { Typ := typ, Amount := amount, Keys := keys, Withdrawal := some { Address := "addr" },
    Script := [255, 254, 1], Mask := 77 }

/-- A node pledge output of the sample configuration. -/
def pledgeOutput (amount : Integer) : Output :=
  { Typ := 163, Amount := amount, Keys := [], Withdrawal := none, Script := [], Mask := 0 }

/-- The UTXO of `sampleStore`. -/
def sampleUTXO : UTXO :=
  { toInput := plainInput 11 0, toOutput := scriptOutput 5 [21], Asset := 1000 }

/-- A signed transaction of the sample asset with the signature maps `sigs`. -/
def sampleTx (inputs : List Input) (outputs : List Output) (sigs : List SigMap) :
    SignedTransaction :=
  { Version := 5, Asset := 1000, Inputs := inputs, Outputs := outputs, References := [],
    Extra := [], AggregatedSignature := none, SignaturesMap := some sigs }

/-- An address made of two sample keys. -/
def sampleAddress (k : Nat) : Address := { PublicSpendKey := k, PublicViewKey := k + 1 }

/-- The sample node record number `i`, accepted at the epoch. -/
def sampleCNode (i : Nat) : CNode :=
  { IdForNetwork := 500 + i, Signer := sampleAddress (600 + 2 * i),
    Payee := sampleAddress (700 + 2 * i), Transaction := 800 + i, Timestamp := 0,
    State := .Accepted }

/-- Seven accepted nodes. -/
def sampleNodes : List CNode :=
  [sampleCNode 0, sampleCNode 1, sampleCNode 2, sampleCNode 3, sampleCNode 4, sampleCNode 5,
    sampleCNode 6]

/-- A pledge transaction of the sample configuration whose extra spells the keys 999 and 998. -/
def samplePledge : VersionedTransaction :=
  { Version := 5, Asset := 1000, Inputs := [plainInput 11 0],
    Outputs := [pledgeOutput 1350000000000], References := [],
    Extra := natToBytes 32 999 ++ natToBytes 32 998, AggregatedSignature := none,
    SignaturesMap := some [[(0, 9)]] }

/-- The node record the sample pledge creates. -/
def samplePledging : CNode :=
  { IdForNetwork := 510, Signer := sampleAddress 999, Payee := sampleAddress 998,
    Transaction := 165, Timestamp := 0, State := .Pledging }

/-- The chain of the pledging sample node, without round history. -/
def sampleChain : Chain := { ChainId := 510, ConsensusInfo := some samplePledging, State := none }

/-- A kernel node at epoch 0 with the seven accepted nodes; `pledging` is what its method
PledgingNode returns. -/
def sampleNode (pledging : Option CNode) : Node where
  IdForNetwork := 500
  Epoch := 0
  GraphTimestamp := 0
  networkId := 1
  allNodesSortedWithState := sampleNodes
  genesisNodes := sampleNodes.map (fun n => n.IdForNetwork)
  NodesListWithoutState := fun _ _ => sampleNodes
  PledgingNode := fun _ => pledging
  ReadTransaction := fun h => if h = 165 then .ok (some samplePledge) else .ok none
  lastConsensusSoleTransaction := some 900
  getOrCreateChain := fun id => if id = 510 then sampleChain else
    { ChainId := id, ConsensusInfo := none, State := none }
  AddNodeOperation := fun _ _ _ _ => none

/-- The entries of `as.Signers` that the loop of validateUTXO retains: those before the first
entry at or above `limit` that are at least `offset`. -/
def retainedSigners (offset limit : Int) (signers : List Int) : List Int :=
  (signers.takeWhile (fun m => decide (m < limit))).filter (fun m => decide (offset ≤ m))

/-- The mark `keySigs[utxo.Keys[m-offset]] = nil` for one retained signer. -/
def markSigner (utxo : UTXO) (offset : Int) (keySigs : KeySigs) (m : Int) : KeySigs :=
  match utxo.Keys[(m - offset).toNat]? with
  | some k => keySigs.assign m.toNat k none
  | none => keySigs

/-- The genesis node at position `k` of `genesis` is the first one at the least distance from
`nodeId`. -/
def IsFirstNearest (nodeId : crypto.Hash) (genesis : List crypto.Hash) (g : crypto.Hash)
    (k : Nat) : Prop :=
  genesis[k]? = some g ∧
    (∀ (j : Nat) (gj : crypto.Hash), genesis[j]? = some gj →
      nodeDistance nodeId g ≤ nodeDistance nodeId gj) ∧
    (∀ (j : Nat) (gj : crypto.Hash), j < k → genesis[j]? = some gj →
      nodeDistance nodeId g < nodeDistance nodeId gj)

/-- A node record in state Pledging that no sample transaction creates. -/
def otherPledging : CNode :=
  { IdForNetwork := 520, Signer := sampleAddress 888, Payee := sampleAddress 887,
    Transaction := 820, Timestamp := 0, State := .Pledging }

/-- Collaborators like `sampleCollab` whose scripts ask for one signer. -/
def thresholdCollab : Collab := { sampleCollab with Validate := fun _ n => decide (1 ≤ n) }

/-- A kernel node at epoch 0 that lists the seven sample nodes as accepted and `listing` as its
nodes of any state, and that reads the transactions `stored`. -/
def sampleKernel (listing : List CNode) (pledging : Option CNode)
    (stored : crypto.Hash → Option VersionedTransaction) : Node where
  IdForNetwork := 500
  Epoch := 0
  GraphTimestamp := 0
  networkId := 1
  allNodesSortedWithState := listing
  genesisNodes := [1234, 560, 1207, 707]
  NodesListWithoutState := fun _ acceptedOnly => if acceptedOnly then sampleNodes else listing
  PledgingNode := fun _ => pledging
  ReadTransaction := fun h => .ok (stored h)
  lastConsensusSoleTransaction := some 900
  getOrCreateChain := fun id => if id = 510 then sampleChain else
    { ChainId := id, ConsensusInfo := none, State := none }
  AddNodeOperation := fun _ _ _ _ => none

/-- Collaborators of the remove and bootstrap paths to evaluate the definitions on. -/
def sampleKernelCollab : KernelCollab where
  NodeTransactionExtraAsSigner := fun tx => sampleAddress (bytesToNat (tx.Extra.take 32))
  AddressIdForNetwork := fun a n => a.PublicSpendKey + n
  ThresholdScript1 := [255, 254, 1]
  RemoveOutputGhost := fun cn => (cn.Payee.PublicViewKey, cn.Payee.PublicSpendKey)
  loadFinalRoundForNode := fun id n => .ok { NodeId := id, Number := n, Hash := id + 1 }

/-- A pledge transaction like `samplePledge` whose extra spells the key 999 and then 12345, which
is not the payee key 998 of `samplePledging`. -/
def foreignPayeePledge : VersionedTransaction :=
  { samplePledge with Extra := natToBytes 32 999 ++ natToBytes 32 12345 }

/-- A node record like `samplePledging` after its accept. -/
def acceptedPledging : CNode := { samplePledging with State := .Accepted }

/-! ### kernel/import.go -/

/-- A snapshot with its topological order, as far as the importer reads it: the hash of its
transaction and the snapshot that is appended. -/
structure SnapshotWithTopologicalOrder where
  Transaction : crypto.Hash
  Snapshot : Snapshot
  deriving DecidableEq, Repr

/-- The errors that importFrom and importSnapshot return. -/
inductive ImportErr where
  | store (e : StoreErr)
  /-- Format "malformed transaction hash %s %s". -/
  | malformedHash (snapshot tx : crypto.Hash)
  /-- Format "ReadTransaction %s %v". -/
  | readTransaction (hash : crypto.Hash) (e : StoreErr)
  /-- Format "CachePutTransaction %s %v". -/
  | cachePutTransaction (hash : crypto.Hash) (e : StoreErr)
  deriving DecidableEq, Repr

/-- What importFrom uses but import.go does not declare, over the state `σ` of everything
outside the importer (the source store, the local store, the chain): the calls are fields, and
`sleep` is what the rest of the node does to that state while the importer sleeps 3 seconds.
`State` is `chain.State.FinalRound` as the importer reads it: `none` when `chain.State` is nil,
`some none` when `FinalRound` is nil. -/
structure ImportEnv (σ : Type) where
  ChainId : crypto.Hash
  IdForNetwork : crypto.Hash
  ReadSnapshotsForNodeRound :
    σ → crypto.Hash → Nat → Except StoreErr (List SnapshotWithTopologicalOrder)
  ReadTransaction : σ → crypto.Hash → Except StoreErr (Option VersionedTransaction)
  PayloadHash : VersionedTransaction → crypto.Hash
  CacheGetTransaction : σ → crypto.Hash → Except StoreErr (Option VersionedTransaction)
  CachePutTransaction : σ → VersionedTransaction → Option StoreErr × σ
  AppendFinalSnapshot : σ → crypto.Hash → Snapshot → Option StoreErr × σ
  State : σ → Option (Option FinalRound)
  sleep : σ → σ

/-- The variables of the loop of importFrom, the state of everything outside the importer, and
the rounds whose snapshots the importer has asked the source for (line 63), in order. -/
structure ImportState (σ : Type) where
  threshold : Nat
  round : Nat
  world : σ
  fetched : List Nat
  deriving DecidableEq, Repr

/-- How one iteration of the loop of importFrom ends: the loop goes on, importFrom returns the
round and an error or nil, a nil pointer is dereferenced, or the retry loop of importSnapshot
has not come to an end within the iterations it was given. -/
inductive ImportStep (σ : Type) where
  | next (st : ImportState σ)
  | returned (round : Nat) (err : Option ImportErr) (world : σ)
  | panicked
  | stalled
  deriving DecidableEq, Repr

/-- The loop at the end of importSnapshot (lines 99-106), run for at most `fuel` iterations:
AppendFinalSnapshot is called again after a sleep as long as it gives an error. -/
def appendLoop {σ : Type} (env : ImportEnv σ) (s : SnapshotWithTopologicalOrder) :
    Nat → σ → Option σ
  | 0, _ => none
  | fuel + 1, w =>
    match env.AppendFinalSnapshot w env.IdForNetwork s.Snapshot with
    | (some _, w1) => appendLoop env s fuel (env.sleep w1)
    | (none, w1) => some w1

/-- The method `importSnapshot` (lines 84-107); `tx` is the pointer that ReadTransaction gave,
whose payload hash is read first. The result is `none` when the retry loop has not come to an
end within `fuel` iterations. -/
def importSnapshot {σ : Type} (env : ImportEnv σ) (fuel : Nat)
    (s : SnapshotWithTopologicalOrder) (tx : Option VersionedTransaction) (w : σ) :
    Option (Except (Fault ImportErr) Unit × σ) :=
  match tx with
  | none => some (.error .goPanic, w)
  | some tx =>
    if s.Transaction ≠ env.PayloadHash tx then
      some (.error (.err (.malformedHash s.Transaction (env.PayloadHash tx))), w)
    else
      match env.CacheGetTransaction w s.Transaction with
      | .error e => some (.error (.err (.readTransaction s.Transaction e)), w)
      | .ok old =>
        match (if old.isNone then env.CachePutTransaction w tx else (none, w)) with
        | (some e, w1) => some (.error (.err (.cachePutTransaction s.Transaction e)), w1)
        | (none, w1) =>
          match appendLoop env s fuel w1 with
          | none => none
          | some w2 => some (.ok (), w2)

/-- The loop over the snapshots of one round in importFrom (lines 67-76): the state it leaves,
or the way in which it ends importFrom. -/
def importSnapshots {σ : Type} (env : ImportEnv σ) (fuel : Nat) (round : Nat) :
    List SnapshotWithTopologicalOrder → σ → Except (ImportStep σ) σ
  | [], w => .ok w
  | s :: rest, w =>
    match env.ReadTransaction w s.Transaction with
    | .error e => .error (.returned round (some (.store e)) w)
    | .ok tx =>
      match importSnapshot env fuel s tx w with
      | none => .error .stalled
      | some (.error .goPanic, _) => .error .panicked
      | some (.error (.err e), w1) => .error (.returned round (some e) w1)
      | some (.ok (), w1) => importSnapshots env fuel round rest w1

/-- One iteration of the loop of importFrom (lines 58-81). -/
def importFromStep {σ : Type} (env : ImportEnv σ) (fuel : Nat) (st : ImportState σ) :
    ImportStep σ :=
  if st.round > u64 (st.threshold + 16) then
    .next { st with world := env.sleep st.world }
  else
    match env.ReadSnapshotsForNodeRound st.world env.ChainId st.round with
    | .error e => .returned st.round (some (.store e)) st.world
    | .ok ss =>
      if ss.length = 0 then .returned st.round none st.world
      else
        match importSnapshots env fuel st.round ss st.world with
        | .error r => r
        | .ok w1 =>
          match env.State w1 with
          | none => .panicked
          | some fr =>
            .next { threshold := match fr with
                                 | some fr => fr.Number
                                 | none => st.threshold,
                    round := u64 (st.round + 1),
                    world := w1,
                    fetched := st.fetched ++ [st.round] }

/-- The loop of importFrom run for at most `n` iterations from the state `st`; the result is
`next` when the loop is still going on after `n` iterations. -/
def importFromRun {σ : Type} (env : ImportEnv σ) (fuel : Nat) :
    Nat → ImportState σ → ImportStep σ
  | 0, st => .next st
  | n + 1, st =>
    match importFromStep env fuel st with
    | .next st1 => importFromRun env fuel n st1
    | r => r

/-- The method `importFrom` (lines 56-82) run for at most `n` iterations of its loop, from
`threshold = 0` and `round = 0`. -/
def importFrom {σ : Type} (env : ImportEnv σ) (fuel : Nat) (n : Nat) (w : σ) : ImportStep σ :=
  (importFromRun env fuel n { threshold := 0, round := 0, world := w, fetched := [] })

/-- The amount of the Mint or Deposit descriptor that ends the loop of validateInputs at an
input (lines 180-185): the Mint descriptor is looked at first. -/
def descriptorAmount (inp : Input) : Option Integer :=
  match inp.Mint with
  | some mint => some mint.Amount
  | none =>
    match inp.Deposit with
    | some deposit => some deposit.Amount
    | none => none

/-- The state in which the loop of validateInputs starts. -/
def InputsState.initial : InputsState :=
  { inputsFilter := [], inputAmount := 0, allKeys := [], keySigs := [] }

/-- Collaborators like `sampleCollab` whose batch and aggregate verifications always fail. -/
def rejectingCollab : Collab :=
  { sampleCollab with AggregateVerify := fun _ _ _ _ => false, BatchVerify := fun _ _ _ => false }

/-- A store that answers like `sampleStore 0` for the output 0 of transaction 11 and fails on
every other read. -/
def narrowStore : UTXOLockReader where
  ReadUTXOLock := fun h i =>
    if h = 11 ∧ i = 0 then (sampleStore 0).ReadUTXOLock h i else .error "store failure"

/-- A ghost-key store that keeps the list of the calls of LockGhostKeys it has received and
answers each of them with `reply`. -/
def recordingLocker (reply : Option StoreErr) :
    GhostLocker (List (List crypto.Key × crypto.Hash × Bool)) where
  LockGhostKeys := fun log keys hash fork => (reply, log ++ [(keys, hash, fork)])

/-- A kernel node like `sampleNode none` whose epoch is 100 nanoseconds after time 0. -/
def lateEpochNode : Node := { sampleNode none with Epoch := 100 }

/-- A data store without state for Validate, over the UTXOs of `sampleStore 0`, in which the
validators of the transaction types that are not in the file accept. -/
def sampleValidateEnv : ValidateEnv Unit where
  TransactionTypeUnknown := 255
  TransactionTypeScript := 0
  TransactionTypeDeposit := 2
  TransactionTypeWithdrawalSubmit := 3
  TransactionTypeWithdrawalClaim := 5
  ReferencesCountLimit := 2
  TransactionMaximumSize := 5242880
  TransactionType := fun tx => (tx.Outputs.map (fun o => o.Typ)).foldl max 0
  PayloadMarshal := fun tx => tx.Extra
  ReadTransaction := fun _ _ => .ok (none, "")
  utxoReader := fun _ => sampleStore 0
  ghostLocker := sampleLocker
  validateMint := fun s _ => (none, s)
  validateDeposit := fun s _ _ _ _ => (none, s)
  validateWithdrawalSubmit := fun _ _ => none
  validateWithdrawalClaim := fun s _ _ _ => (none, s)
  validateNodePledge := fun s _ _ _ => (none, s)
  validateNodeCancel := fun s _ _ _ _ => (none, s)
  validateNodeAccept := fun s _ _ => (none, s)
  validateNodeRemove := fun s _ => (none, s)
  validateCustodianUpdateNodes := fun s _ _ => (none, s)
  validateCustodianSlashNodes := fun s _ => (none, s)

/-- A script transaction that spends the sample UTXO with an aggregated signature of the signer
0 and has no signatures map. -/
def aggregatedTx : VersionedTransaction :=
  { Version := 5, Asset := 1000, Inputs := [plainInput 11 0], Outputs := [scriptOutput 5 [31]],
    References := [], Extra := [],
    AggregatedSignature := some { Signers := [0], Signature := 9 }, SignaturesMap := none }

/-- A data store like `sampleValidateEnv` in which a transaction with a node remove output
(type 166 of the sample configuration) has the transaction type node remove (9), and any other
transaction the type script. -/
def removeTypedEnv : ValidateEnv Unit :=
  { sampleValidateEnv with
    TransactionType := fun tx => if tx.Outputs.any (fun o => o.Typ = 166) then 9 else 0 }

/-- A transaction with a node remove output that spends the script UTXO of the sample store and
carries neither a signatures map nor an aggregated signature. -/
def removeWithoutSignatures : VersionedTransaction :=
  { Version := 5, Asset := 1000, Inputs := [plainInput 11 0],
    Outputs := [{ Typ := 166, Amount := 5, Keys := [31], Withdrawal := none,
                  Script := [255, 254, 1], Mask := 77 }],
    References := [], Extra := [], AggregatedSignature := none, SignaturesMap := none }

/-- The state outside the importer of `slowChainEnv`: how often the importer has slept, and how
many snapshots it has appended. -/
structure SlowWorld where
  sleeps : Nat
  appended : Nat
  deriving DecidableEq, Repr

/-- An importer environment in which the source has one snapshot in each of the rounds 0 to 39,
every call succeeds, and the final round number of the chain is 0 until the importer sleeps for
the first time and 100 from then on. -/
def slowChainEnv : ImportEnv SlowWorld where
  ChainId := 1
  IdForNetwork := 2
  ReadSnapshotsForNodeRound := fun _ id r =>
    .ok (if r < 40 then
      [{ Transaction := r + 1, Snapshot := { NodeId := id, RoundNumber := r, Timestamp := r } }]
    else [])
  ReadTransaction := fun _ h => .ok (some { sampleTx [] [] [] with Extra := List.replicate h 0 })
  PayloadHash := fun tx => tx.Extra.length
  CacheGetTransaction := fun _ _ => .ok none
  CachePutTransaction := fun w _ => (none, w)
  AppendFinalSnapshot := fun w _ _ => (none, { w with appended := w.appended + 1 })
  State := fun w => some (some { NodeId := 1, Number := if w.sleeps = 0 then 0 else 100,
                                 Hash := 0 })
  sleep := fun w => { w with sleeps := w.sleeps + 1 }

/-- The sample node record number `i`, accepted `1000 * (i + 1)` nanoseconds after the epoch. -/
def agedCNode (i : Nat) : CNode := { sampleCNode i with Timestamp := 1000 * (i + 1) }

/-- Eight accepted nodes in the order of their timestamps. -/
def agedNodes : List CNode :=
  [agedCNode 0, agedCNode 1, agedCNode 2, agedCNode 3, agedCNode 4, agedCNode 5, agedCNode 6,
    agedCNode 7]

/-- A kernel node like `sampleNode none` that lists three accepted nodes only. -/
def shortListNode : Node :=
  { sampleNode none with NodesListWithoutState := fun _ _ => sampleNodes.take 3 }

end Mixin

namespace Mixin

/-! ## Theorems -/

/-! ### Input validation -/

theorem validateInputsLoop_plain (c : Config) (x : Collab) (store : UTXOLockReader)
    (tx : SignedTransaction) (hash : crypto.Hash) (txType : Nat) (fork : Bool) :
    ∀ (inputs : List Input) (i : Nat) (st : InputsState) (ex : InputsExit),
      (∀ inp ∈ inputs, inp.Mint = none ∧ inp.Deposit = none) →
      validateInputsLoop c x store tx hash txType fork i inputs st = .ok ex →
      ∃ st1, ex = .completed st1 ∧
        st1.inputAmount = st.inputAmount + (inputs.map (storeAmount store)).sum ∧
        (∀ inp ∈ inputs, ∃ u, store.ReadUTXOLock inp.Hash inp.Index = .ok (some u)) := by
  intro inputs
  induction inputs with
  | nil =>
    intro i st ex _ h
    simp only [validateInputsLoop, Except.ok.injEq] at h
    exact ⟨st, h.symm, by simp, by simp⟩
  | cons inp rest ih =>
    intro i st ex hplain h
    have hp := hplain inp (List.mem_cons_self _ _)
    have hrest : ∀ j ∈ rest, j.Mint = none ∧ j.Deposit = none :=
      fun j hj => hplain j (List.mem_cons_of_mem _ hj)
    unfold validateInputsLoop at h
    simp only [hp.1, hp.2] at h
    split at h
    · exact absurd h (by simp)
    split at h
    · exact absurd h (by simp)
    split at h
    · exact absurd h (by simp)
    · exact absurd h (by simp)
    · rename_i utxo hread
      split at h
      · exact absurd h (by simp)
      split at h
      · exact absurd h (by simp)
      split at h
      · exact absurd h (by simp)
      · obtain ⟨st1, hex, hsum, hall⟩ := ih _ _ _ hrest h
        refine ⟨st1, hex, ?_, ?_⟩
        · rw [hsum]
          simp only [List.map_cons, List.sum_cons, storeAmount, hread]
          ring
        · intro j hj
          rcases List.mem_cons.mp hj with rfl | hj
          · exact ⟨utxo, hread⟩
          · exact hall j hj

theorem validateInputsLoop_nodup (c : Config) (x : Collab) (store : UTXOLockReader)
    (tx : SignedTransaction) (hash : crypto.Hash) (txType : Nat) (fork : Bool) :
    ∀ (inputs : List Input) (i : Nat) (st : InputsState) (ex : InputsExit),
      validateInputsLoop c x store tx hash txType fork i inputs st = .ok ex →
      (st.inputsFilter.map (fun e => e.1)).Nodup →
      (st.inputsFilter.map (fun e => e.1) ++
        (inputs.takeWhile Input.plain).map Input.fk).Nodup := by
  intro inputs
  induction inputs with
  | nil =>
    intro i st ex _ hnd
    simpa using hnd
  | cons inp rest ih =>
    intro i st ex h hnd
    unfold validateInputsLoop at h
    split at h
    · exact absurd h (by simp)
    split at h
    · rename_i mint hm
      simpa [List.takeWhile_cons, Input.plain, hm] using hnd
    rename_i hm
    split at h
    · rename_i dep hd
      simpa [List.takeWhile_cons, Input.plain, hd] using hnd
    rename_i hd
    split at h
    · exact absurd h (by simp)
    rename_i hfk
    split at h
    · exact absurd h (by simp)
    · exact absurd h (by simp)
    · split at h
      · exact absurd h (by simp)
      split at h
      · exact absurd h (by simp)
      split at h
      · exact absurd h (by simp)
      · have hnew : inp.fk ∉ st.inputsFilter.map (fun e => e.1) := by
          intro hmem
          apply hfk
          obtain ⟨e, he, heq⟩ := List.mem_map.mp hmem
          exact List.any_eq_true.mpr ⟨e, he, by simpa using heq⟩
        have hnd1 : ((st.inputsFilter.map (fun e => e.1)) ++ [inp.fk]).Nodup := by
          rw [List.nodup_append]
          refine ⟨hnd, by simp, ?_⟩
          intro a ha hb
          simp only [List.mem_singleton] at hb
          subst hb
          exact hnew ha
        have := ih _ _ _ h (by simpa using hnd1)
        simpa [List.takeWhile_cons, Input.plain, hm, hd] using this

theorem aggregatedSignersLoop_ne_goPanic (utxo : UTXO) (offset : Nat) :
    ∀ (signers : List Int) (keySigs : KeySigs) (n : Nat),
      aggregatedSignersLoop utxo offset (offset + utxo.Keys.length) signers keySigs n
        ≠ .error .goPanic := by
  intro signers
  induction signers with
  | nil => intro keySigs n; simp [aggregatedSignersLoop]
  | cons m rest ih =>
    intro keySigs n
    unfold aggregatedSignersLoop
    split
    · simp
    rename_i hlim
    split
    · exact ih _ _
    rename_i hoff
    have hlt : (m - (offset : Int)).toNat < utxo.Keys.length := by omega
    split
    · rename_i hnone
      rw [List.getElem?_eq_none_iff] at hnone
      omega
    · exact ih _ _

theorem signaturesLoop_ne_goPanic (utxo : UTXO) (offset : Nat) :
    ∀ (sm : SigMap) (keySigs : KeySigs),
      signaturesLoop utxo offset sm keySigs ≠ .error .goPanic := by
  intro sm
  induction sm with
  | nil => intro keySigs; simp [signaturesLoop]
  | cons e rest ih =>
    intro keySigs
    obtain ⟨i, sig⟩ := e
    unfold signaturesLoop
    split
    · simp
    rename_i hlt
    split
    · rename_i hnone
      rw [List.getElem?_eq_none_iff] at hnone
      omega
    · exact ih _

/-- The only panic of validateUTXO is the read of `sigs[index]` past the end of the slice. -/
theorem validateUTXO_ne_goPanic (c : Config) (x : Collab) (index : Nat) (utxo : UTXO)
    (sigs : List SigMap) (as : Option AggregatedSignature) (txType : Nat) (keySigs : KeySigs)
    (offset : Nat) (h : as.isSome = true ∨ index < sigs.length) :
    validateUTXO c x index utxo sigs as txType keySigs offset ≠ .error .goPanic := by
  unfold validateUTXO
  split
  · split
    · have := aggregatedSignersLoop_ne_goPanic utxo offset
      split
      · rename_i e he
        intro heq
        simp only [Except.error.injEq] at heq
        subst heq
        exact this _ _ _ he
      · split <;> simp
    · split
      · rename_i hnone
        rw [List.getElem?_eq_none_iff] at hnone
        rcases h with h | h
        · simp at h
        · omega
      · split
        · rename_i e he
          intro heq
          simp only [Except.error.injEq] at heq
          subst heq
          exact signaturesLoop_ne_goPanic utxo offset _ _ he
        · split <;> simp
  · split
    · split <;> simp
    · split
      · split <;> simp
      · split <;> simp

theorem validateInputsLoop_locked (c : Config) (x : Collab) (store : UTXOLockReader)
    (tx : SignedTransaction) (hash : crypto.Hash) (txType : Nat) (inp : Input)
    (post : List Input) (utxo : UTXOWithLock)
    (hm : inp.Mint = none) (hd : inp.Deposit = none)
    (hread : store.ReadUTXOLock inp.Hash inp.Index = .ok (some utxo))
    (hlock : crypto.HasValue utxo.LockHash = true) (hne : utxo.LockHash ≠ hash) :
    ∀ (pre : List Input) (i : Nat) (st : InputsState),
      (∀ j ∈ pre, j.Mint = none ∧ j.Deposit = none) →
      ∃ e, validateInputsLoop c x store tx hash txType false i (pre ++ inp :: post) st = .error e ∧
        (tx.AggregatedSignature.isSome = true ∨ i + pre.length ≤ tx.sigs.length →
          e ≠ .goPanic) := by
  intro pre
  induction pre with
  | nil =>
    intro i st _
    simp only [List.nil_append]
    unfold validateInputsLoop
    simp only [hm, hd, hread]
    split
    · exact ⟨_, rfl, by simp⟩
    split
    · exact ⟨_, rfl, by simp⟩
    split
    · exact ⟨_, rfl, by simp⟩
    split
    · exact ⟨_, rfl, by simp⟩
    · rename_i hcond
      exact absurd ⟨hlock, hne, trivial⟩ hcond
  | cons p rest ih =>
    intro i st hplain
    have hp := hplain p (List.mem_cons_self _ _)
    have hrest : ∀ j ∈ rest, j.Mint = none ∧ j.Deposit = none :=
      fun j hj => hplain j (List.mem_cons_of_mem _ hj)
    simp only [List.cons_append]
    unfold validateInputsLoop
    simp only [hp.1, hp.2]
    split
    · exact ⟨_, rfl, by simp⟩
    split
    · exact ⟨_, rfl, by simp⟩
    split
    · exact ⟨_, rfl, by simp⟩
    · exact ⟨_, rfl, by simp⟩
    · split
      · exact ⟨_, rfl, by simp⟩
      split
      · exact ⟨_, rfl, by simp⟩
      split
      · rename_i e he
        refine ⟨e, rfl, ?_⟩
        intro hs heq
        subst heq
        refine validateUTXO_ne_goPanic c x i _ tx.sigs tx.AggregatedSignature txType _ _ ?_ he
        rcases hs with hs | hs
        · exact Or.inl hs
        · right
          simp only [List.length_cons] at hs
          omega
      · obtain ⟨e, he, hpanic⟩ := ih (i + 1) _ hrest
        refine ⟨e, he, ?_⟩
        intro hs
        apply hpanic
        rcases hs with hs | hs
        · exact Or.inl hs
        · right
          simp only [List.length_cons] at hs
          omega

/-! ### Output validation -/

theorem ghostKeysLoop_ok (x : Collab) :
    ∀ (keys f g f1 g1 : List crypto.Key), ghostKeysLoop x keys f g = .ok (f1, g1) →
      f1 = f ++ keys ∧ g1 = g ++ keys ∧ (f.Nodup → f1.Nodup) ∧
        ∀ k ∈ keys, x.CheckKey k = true := by
  intro keys
  induction keys with
  | nil =>
    intro f g f1 g1 h
    simp only [ghostKeysLoop, Except.ok.injEq, Prod.mk.injEq] at h
    simp [h.1, h.2]
  | cons k rest ih =>
    intro f g f1 g1 h
    unfold ghostKeysLoop at h
    split at h
    · exact absurd h (by simp)
    rename_i hmem
    split at h
    · exact absurd h (by simp)
    rename_i hck
    obtain ⟨hf, hg, hnd, hall⟩ := ih _ _ _ _ h
    refine ⟨by simp [hf], by simp [hg], ?_, ?_⟩
    · intro hfn
      apply hnd
      rw [List.nodup_append]
      refine ⟨hfn, by simp, ?_⟩
      intro a ha hb
      simp only [List.mem_singleton] at hb
      subst hb
      exact hmem ha
    · intro k1 hk1
      rcases List.mem_cons.mp hk1 with rfl | hk1
      · simpa using hck
      · exact hall k1 hk1

theorem validateOutputsLoop_ok (c : Config) (x : Collab) :
    ∀ (outs : List Output) (st st1 : OutputsState), validateOutputsLoop c x outs st = .ok st1 →
      st1.outputAmount = st.outputAmount + (outs.map (fun o => o.Amount)).sum ∧
      st1.ghostKeysFilter = st.ghostKeysFilter ++ collectedGhostKeys outs ∧
      st1.ghostKeys = st.ghostKeys ++ collectedGhostKeys outs ∧
      (st.ghostKeysFilter.Nodup → st1.ghostKeysFilter.Nodup) ∧
      (∀ k ∈ collectedGhostKeys outs, x.CheckKey k = true) ∧
      (∀ o ∈ outs, o.Withdrawal = none → isKernelMultisig c o.Typ →
        o.Keys = [] ∧ o.Script = [] ∧ crypto.HasValue o.Mask = false) := by
  intro outs
  induction outs with
  | nil =>
    intro st st1 h
    simp only [validateOutputsLoop, Except.ok.injEq] at h
    subst h
    simp [collectedGhostKeys]
  | cons o rest ih =>
    intro st st1 h
    unfold validateOutputsLoop at h
    split at h
    · exact absurd h (by simp)
    split at h
    · exact absurd h (by simp)
    split at h
    · rename_i hw
      obtain ⟨ha, hf, hg, hnd, hck, hkm⟩ := ih _ _ h
      have hcol : collectedGhostKeys (o :: rest) = collectedGhostKeys rest := by
        cases hwd : o.Withdrawal with
        | none => simp [hwd] at hw
        | some w => simp [collectedGhostKeys, List.filter_cons, hwd]
      refine ⟨?_, ?_, ?_, hnd, ?_, ?_⟩
      · rw [ha]; simp only [List.map_cons, List.sum_cons]; ring
      · rw [hcol]; exact hf
      · rw [hcol]; exact hg
      · rw [hcol]; exact hck
      · intro o1 ho1 hwn
        rcases List.mem_cons.mp ho1 with rfl | ho1
        · rw [hwn] at hw; simp at hw
        · exact hkm o1 ho1 hwn
    · rename_i hw
      have hwn : o.Withdrawal = none := by
        cases hwd : o.Withdrawal with
        | none => rfl
        | some w => simp [hwd] at hw
      have hcol : collectedGhostKeys (o :: rest) = o.Keys ++ collectedGhostKeys rest := by
        simp [collectedGhostKeys, List.filter_cons, hwn]
      split at h
      · exact absurd h (by simp)
      rename_i f g hgl
      obtain ⟨hf0, hg0, hnd0, hck0⟩ := ghostKeysLoop_ok x _ _ _ _ _ hgl
      split at h
      · rename_i hker
        split at h
        · exact absurd h (by simp)
        rename_i hkeys
        split at h
        · exact absurd h (by simp)
        rename_i hscript
        split at h
        · exact absurd h (by simp)
        rename_i hmask
        obtain ⟨ha, hf, hg, hnd, hck, hkm⟩ := ih _ _ h
        simp only at ha hf hg hnd
        refine ⟨?_, ?_, ?_, ?_, ?_, ?_⟩
        · rw [ha]; simp only [List.map_cons, List.sum_cons]; ring
        · rw [hf, hf0, hcol, List.append_assoc]
        · rw [hg, hg0, hcol, List.append_assoc]
        · exact fun hn => hnd (hnd0 hn)
        · intro k hk
          rw [hcol] at hk
          rcases List.mem_append.mp hk with hk | hk
          · exact hck0 k hk
          · exact hck k hk
        · intro o1 ho1 hwn1 hk1
          rcases List.mem_cons.mp ho1 with rfl | ho1
          · refine ⟨?_, ?_, ?_⟩
            · exact List.length_eq_zero.mp (by simpa using hkeys)
            · exact List.length_eq_zero.mp (by simpa using hscript)
            · simpa using hmask
          · exact hkm o1 ho1 hwn1 hk1
      · rename_i hker
        split at h
        · exact absurd h (by simp)
        split at h
        · exact absurd h (by simp)
        split at h
        · exact absurd h (by simp)
        obtain ⟨ha, hf, hg, hnd, hck, hkm⟩ := ih _ _ h
        simp only at ha hf hg hnd
        refine ⟨?_, ?_, ?_, ?_, ?_, ?_⟩
        · rw [ha]; simp only [List.map_cons, List.sum_cons]; ring
        · rw [hf, hf0, hcol, List.append_assoc]
        · rw [hg, hg0, hcol, List.append_assoc]
        · exact fun hn => hnd (hnd0 hn)
        · intro k hk
          rw [hcol] at hk
          rcases List.mem_append.mp hk with hk | hk
          · exact hck0 k hk
          · exact hck k hk
        · intro o1 ho1 hwn1 hk1
          rcases List.mem_cons.mp ho1 with rfl | ho1
          · exact absurd hk1 hker
          · exact hkm o1 ho1 hwn1 hk1

/-- What an accepting run of validateOutputs says about the loop: it ended without error in a
state whose output amount is the input amount. -/
theorem validateOutputs_ok {σ : Type} (c : Config) (x : Collab) (store : GhostLocker σ) (s : σ)
    (tx : Transaction) (hash : crypto.Hash) (inputAmount : Integer) (fork : Bool)
    (h : (validateOutputs c x store s tx hash inputAmount fork).1 = .ok ()) :
    ∃ st, validateOutputsLoop c x tx.Outputs
        { outputAmount := 0, ghostKeysFilter := [], ghostKeys := [] } = .ok st ∧
      inputAmount = st.outputAmount := by
  unfold validateOutputs at h
  split at h
  · exact absurd h (by simp)
  rename_i st hst
  split at h
  · exact absurd h (by simp)
  rename_i heq
  exact ⟨st, hst, by simpa using heq⟩

/-- C1. Amount conservation: when no input of the transaction carries a Mint or Deposit
descriptor, validateInputs succeeds with an amount and validateOutputs succeeds on that amount,
then the store returned a UTXO for every input and the sum of the amounts of these UTXOs is
the sum of the amounts of all the outputs, withdrawal outputs included. -/
theorem amount_conservation {σ : Type} (c : Config) (x : Collab) (store : UTXOLockReader)
    (locker : GhostLocker σ) (s : σ) (tx : SignedTransaction) (hash : crypto.Hash)
    (txType : Nat) (fork : Bool) (inputsFilter : List (Fingerprint × UTXO))
    (inputAmount : Integer)
    (hplain : ∀ inp ∈ tx.Inputs, inp.Mint = none ∧ inp.Deposit = none)
    (hin : validateInputs c x store tx hash txType fork = .ok (inputsFilter, inputAmount))
    (hout : (validateOutputs c x locker s tx.toTransaction hash inputAmount fork).1 = .ok ()) :
    (∀ inp ∈ tx.Inputs, ∃ u, store.ReadUTXOLock inp.Hash inp.Index = .ok (some u)) ∧
      (tx.Inputs.map (storeAmount store)).sum = (tx.Outputs.map (fun o => o.Amount)).sum := by
  obtain ⟨ost, hloop, hamt⟩ := validateOutputs_ok c x locker s _ hash inputAmount fork hout
  have hosum := (validateOutputsLoop_ok c x _ _ _ hloop).1
  simp only [zero_add] at hosum
  unfold validateInputs at hin
  split at hin
  · exact absurd hin (by simp)
  · rename_i f a hl
    obtain ⟨st1, hex, _, _⟩ := validateInputsLoop_plain c x store tx hash txType fork _ _ _ _ hplain hl
    exact absurd hex (by simp)
  · rename_i st hl
    obtain ⟨st1, hex, hsum, hall⟩ :=
      validateInputsLoop_plain c x store tx hash txType fork _ _ _ _ hplain hl
    simp only [InputsExit.completed.injEq] at hex
    subst hex
    simp only [zero_add] at hsum
    refine ⟨hall, ?_⟩
    have hia : inputAmount = st.inputAmount := by
      split at hin
      · simp only [Except.ok.injEq, Prod.mk.injEq] at hin; exact hin.2.symm
      split at hin
      · exact absurd hin (by simp)
      split at hin
      · split at hin
        · simp only [Except.ok.injEq, Prod.mk.injEq] at hin; exact hin.2.symm
        · exact absurd hin (by simp)
      · split at hin
        · simp only [Except.ok.injEq, Prod.mk.injEq] at hin; exact hin.2.symm
        · exact absurd hin (by simp)
    rw [← hsum, ← hia, hamt, hosum]

/-- The conservation theorem at a transaction that spends one UTXO of amount 5 into outputs of
amounts 2 and 3. -/
theorem amount_conservation_witness :
    (((sampleTx [plainInput 11 0] [scriptOutput 2 [31], scriptOutput 3 [32]] [[(0, 9)]]).Inputs.map
        (storeAmount (sampleStore 0))).sum = 5) ∧
      (((sampleTx [plainInput 11 0] [scriptOutput 2 [31], scriptOutput 3 [32]]
        [[(0, 9)]]).Outputs.map (fun o => o.Amount)).sum = 5) ∧
      (((sampleTx [plainInput 11 0] [scriptOutput 2 [31], scriptOutput 3 [32]] [[(0, 9)]]).Inputs.map
        (storeAmount (sampleStore 0))).sum =
      ((sampleTx [plainInput 11 0] [scriptOutput 2 [31], scriptOutput 3 [32]]
        [[(0, 9)]]).Outputs.map (fun o => o.Amount)).sum) :=
  ⟨by decide, by decide,
    (amount_conservation sampleConfig sampleCollab (sampleStore 0) sampleLocker ()
      (sampleTx [plainInput 11 0] [scriptOutput 2 [31], scriptOutput 3 [32]] [[(0, 9)]]) 99 0 false
      [((11, 0), { toInput := plainInput 11 0, toOutput := scriptOutput 5 [21], Asset := 1000 })]
      5 (by decide) (by decide) (by decide)).2⟩

/-- C2, as stated, fails: validateInputs accepts a transaction whose second and third inputs
both name the output 0 of transaction 11, because its first input carries a Mint descriptor
and ends the loop before they are read. -/
theorem duplicate_spend_accepted :
    validateInputs sampleConfig sampleCollab (sampleStore 0)
        (sampleTx [mintInput 5, plainInput 11 0, plainInput 11 0] [scriptOutput 5 [31]] [[], [], []])
        99 1 false = .ok ([], 5) ∧
      ¬ ((sampleTx [mintInput 5, plainInput 11 0, plainInput 11 0] [scriptOutput 5 [31]]
        [[], [], []]).Inputs.map Input.fk).Nodup := by
  constructor
  · decide
  · decide

/-- C2, amended. No duplicate spend among the inputs that are read: when validateInputs accepts
a transaction, the fingerprints of the inputs that come before its first input with a Mint or
Deposit descriptor are pairwise distinct; these are all the inputs when none carries such a
descriptor. -/
theorem no_duplicate_spend (c : Config) (x : Collab) (store : UTXOLockReader)
    (tx : SignedTransaction) (hash : crypto.Hash) (txType : Nat) (fork : Bool)
    (r : List (Fingerprint × UTXO) × Integer)
    (h : validateInputs c x store tx hash txType fork = .ok r) :
    ((tx.Inputs.takeWhile Input.plain).map Input.fk).Nodup ∧
      ((∀ inp ∈ tx.Inputs, inp.Mint = none ∧ inp.Deposit = none) →
        (tx.Inputs.map Input.fk).Nodup) := by
  have hnd : ((tx.Inputs.takeWhile Input.plain).map Input.fk).Nodup := by
    unfold validateInputs at h
    split at h
    · exact absurd h (by simp)
    · rename_i f a hl
      simpa using validateInputsLoop_nodup c x store tx hash txType fork _ _ _ _ hl (by simp)
    · rename_i st hl
      simpa using validateInputsLoop_nodup c x store tx hash txType fork _ _ _ _ hl (by simp)
  refine ⟨hnd, ?_⟩
  intro hplain
  have hall : tx.Inputs.takeWhile Input.plain = tx.Inputs := by
    rw [List.takeWhile_eq_self_iff]
    intro inp hinp
    simp [Input.plain, (hplain inp hinp).1, (hplain inp hinp).2]
  rw [hall] at hnd
  exact hnd

/-- The amended C2 at an accepted transaction with two inputs. -/
theorem no_duplicate_spend_witness :
    ((sampleTx [plainInput 11 0, mintInput 5] [scriptOutput 5 [31]]
        [[(0, 9)], []]).Inputs.takeWhile Input.plain).map Input.fk = [(11, 0)] ∧
      (((sampleTx [plainInput 11 0, mintInput 5] [scriptOutput 5 [31]]
        [[(0, 9)], []]).Inputs.takeWhile Input.plain).map Input.fk).Nodup :=
  ⟨by decide,
    (no_duplicate_spend sampleConfig sampleCollab (sampleStore 0)
      (sampleTx [plainInput 11 0, mintInput 5] [scriptOutput 5 [31]] [[(0, 9)], []]) 99 1 false
      ([((11, 0), sampleUTXO)], 5) (by decide)).1⟩

/-- C3, as stated, fails: with fork = false the second input names a UTXO that the store returns
locked to the hash 98, the payload hash is 99, and validateInputs returns no error, because the
first input carries a Mint descriptor and ends the loop before the UTXO is read. -/
theorem locked_input_accepted :
    (∃ u : UTXOWithLock, (sampleStore 98).ReadUTXOLock 11 0 = .ok (some u) ∧
        crypto.HasValue u.LockHash = true ∧ u.LockHash ≠ 99) ∧
      validateInputs sampleConfig sampleCollab (sampleStore 98)
        (sampleTx [mintInput 5, plainInput 11 0] [scriptOutput 5 [31]] [[], []])
        99 1 false = .ok ([], 5) := by
  refine ⟨⟨_, rfl, by decide, by decide⟩, by decide⟩

/-- C3, amended. Lock-hash exclusion: with fork = false, when the input at position `k` names a
UTXO that the store returns with a lock hash that is set and differs from the payload hash, and
no input at a position up to `k` carries a Mint or Deposit descriptor, validateInputs does not
accept the transaction; it returns an error, and does not panic on a read of `sigs[index]`,
when the signature is aggregated or the signatures map has an entry for each of the inputs
before `k`. -/
theorem lock_hash_exclusion (c : Config) (x : Collab) (store : UTXOLockReader)
    (tx : SignedTransaction) (hash : crypto.Hash) (txType : Nat) (k : Nat) (inp : Input)
    (utxo : UTXOWithLock)
    (hk : tx.Inputs[k]? = some inp)
    (hread : store.ReadUTXOLock inp.Hash inp.Index = .ok (some utxo))
    (hlock : crypto.HasValue utxo.LockHash = true) (hne : utxo.LockHash ≠ hash)
    (hplain : ∀ j ≤ k, ∀ i, tx.Inputs[j]? = some i → i.Mint = none ∧ i.Deposit = none) :
    (∀ r, validateInputs c x store tx hash txType false ≠ .ok r) ∧
      (tx.AggregatedSignature.isSome = true ∨ k ≤ tx.sigs.length →
        ∃ e, validateInputs c x store tx hash txType false = .error (.err e)) := by
  have hklt : k < tx.Inputs.length := by
    by_contra hcon
    rw [List.getElem?_eq_none (by omega)] at hk
    exact absurd hk (by simp)
  have hget : tx.Inputs[k] = inp := by
    rw [List.getElem?_eq_getElem hklt] at hk
    simpa using hk
  have hsplit : tx.Inputs = tx.Inputs.take k ++ inp :: tx.Inputs.drop (k + 1) := by
    rw [← hget, ← List.drop_eq_getElem_cons hklt, List.take_append_drop]
  have hpre : ∀ j ∈ tx.Inputs.take k, j.Mint = none ∧ j.Deposit = none := by
    intro j hj
    obtain ⟨n, hn, hnj⟩ := List.getElem_of_mem hj
    rw [List.length_take] at hn
    have hnk : n < k := by omega
    apply hplain n (by omega) j
    rw [List.getElem_take] at hnj
    rw [List.getElem?_eq_getElem (by omega), hnj]
  have hinp := hplain k (le_refl k) inp hk
  obtain ⟨e, he, hpanic⟩ := validateInputsLoop_locked c x store tx hash txType inp
    (tx.Inputs.drop (k + 1)) utxo hinp.1 hinp.2 hread hlock hne (tx.Inputs.take k) 0
    { inputsFilter := [], inputAmount := 0, allKeys := [], keySigs := [] } hpre
  rw [← hsplit] at he
  have hres : validateInputs c x store tx hash txType false = .error e := by
    unfold validateInputs
    rw [he]
  refine ⟨fun r => by rw [hres]; simp, ?_⟩
  intro hs
  have hnp : e ≠ .goPanic := by
    apply hpanic
    rcases hs with hs | hs
    · exact Or.inl hs
    · right
      rw [List.length_take]
      omega
  rw [hres]
  cases e with
  | err e1 => exact ⟨e1, rfl⟩
  | goPanic => exact absurd rfl hnp

/-- The amended C3 at a transaction whose only input names the UTXO locked to the hash 98. -/
theorem lock_hash_exclusion_witness :
    validateInputs sampleConfig sampleCollab (sampleStore 98)
        (sampleTx [plainInput 11 0] [scriptOutput 5 [31]] [[(0, 9)]]) 99 0 false
      = .error (.err (.inputLocked 98)) ∧
    (∀ r, validateInputs sampleConfig sampleCollab (sampleStore 98)
        (sampleTx [plainInput 11 0] [scriptOutput 5 [31]] [[(0, 9)]]) 99 0 false ≠ .ok r) :=
  ⟨by decide,
    (lock_hash_exclusion sampleConfig sampleCollab (sampleStore 98)
      (sampleTx [plainInput 11 0] [scriptOutput 5 [31]] [[(0, 9)]]) 99 0 0 (plainInput 11 0)
      { toUTXO := sampleUTXO, LockHash := 98 } rfl rfl (by decide) (by decide)
      (by
        intro j hj i hi
        have hj0 : j = 0 := by omega
        subst hj0
        simp only [sampleTx, List.getElem?_cons_zero, Option.some.injEq] at hi
        subst hi
        exact ⟨rfl, rfl⟩)).1⟩

/-- C4, as stated, fails: validateOutputs accepts a transaction whose two outputs both carry the
key 31, because the first output has a withdrawal descriptor and its keys are not looked at. -/
theorem ghost_key_collision_accepted :
    (validateOutputs sampleConfig sampleCollab sampleLocker ()
        (sampleTx [plainInput 11 0] [withdrawalOutput 0 2 [31], scriptOutput 3 [31]]
          [[(0, 9)]]).toTransaction 99 5 false).1 = .ok () ∧
      ¬ (allOutputKeys (sampleTx [plainInput 11 0] [withdrawalOutput 0 2 [31], scriptOutput 3 [31]]
          [[(0, 9)]]).Outputs).Nodup := by
  constructor
  · decide
  · decide

/-- C4, amended. Ghost-key uniqueness: when validateOutputs accepts a transaction, the ghost keys
of its outputs without a withdrawal descriptor, taken over all these outputs, are pairwise
distinct and each of them satisfies CheckKey; so two such outputs that both carry a key G are
rejected. -/
theorem ghost_key_uniqueness {σ : Type} (c : Config) (x : Collab) (store : GhostLocker σ) (s : σ)
    (tx : Transaction) (hash : crypto.Hash) (inputAmount : Integer) (fork : Bool)
    (h : (validateOutputs c x store s tx hash inputAmount fork).1 = .ok ()) :
    (collectedGhostKeys tx.Outputs).Nodup ∧
      ∀ k ∈ collectedGhostKeys tx.Outputs, x.CheckKey k = true := by
  obtain ⟨st, hloop, _⟩ := validateOutputs_ok c x store s tx hash inputAmount fork h
  obtain ⟨_, hf, _, hnd, hck, _⟩ := validateOutputsLoop_ok c x _ _ _ hloop
  refine ⟨?_, hck⟩
  have := hnd (by simp)
  rw [hf] at this
  simpa using this

/-- The amended C4 at an accepted transaction with a withdrawal output and two script outputs. -/
theorem ghost_key_uniqueness_witness :
    collectedGhostKeys [withdrawalOutput 0 1 [31], scriptOutput 1 [31], scriptOutput 3 [32, 33]]
        = [31, 32, 33] ∧
      (collectedGhostKeys
        [withdrawalOutput 0 1 [31], scriptOutput 1 [31], scriptOutput 3 [32, 33]]).Nodup :=
  ⟨by decide,
    (ghost_key_uniqueness sampleConfig sampleCollab sampleLocker ()
      (sampleTx [plainInput 11 0]
        [withdrawalOutput 0 1 [31], scriptOutput 1 [31], scriptOutput 3 [32, 33]]
        [[(0, 9)]]).toTransaction 99 5 false (by decide)).1⟩

/-- C5, as stated, fails: validateOutputs accepts an output of type WithdrawalSubmit that has a
key, a script and a mask, because the output has a withdrawal descriptor and the switch on
its type is not reached. -/
theorem kernel_multisig_material_accepted :
    (validateOutputs sampleConfig sampleCollab sampleLocker ()
        (sampleTx [plainInput 11 0] [withdrawalOutput 161 5 [31]] [[(0, 9)]]).toTransaction
        99 5 false).1 = .ok () ∧
      (withdrawalOutput 161 5 [31]).Typ = sampleConfig.OutputTypeWithdrawalSubmit ∧
      (withdrawalOutput 161 5 [31]).Keys ≠ [] ∧ (withdrawalOutput 161 5 [31]).Script ≠ [] ∧
      crypto.HasValue (withdrawalOutput 161 5 [31]).Mask = true := by
  refine ⟨by decide, by decide, by decide, by decide, by decide⟩

/-- C5, amended. Kernel-multisig outputs carry no ghost material: when validateOutputs accepts a
transaction, every output without a withdrawal descriptor whose type is WithdrawalSubmit,
WithdrawalClaim, NodePledge, NodeCancel or NodeAccept has no keys, an empty script and no
mask. -/
theorem kernel_multisig_no_ghost_material {σ : Type} (c : Config) (x : Collab)
    (store : GhostLocker σ) (s : σ) (tx : Transaction) (hash : crypto.Hash)
    (inputAmount : Integer) (fork : Bool)
    (h : (validateOutputs c x store s tx hash inputAmount fork).1 = .ok ()) :
    ∀ o ∈ tx.Outputs, o.Withdrawal = none →
      (o.Typ = c.OutputTypeWithdrawalSubmit ∨ o.Typ = c.OutputTypeWithdrawalClaim ∨
        o.Typ = c.OutputTypeNodePledge ∨ o.Typ = c.OutputTypeNodeCancel ∨
        o.Typ = c.OutputTypeNodeAccept) →
      o.Keys = [] ∧ o.Script = [] ∧ crypto.HasValue o.Mask = false := by
  obtain ⟨st, hloop, _⟩ := validateOutputs_ok c x store s tx hash inputAmount fork h
  obtain ⟨_, _, _, _, _, hkm⟩ := validateOutputsLoop_ok c x _ _ _ hloop
  exact hkm

/-- The amended C5 at an accepted transaction with a node pledge output. -/
theorem kernel_multisig_no_ghost_material_witness :
    (pledgeOutput 5).Keys = [] ∧ (pledgeOutput 5).Script = [] ∧
      crypto.HasValue (pledgeOutput 5).Mask = false :=
  kernel_multisig_no_ghost_material sampleConfig sampleCollab sampleLocker ()
    (sampleTx [plainInput 11 0] [pledgeOutput 5] [[(0, 9)]]).toTransaction 99 5 false (by decide)
    (pledgeOutput 5) (by decide) rfl (by decide)

/-! ### The extra limit -/

theorem findStorageOutputLoop_eq_foldl (x : Collab) :
    ∀ (outs : List Output) (i : Nat) (so : Option (Nat × Output)),
      (findStorageOutputLoop x i outs so).map (fun s => s.2) =
        (outs.filter (isStorageOutput x)).foldl storageStep (so.map (fun s => s.2)) := by
  intro outs
  induction outs with
  | nil => intro i so; simp [findStorageOutputLoop]
  | cons o rest ih =>
    intro i so
    unfold findStorageOutputLoop
    split
    · rename_i hk
      rw [ih]
      simp [List.filter_cons, isStorageOutput, hk]
    rename_i hk
    split
    · rename_i hs
      rw [ih]
      simp [List.filter_cons, isStorageOutput, hs]
    rename_i hs
    have hso : isStorageOutput x o = true := by
      simp only [ne_eq, Decidable.not_not] at hk hs
      simp [isStorageOutput, hk, hs]
    simp only [List.filter_cons, hso, if_true, List.foldl_cons]
    rw [ih]
    congr 1
    cases so with
    | none => simp [storageStep]
    | some s =>
      simp only [Option.map_some', storageStep]
      split <;> simp_all

theorem foldl_storageStep_some :
    ∀ (cands : List Output) (s : Output),
      ∃ r, cands.foldl storageStep (some s) = some r ∧ r ∈ s :: cands ∧
        (∀ o ∈ s :: cands, o.Amount ≤ r.Amount) ∧
        (s :: cands).find? (fun o => o.Amount = r.Amount) = some r := by
  intro cands
  induction cands with
  | nil =>
    intro s
    exact ⟨s, rfl, by simp, by simp, by simp⟩
  | cons o rest ih =>
    intro s
    simp only [List.foldl_cons, storageStep]
    split
    · rename_i hgt
      obtain ⟨r, hr, hmem, hmax, hfind⟩ := ih o
      have hor : o.Amount ≤ r.Amount := hmax o (List.mem_cons_self _ _)
      have hsr : s.Amount < r.Amount := lt_of_lt_of_le hgt hor
      refine ⟨r, hr, List.mem_cons_of_mem _ hmem, ?_, ?_⟩
      · intro o1 ho1
        rcases List.mem_cons.mp ho1 with rfl | ho1
        · exact le_of_lt hsr
        · exact hmax o1 ho1
      · have hne : ¬ s.Amount = r.Amount := ne_of_lt hsr
        rw [List.find?_cons_of_neg _ (by simpa using hne)]
        exact hfind
    · rename_i hgt
      have hos : o.Amount ≤ s.Amount := not_lt.mp hgt
      obtain ⟨r, hr, hmem, hmax, hfind⟩ := ih s
      have hsr : s.Amount ≤ r.Amount := hmax s (List.mem_cons_self _ _)
      refine ⟨r, hr, ?_, ?_, ?_⟩
      · rcases List.mem_cons.mp hmem with h | h
        · exact h ▸ List.mem_cons_self _ _
        · exact List.mem_cons_of_mem _ (List.mem_cons_of_mem _ h)
      · intro o1 ho1
        rcases List.mem_cons.mp ho1 with rfl | ho1
        · exact hsr
        · rcases List.mem_cons.mp ho1 with rfl | ho1
          · exact le_trans hos hsr
          · exact hmax o1 (List.mem_cons_of_mem _ ho1)
      · by_cases heq : s.Amount = r.Amount
        · rw [List.find?_cons_of_pos _ (by simpa using heq)] at hfind ⊢
          exact hfind
        · rw [List.find?_cons_of_neg _ (by simpa using heq)] at hfind ⊢
          have hne : ¬ o.Amount = r.Amount :=
            ne_of_lt (lt_of_le_of_lt hos (lt_of_le_of_ne hsr heq))
          rw [List.find?_cons_of_neg _ (by simpa using hne)]
          exact hfind

/-- The loop of findStorageOutput refines the reference choice. -/
theorem findStorageOutput_eq_spec (x : Collab) (tx : Transaction) :
    findStorageOutput x tx = storageOutputSpec x tx.Outputs := by
  unfold findStorageOutput storageOutputSpec
  rw [findStorageOutputLoop_eq_foldl]
  simp only [Option.map_none']
  cases hc : tx.Outputs.filter (isStorageOutput x) with
  | nil => simp
  | cons s cands =>
    simp only [List.foldl_cons, storageStep]
    obtain ⟨r, hr, hmem, hmax, hfind⟩ := foldl_storageStep_some cands s
    haveI : Std.Antisymm (fun (a b : Integer) => a ≤ b) := ⟨fun h1 h2 => le_antisymm h1 h2⟩
    have hm : ((s :: cands).map (fun o => o.Amount)).max? = some r.Amount := by
      rw [List.max?_eq_some_iff (fun a => le_refl a) (fun a b => max_choice a b)
        (fun a b c => max_le_iff)]
      refine ⟨List.mem_map.mpr ⟨r, hmem, rfl⟩, ?_⟩
      intro b hb
      obtain ⟨o, ho, rfl⟩ := List.mem_map.mp hb
      exact hmax o ho
    rw [hm, hr]
    exact hfind.symm

theorem uint64ToInt_of_le (u : Nat) (cap : Int) (h : (u : Int) ≤ cap) (hcap : cap < 2 ^ 63) :
    uint64ToInt u = (u : Int) := by
  have hu : u < 2 ^ 63 := by omega
  have hmod : u % 2 ^ 64 = u := Nat.mod_eq_of_lt (by omega)
  unfold uint64ToInt
  rw [hmod, if_pos hu]

/-- The uint64 product of GetExtraLimit is the exact product when that is below 2^64. -/
theorem storageLimit_fits (a p s : Int) (hp : 0 < p) (hs : 0 ≤ s) (ha : p ≤ a)
    (hfit : a / p * s < 2 ^ 64) :
    ((((Integer.Count a p : Nat) : Int) * s % 2 ^ 64).toNat : Int) = a / p * s := by
  have hq : 0 ≤ a / p := Int.ediv_nonneg (le_trans (le_of_lt hp) ha) (le_of_lt hp)
  have hnn : 0 ≤ a / p * s := mul_nonneg hq hs
  have hcount : ((Integer.Count a p : Nat) : Int) = a / p % 2 ^ 64 := by
    unfold Integer.Count
    push_cast
    rw [Int.toNat_of_nonneg hq]
  rw [hcount, Int.mul_emod (a / p % 2 ^ 64) s (2 ^ 64), Int.emod_emod, ← Int.mul_emod,
    Int.emod_eq_of_lt hnn hfit, Int.toNat_of_nonneg hnn]

/-- C6, as stated, fails: the product `cells * ExtraSizeStorageStep` is a uint64 product. For
a XIN transaction whose storage output pays for 2^54 cells the product 2^54 * 1024 wraps to 0,
so GetExtraLimit returns 0, while the reference definition gives the capacity 4194304. -/
theorem getExtraLimit_wraps_below_spec :
    GetExtraLimit sampleConfig sampleCollab
        (sampleTx [plainInput 11 0] [storageOutput 0 180143985094819840000]
          []).toTransaction = .ok 0 ∧
      extraLimitSpec sampleConfig sampleCollab
        (sampleTx [plainInput 11 0] [storageOutput 0 180143985094819840000]
          []).toTransaction = 4194304 ∧
      (180143985094819840000 : Int) / 10000 = 2 ^ 54 := by
  decide

/-- C6, amended. GetExtraLimit equals the reference definition for every transaction with
version at least TxVersionHashSignature for which the product (so.amount /
ExtraStoragePriceStep) * ExtraSizeStorageStep, where the code computes it (XIN asset, `so` of
type Script with so.amount at least the price step), is below 2^64, so that the uint64 product
does not wrap: the general limit when the asset is not XIN or there is no output with one key
and script "fffe40"; otherwise, for the maximum-amount such output, the earliest on ties, the
capacity, the general limit or the capped storage size as the reference definition says. The
constants are taken as the Go compiler needs them: Script and CustodianUpdateNodes are two
cases of one switch, the price step is positive, the storage step is not negative and the
capacity fits the type `int`. -/
theorem getExtraLimit_refines_spec (c : Config) (x : Collab) (tx : Transaction)
    (hver : c.TxVersionHashSignature ≤ tx.Version)
    (htypes : c.OutputTypeScript ≠ c.OutputTypeCustodianUpdateNodes)
    (hprice : 0 < c.ExtraStoragePriceStep) (hsize : 0 ≤ c.ExtraSizeStorageStep)
    (hcap : c.ExtraSizeStorageCapacity < 2 ^ 63)
    (hfit : ∀ so, tx.Asset = c.XINAssetId → storageOutputSpec x tx.Outputs = some so →
      so.Typ = c.OutputTypeScript → c.ExtraStoragePriceStep ≤ so.Amount →
      so.Amount / c.ExtraStoragePriceStep * c.ExtraSizeStorageStep < 2 ^ 64) :
    GetExtraLimit c x tx = .ok (extraLimitSpec c x tx) := by
  unfold GetExtraLimit extraLimitSpec
  rw [if_neg (by omega), findStorageOutput_eq_spec]
  split
  · rfl
  rename_i hasset
  split
  · rfl
  rename_i so hso
  by_cases hs : so.Typ = c.OutputTypeScript
  · have hcu : so.Typ ≠ c.OutputTypeCustodianUpdateNodes := fun h => htypes (hs ▸ h)
    rw [if_pos hs, if_neg hcu]
    by_cases hlt : so.Amount < c.ExtraStoragePriceStep
    · rw [if_pos hlt, if_pos (Or.inr hlt)]
    · have hor : ¬ ((so.Typ ≠ c.OutputTypeScript ∧ so.Typ ≠ c.OutputTypeCustodianUpdateNodes) ∨
          so.Amount < c.ExtraStoragePriceStep) := by
        rintro (h | h)
        · exact h.1 hs
        · exact hlt h
      rw [if_neg hlt, if_neg hor]
      have hprod := hfit so (not_not.mp hasset) hso hs (not_lt.mp hlt)
      have hlim := storageLimit_fits so.Amount c.ExtraStoragePriceStep c.ExtraSizeStorageStep
        hprice hsize (not_lt.mp hlt) hprod
      simp only
      generalize ((Integer.Count so.Amount c.ExtraStoragePriceStep : Nat) : Int) *
        c.ExtraSizeStorageStep % 2 ^ 64 = w at hlim ⊢
      split
      · rename_i hgt
        rw [hlim] at hgt
        rw [min_eq_left (le_of_lt hgt)]
      · rename_i hgt
        rw [uint64ToInt_of_le _ _ (not_lt.mp hgt) hcap, hlim]
        rw [hlim] at hgt
        rw [min_eq_right (not_lt.mp hgt)]
  · rw [if_neg hs]
    by_cases hcu : so.Typ = c.OutputTypeCustodianUpdateNodes
    · rw [if_pos hcu, if_pos hcu]
    · rw [if_neg hcu, if_neg hcu, if_pos (Or.inl ⟨hs, hcu⟩)]

/-- The amended C6 at a XIN transaction whose larger storage output pays for two cells. -/
theorem getExtraLimit_refines_spec_witness :
    GetExtraLimit sampleConfig sampleCollab
        (sampleTx [plainInput 11 0] [storageOutput 0 10000, storageOutput 0 25000, scriptOutput 90000 [32]]
          []).toTransaction = .ok 2048 ∧
      extraLimitSpec sampleConfig sampleCollab
        (sampleTx [plainInput 11 0] [storageOutput 0 10000, storageOutput 0 25000, scriptOutput 90000 [32]]
          []).toTransaction = 2048 :=
  ⟨by decide,
    Except.ok.inj ((getExtraLimit_refines_spec sampleConfig sampleCollab
      (sampleTx [plainInput 11 0] [storageOutput 0 10000, storageOutput 0 25000, scriptOutput 90000 [32]]
        []).toTransaction (by decide) (by decide) (by decide) (by decide) (by decide)
      (fun so _ hso _ _ => by
        have e : storageOutputSpec sampleCollab
            (sampleTx [plainInput 11 0]
              [storageOutput 0 10000, storageOutput 0 25000, scriptOutput 90000 [32]]
              []).toTransaction.Outputs = some (storageOutput 0 25000) := by decide
        rw [e] at hso
        rw [← Option.some.inj hso]
        decide)).symm.trans (by decide))⟩

theorem findStorageOutputLoop_index (x : Collab) :
    ∀ (outs : List Output) (i : Nat) (so : Option (Nat × Output)) (r : Nat × Output),
      findStorageOutputLoop x i outs so = some r →
      so = some r ∨ (i ≤ r.1 ∧ outs[r.1 - i]? = some r.2) := by
  intro outs
  induction outs with
  | nil =>
    intro i so r h
    simp only [findStorageOutputLoop] at h
    exact Or.inl h
  | cons o rest ih =>
    intro i so r h
    have hshift : ∀ r : Nat × Output, i + 1 ≤ r.1 ∧ rest[r.1 - (i + 1)]? = some r.2 →
        i ≤ r.1 ∧ (o :: rest)[r.1 - i]? = some r.2 := by
      intro r ⟨h1, h2⟩
      refine ⟨by omega, ?_⟩
      have : r.1 - i = (r.1 - (i + 1)) + 1 := by omega
      rw [this, List.getElem?_cons_succ]
      exact h2
    unfold findStorageOutputLoop at h
    split at h
    · rcases ih _ _ _ h with h1 | h1
      · exact Or.inl h1
      · exact Or.inr (hshift r h1)
    split at h
    · rcases ih _ _ _ h with h1 | h1
      · exact Or.inl h1
      · exact Or.inr (hshift r h1)
    rcases ih _ _ _ h with h1 | h1
    · simp only [Option.some.injEq] at h1
      cases so with
      | none =>
        simp only [gt_iff_lt, lt_self_iff_false, if_false] at h1
        right
        rw [← h1]
        simp
      | some s =>
        simp only at h1
        split at h1
        · right
          rw [← h1]
          simp
        · left
          rw [h1]
    · exact Or.inr (hshift r h1)

/-- The output findStorageOutput returns is the one at the position it selects. -/
theorem findStorageOutput_of_index (x : Collab) (tx : Transaction) (k : Nat) (o : Output)
    (hsel : findStorageOutputIndex x tx = some k) (hk : tx.Outputs[k]? = some o) :
    findStorageOutput x tx = some o := by
  unfold findStorageOutputIndex at hsel
  unfold findStorageOutput
  cases hl : findStorageOutputLoop x 0 tx.Outputs none with
  | none => rw [hl] at hsel; simp at hsel
  | some r =>
    rw [hl] at hsel
    simp only [Option.map_some', Option.some.injEq] at hsel
    rcases findStorageOutputLoop_index x _ _ _ _ hl with h | h
    · simp at h
    · have h2 := h.2
      simp only [Nat.sub_zero, hsel, hk, Option.some.injEq] at h2
      simp [h2]

/-- C7, as stated, fails: the product `cells * ExtraSizeStorageStep` is a uint64 product. Two
XIN transactions differ only in the amount of their one storage output, which findStorageOutput
selects in both: with the amount 10000 (one cell) the limit is 1024, with the larger amount
180143985094819840000 (2^54 cells) the product wraps and the limit is 0. -/
theorem getExtraLimit_falls_on_wrap :
    findStorageOutputIndex sampleCollab
        (sampleTx [plainInput 11 0] [storageOutput 0 10000] []).toTransaction = some 0 ∧
      findStorageOutputIndex sampleCollab
        (sampleTx [plainInput 11 0] [storageOutput 0 180143985094819840000]
          []).toTransaction = some 0 ∧
      (10000 : Integer) ≤ 180143985094819840000 ∧
      GetExtraLimit sampleConfig sampleCollab
        (sampleTx [plainInput 11 0] [storageOutput 0 10000] []).toTransaction = .ok 1024 ∧
      GetExtraLimit sampleConfig sampleCollab
        (sampleTx [plainInput 11 0] [storageOutput 0 180143985094819840000]
          []).toTransaction = .ok 0 ∧
      ¬ ((1024 : Int) ≤ 0) := by
  decide

/-- C7, amended. GetExtraLimit is monotone non-decreasing in the amount of the storage output
as long as the uint64 product does not wrap: for two transactions (XIN or not) that differ
only in the amount of the output at position `k`, which findStorageOutput selects in both, with
amounts a ≤ a1 and, where the code computes it (XIN asset, output of type Script, a1 at least
the price step), the product (a1 / ExtraStoragePriceStep) * ExtraSizeStorageStep below 2^64,
either both calls panic on the version or both return and the limit of the first is at most
the limit of the second. The constants are taken with a positive price step, with the general
limit at most the storage step and the storage capacity, and with a capacity that fits the
type `int`. -/
theorem getExtraLimit_monotone (c : Config) (x : Collab) (tx : Transaction) (k : Nat)
    (o : Output) (a1 : Integer)
    (hstep : 0 < c.ExtraStoragePriceStep) (hsize : 0 ≤ c.ExtraSizeStorageStep)
    (hgen : c.ExtraSizeGeneralLimit ≤ c.ExtraSizeStorageStep)
    (hcap : c.ExtraSizeGeneralLimit ≤ c.ExtraSizeStorageCapacity)
    (hint : c.ExtraSizeStorageCapacity < 2 ^ 63)
    (hk : tx.Outputs[k]? = some o)
    (hsel : findStorageOutputIndex x tx = some k)
    (hsel1 : findStorageOutputIndex x
      { tx with Outputs := tx.Outputs.set k { o with Amount := a1 } } = some k)
    (hle : o.Amount ≤ a1)
    (hfit : tx.Asset = c.XINAssetId → o.Typ = c.OutputTypeScript →
      c.ExtraStoragePriceStep ≤ a1 →
      a1 / c.ExtraStoragePriceStep * c.ExtraSizeStorageStep < 2 ^ 64) :
    (GetExtraLimit c x tx = .error .goPanic ∧
        GetExtraLimit c x { tx with Outputs := tx.Outputs.set k { o with Amount := a1 } } =
          .error .goPanic) ∨
      ∃ l l1, GetExtraLimit c x tx = .ok l ∧
        GetExtraLimit c x { tx with Outputs := tx.Outputs.set k { o with Amount := a1 } } =
          .ok l1 ∧ l ≤ l1 := by
  have hklt : k < tx.Outputs.length := by
    by_contra hcon
    rw [List.getElem?_eq_none (by omega)] at hk
    exact absurd hk (by simp)
  have hf := findStorageOutput_of_index x tx k o hsel hk
  have hf1 := findStorageOutput_of_index x _ k { o with Amount := a1 } hsel1
    (by simp [List.getElem?_set, hklt])
  unfold GetExtraLimit
  simp only [hf, hf1]
  by_cases hv : tx.Version < c.TxVersionHashSignature
  · left
    simp [hv]
  right
  simp only [hv, if_false]
  by_cases ha : tx.Asset ≠ c.XINAssetId
  · exact ⟨_, _, by rw [if_pos ha], by rw [if_pos ha], le_refl _⟩
  simp only [ha, if_false]
  by_cases hs : o.Typ = c.OutputTypeScript
  · simp only [hs, if_true]
    by_cases h2 : a1 < c.ExtraStoragePriceStep
    · have h1 : o.Amount < c.ExtraStoragePriceStep := lt_of_le_of_lt hle h2
      exact ⟨_, _, by rw [if_pos h1], by rw [if_pos h2], le_refl _⟩
    have h3 : c.ExtraStoragePriceStep ≤ a1 := not_lt.mp h2
    have hfit1 := hfit (not_not.mp ha) hs h3
    have hlim1 := storageLimit_fits a1 c.ExtraStoragePriceStep c.ExtraSizeStorageStep
      hstep hsize h3 hfit1
    rw [if_neg h2]
    generalize ((Integer.Count a1 c.ExtraStoragePriceStep : Nat) : Int) *
      c.ExtraSizeStorageStep % 2 ^ 64 = w1 at hlim1 ⊢
    by_cases h1 : o.Amount < c.ExtraStoragePriceStep
    · rw [if_pos h1]
      have hq : 1 ≤ a1 / c.ExtraStoragePriceStep := by
        have := Int.ediv_le_ediv hstep h3
        rwa [Int.ediv_self (ne_of_gt hstep)] at this
      have hprod : c.ExtraSizeStorageStep ≤
          a1 / c.ExtraStoragePriceStep * c.ExtraSizeStorageStep := by
        nlinarith
      split
      · exact ⟨_, _, rfl, rfl, hcap⟩
      · rename_i hgt
        refine ⟨_, _, rfl, rfl, ?_⟩
        rw [uint64ToInt_of_le _ _ (not_lt.mp hgt) hint, hlim1]
        exact le_trans hgen hprod
    · rw [if_neg h1]
      have h4 : c.ExtraStoragePriceStep ≤ o.Amount := not_lt.mp h1
      have hq : o.Amount / c.ExtraStoragePriceStep ≤ a1 / c.ExtraStoragePriceStep :=
        Int.ediv_le_ediv hstep hle
      have hprod : o.Amount / c.ExtraStoragePriceStep * c.ExtraSizeStorageStep ≤
          a1 / c.ExtraStoragePriceStep * c.ExtraSizeStorageStep :=
        mul_le_mul_of_nonneg_right hq hsize
      have hlim := storageLimit_fits o.Amount c.ExtraStoragePriceStep c.ExtraSizeStorageStep
        hstep hsize h4 (lt_of_le_of_lt hprod hfit1)
      generalize ((Integer.Count o.Amount c.ExtraStoragePriceStep : Nat) : Int) *
        c.ExtraSizeStorageStep % 2 ^ 64 = w at hlim ⊢
      have hww : (w.toNat : Int) ≤ (w1.toNat : Int) := by
        rw [hlim, hlim1]
        exact hprod
      split
      · rename_i hgt
        rw [if_pos (lt_of_lt_of_le hgt hww)]
        exact ⟨_, _, rfl, rfl, le_refl _⟩
      · rename_i hgt
        split
        · refine ⟨_, _, rfl, rfl, ?_⟩
          rw [uint64ToInt_of_le _ _ (not_lt.mp hgt) hint]
          exact not_lt.mp hgt
        · rename_i hgt1
          refine ⟨_, _, rfl, rfl, ?_⟩
          rw [uint64ToInt_of_le _ _ (not_lt.mp hgt) hint,
            uint64ToInt_of_le _ _ (not_lt.mp hgt1) hint]
          exact hww
  · simp only [hs, if_false]
    split
    · exact ⟨_, _, rfl, rfl, le_refl _⟩
    · exact ⟨_, _, rfl, rfl, le_refl _⟩

/-- The amended C7 at a storage output whose amount grows from one price step to two and a half:
the limit grows from 1024 to 2048. -/
theorem getExtraLimit_monotone_witness :
    GetExtraLimit sampleConfig sampleCollab
        (sampleTx [plainInput 11 0] [storageOutput 0 10000] []).toTransaction = .ok 1024 ∧
      GetExtraLimit sampleConfig sampleCollab
        (sampleTx [plainInput 11 0] [storageOutput 0 25000] []).toTransaction = .ok 2048 ∧
      (1024 : Int) ≤ 2048 := by
  have h1 : GetExtraLimit sampleConfig sampleCollab
      (sampleTx [plainInput 11 0] [storageOutput 0 10000] []).toTransaction = .ok 1024 := by
    decide
  have h2 : GetExtraLimit sampleConfig sampleCollab
      (sampleTx [plainInput 11 0] [storageOutput 0 25000] []).toTransaction = .ok 2048 := by
    decide
  refine ⟨h1, h2, ?_⟩
  rcases getExtraLimit_monotone sampleConfig sampleCollab
    (sampleTx [plainInput 11 0] [storageOutput 0 10000] []).toTransaction 0
    (storageOutput 0 10000) 25000 (by decide) (by decide) (by decide) (by decide) (by decide)
    rfl (by decide) (by decide) (by decide) (fun _ _ _ => by decide)
    with h | ⟨l, l1, hl, hl1, hle⟩
  · rw [h1] at h
    exact absurd h.1 (by simp)
  · have e1 : l = 1024 := (Except.ok.inj (hl.symm.trans h1))
    have e2 : l1 = 2048 := (Except.ok.inj (hl1.symm.trans h2))
    rw [e1, e2] at hle
    exact hle

/-! ### Election -/

theorem sliceInner_getElem? {α : Type} (s : List α) (h : 2 ≤ s.length) (i : Nat)
    (hi : i < s.length - 2) :
    ∃ t, sliceInner s = some t ∧ t.length = s.length - 2 ∧ t[i]? = s[1 + i]? := by
  refine ⟨(s.drop 1).take (s.length - 2), ?_, ?_, ?_⟩
  · unfold sliceInner
    rw [if_neg (by omega)]
  · rw [List.length_take, List.length_drop]
    omega
  · rw [List.getElem?_take_of_lt hi, List.getElem?_drop]

theorem electionDay_of_le (epoch now : Nat) (h : epoch ≤ now) (hnow : now < 2 ^ 64) :
    electionDay epoch now = (now - epoch) / 86400000000000 := by
  unfold electionDay u64sub u64 timeHour
  have h1 : now % 2 ^ 64 = now := Nat.mod_eq_of_lt hnow
  have h2 : epoch % 2 ^ 64 = epoch := Nat.mod_eq_of_lt (by omega)
  rw [h1, h2]
  have h3 : (now + (2 ^ 64 - epoch)) % 2 ^ 64 = now - epoch := by omega
  rw [h3]

/-- C8. electSnapshotNode is a function of the operation, the day and the accepted list. For an
operation outside Mint, NodeRemove, NodePledge, CustodianUpdateNodes and CustodianSlashNodes it
returns the zero hash. For an operation among them, a time `now` and the accepted list
L = NodesListWithoutState(now, true) with at least KernelMinimumNodesCount and at least 3
entries it returns the id of L[1 + ((day + op) mod (|L| - 2))], where day is the uint64
difference now - epoch divided by 24 hours in nanoseconds (for epoch ≤ now the plain
difference); that position is neither the first nor the last of L, and when the ids of L are
distinct the node is neither the first nor the last entry. Two calls with the same operation,
the same day and the same list return the same. -/
theorem electSnapshotNode_pure (c : Config) (node : Node) (operation now : Nat) :
    (¬ isElectedOperation c operation → electSnapshotNode c node operation now = .ok 0) ∧
    (isElectedOperation c operation →
      c.KernelMinimumNodesCount ≤ (node.NodesListWithoutState now true).length →
      3 ≤ (node.NodesListWithoutState now true).length →
      ∃ n, (node.NodesListWithoutState now true)[1 + (electionDay node.Epoch now + operation) %
            ((node.NodesListWithoutState now true).length - 2)]? = some n ∧
        electSnapshotNode c node operation now = .ok n.IdForNetwork ∧
        0 < 1 + (electionDay node.Epoch now + operation) %
            ((node.NodesListWithoutState now true).length - 2) ∧
        1 + (electionDay node.Epoch now + operation) %
            ((node.NodesListWithoutState now true).length - 2) <
          (node.NodesListWithoutState now true).length - 1 ∧
        (((node.NodesListWithoutState now true).map (fun m => m.IdForNetwork)).Nodup →
          ∀ m, (node.NodesListWithoutState now true)[0]? = some m ∨
              (node.NodesListWithoutState now true)[
                (node.NodesListWithoutState now true).length - 1]? = some m →
            n.IdForNetwork ≠ m.IdForNetwork)) ∧
    (∀ (node2 : Node) (now2 : Nat),
      node2.NodesListWithoutState now2 true = node.NodesListWithoutState now true →
      electionDay node2.Epoch now2 = electionDay node.Epoch now →
      electSnapshotNode c node2 operation now2 = electSnapshotNode c node operation now) ∧
    (node.Epoch ≤ now → now < 2 ^ 64 →
      electionDay node.Epoch now = (now - node.Epoch) / 86400000000000) := by
  refine ⟨?_, ?_, ?_, electionDay_of_le node.Epoch now⟩
  · intro hop
    unfold electSnapshotNode
    rw [if_neg hop]
  · intro hop hmin h3
    generalize hL : node.NodesListWithoutState now true = L at hmin h3 ⊢
    have hidx : (electionDay node.Epoch now + operation) % (L.length - 2) < L.length - 2 :=
      Nat.mod_lt _ (by omega)
    obtain ⟨t, ht, hlen, hget⟩ := sliceInner_getElem? L (by omega) _ hidx
    have hpos : 1 + (electionDay node.Epoch now + operation) % (L.length - 2) < L.length := by
      omega
    refine ⟨L[1 + (electionDay node.Epoch now + operation) % (L.length - 2)],
      List.getElem?_eq_getElem hpos, ?_, by omega, by omega, ?_⟩
    · unfold electSnapshotNode
      rw [if_pos hop]
      simp only [hL]
      rw [if_neg (by omega), ht]
      simp only
      rw [if_neg (by omega), hlen, hget, List.getElem?_eq_getElem hpos]
    · intro hnd m hm heq
      rw [List.nodup_iff_getElem?_ne_getElem?] at hnd
      rcases hm with hm | hm
      · apply hnd 0 (1 + (electionDay node.Epoch now + operation) % (L.length - 2))
          (by omega) (by simpa using hpos)
        rw [List.getElem?_map, List.getElem?_map, hm, List.getElem?_eq_getElem hpos]
        simp [heq]
      · apply hnd (1 + (electionDay node.Epoch now + operation) % (L.length - 2))
          (L.length - 1) (by omega) (by simp; omega)
        rw [List.getElem?_map, List.getElem?_map, hm, List.getElem?_eq_getElem hpos]
        simp [heq]
  · intro node2 now2 hlist hday
    unfold electSnapshotNode
    simp only [hlist, hday]

/-- The election theorem at the pledge operation on day one with seven accepted nodes: the slot
is 1 + (1 + 6) mod 5 = 3, and the node elected is the fourth of the list. -/
theorem electSnapshotNode_pure_witness :
    electionDay 0 86400000000000 = 1 ∧
      electSnapshotNode sampleConfig (sampleNode none) 6 86400000000000 = .ok 503 := by
  refine ⟨by decide, ?_⟩
  obtain ⟨n, hn, hres, _⟩ := (electSnapshotNode_pure sampleConfig (sampleNode none) 6
    86400000000000).2.1 (by decide) (by decide) (by decide)
  have h3 : sampleNodes[3]? = some n := hn
  simp only [sampleNodes, List.getElem?_cons_succ, List.getElem?_cons_zero,
    Option.some.injEq] at h3
  rw [hres, ← h3]
  rfl

/-! ### Accepting a pledge -/

/-- C9. Round trip of build and validate for accept: when buildNodeAcceptTransaction succeeds at
a timestamp t ≠ 0 on a chain that getOrCreateChain returns for its id, then
validateNodeAcceptSnapshot, on a snapshot with that chain id as NodeId, round number 0 and
timestamp t, with the built transaction, the same finalized flag and the same state, returns
no error; and every build from the same state and timestamp returns a transaction with the
same payload hash. -/
theorem accept_build_validate_round_trip (c : Config) (x : Collab) (node : Node) (chain : Chain)
    (clockNow t : Nat) (finalized : Bool) (tx : VersionedTransaction)
    (ht : t ≠ 0) (hchain : node.getOrCreateChain chain.ChainId = chain)
    (hbuild : buildNodeAcceptTransaction c x node chain t finalized = .ok tx) :
    validateNodeAcceptSnapshot c x node clockNow
        { NodeId := chain.ChainId, RoundNumber := 0, Timestamp := t } tx finalized = .ok () ∧
      ∀ tx2, buildNodeAcceptTransaction c x node chain t finalized = .ok tx2 →
        x.PayloadHash tx2 = x.PayloadHash tx := by
  constructor
  · unfold validateNodeAcceptSnapshot snapshotTimestamp
    simp only [ht, false_and, if_false, ne_eq, not_true_eq_false, hchain, hbuild]
  · intro tx2 h2
    rw [hbuild] at h2
    simp only [Except.ok.injEq] at h2
    rw [h2]

/-- The round trip at the sample pledging node, thirteen hours after the pledge. -/
theorem accept_build_validate_round_trip_witness :
    buildNodeAcceptTransaction sampleConfig sampleCollab (sampleNode (some samplePledging))
        sampleChain 46800000000000 false =
      .ok (newNodeAcceptTransaction sampleConfig 165 1350000000000 samplePledge.Extra 900) ∧
    validateNodeAcceptSnapshot sampleConfig sampleCollab (sampleNode (some samplePledging)) 0
        { NodeId := 510, RoundNumber := 0, Timestamp := 46800000000000 }
        (newNodeAcceptTransaction sampleConfig 165 1350000000000 samplePledge.Extra 900) false =
      .ok () :=
  ⟨by decide,
    (accept_build_validate_round_trip sampleConfig sampleCollab (sampleNode (some samplePledging))
      sampleChain 0 46800000000000 false
      (newNodeAcceptTransaction sampleConfig 165 1350000000000 samplePledge.Extra 900)
      (by decide) (by decide) (by decide)).1⟩

/-! ### The bound on the accepted nodes -/

theorem validateNodePledgeLoop_completed (c : Config) (x : Collab) (tx : VersionedTransaction)
    (timestamp : Nat) (signerSpend : crypto.Key) :
    ∀ (ns : List CNode) (total : Nat) (ex : PledgeExit),
      validateNodePledgeLoop c x tx timestamp signerSpend ns total = .ok ex →
      (∀ cn ∈ ns, cn.Transaction ≠ x.PayloadHash tx) →
      ex = .completed (total + acceptedCount ns) ∧ ∀ cn ∈ ns, cn.State ≠ .Pledging := by
  intro ns
  induction ns with
  | nil =>
    intro total ex h _
    simp only [validateNodePledgeLoop, Except.ok.injEq] at h
    simp [← h, acceptedCount]
  | cons cn rest ih =>
    intro total ex h hnew
    have hcn := hnew cn (List.mem_cons_self _ _)
    have hrest : ∀ m ∈ rest, m.Transaction ≠ x.PayloadHash tx :=
      fun m hm => hnew m (List.mem_cons_of_mem _ hm)
    unfold validateNodePledgeLoop at h
    rw [if_neg hcn] at h
    split at h
    · exact absurd h (by simp)
    simp only at h
    split at h
    · exact absurd h (by simp)
    split at h
    · exact absurd h (by simp)
    split at h
    · exact absurd h (by simp)
    split at h
    · rename_i hst
      obtain ⟨hex, hall⟩ := ih _ _ h hrest
      refine ⟨?_, ?_⟩
      · rw [hex]
        simp only [acceptedCount, List.countP_cons, hst, decide_True, if_true]
        congr 1
        omega
      · intro m hm
        rcases List.mem_cons.mp hm with rfl | hm
        · rw [hst]; simp
        · exact hall m hm
    · rename_i hst
      obtain ⟨hex, hall⟩ := ih _ _ h hrest
      refine ⟨?_, ?_⟩
      · rw [hex]
        simp [acceptedCount, List.countP_cons, hst]
      · intro m hm
        rcases List.mem_cons.mp hm with rfl | hm
        · rw [hst]; simp
        · exact hall m hm
    · rename_i hst
      obtain ⟨hex, hall⟩ := ih _ _ h hrest
      refine ⟨?_, ?_⟩
      · rw [hex]
        simp [acceptedCount, List.countP_cons, hst]
      · intro m hm
        rcases List.mem_cons.mp hm with rfl | hm
        · rw [hst]; simp
        · exact hall m hm
    · exact absurd h (by simp)

/-- An accepted pledge that the listing does not record has seen fewer than 50 Accepted nodes
and no Pledging node in the listing. -/
theorem validateNodePledgeSnapshot_bound (c : Config) (x : Collab) (node : Node)
    (clockNow : Nat) (s : Snapshot) (tx : VersionedTransaction) (finalized : Bool)
    (hval : validateNodePledgeSnapshot c x node clockNow s tx finalized = .ok ())
    (hnew : ∀ cn ∈ node.NodesListWithoutState
        (pledgeOffset c (snapshotTimestamp node clockNow s)) false,
      cn.Transaction ≠ x.PayloadHash tx) :
    acceptedCount (node.NodesListWithoutState
        (pledgeOffset c (snapshotTimestamp node clockNow s)) false) < MaxKernelNodesCount ∧
      ∀ cn ∈ node.NodesListWithoutState
        (pledgeOffset c (snapshotTimestamp node clockNow s)) false, cn.State ≠ .Pledging := by
  unfold validateNodePledgeSnapshot at hval
  simp only at hval
  split at hval
  · exact absurd hval (by simp)
  split at hval
  · exact absurd hval (by simp)
  split at hval
  · exact absurd hval (by simp)
  split at hval
  · exact absurd hval (by simp)
  split at hval
  · exact absurd hval (by simp)
  split at hval
  · exact absurd hval (by simp)
  split at hval
  · exact absurd hval (by simp)
  · rename_i hl
    have := (validateNodePledgeLoop_completed c x tx _ _ _ _ _ hl hnew).1
    exact absurd this (by simp)
  · rename_i total hl
    obtain ⟨hex, hall⟩ := validateNodePledgeLoop_completed c x tx _ _ _ _ _ hl hnew
    simp only [PledgeExit.completed.injEq, zero_add] at hex
    split at hval
    · exact absurd hval (by simp)
    rename_i hlt
    exact ⟨by omega, hall⟩

theorem acceptedCount_round (ns : List CNode) (created : CNode) (pledge : crypto.Hash)
    (hall : ∀ cn ∈ ns, cn.State ≠ .Pledging) (hc : created.Transaction = pledge) :
    acceptedCount (finaliseAccept (finalisePledge ns created) pledge) = acceptedCount ns + 1 := by
  have hsame : ns.map (fun cn =>
      if cn.State = .Pledging ∧ cn.Transaction = pledge then { cn with State := .Accepted }
      else cn) = ns := by
    conv_rhs => rw [← List.map_id ns]
    apply List.map_congr_left
    intro cn hcn
    rw [if_neg (fun h => hall cn hcn h.1)]
    rfl
  unfold finaliseAccept finalisePledge
  rw [List.map_append, hsame]
  simp [acceptedCount, List.countP_append, hc]

/-- C10. Bounded node set. validateNodePledgeSnapshot accepts a pledge transaction that the
node list NodesListWithoutState(offset, false) does not record only if fewer than
MaxKernelNodesCount = 50 nodes of that list are Accepted, where offset is the uint64 sum
timestamp + KernelNodePledgePeriodMinimum (the plain sum when it does not wrap). Hence a
sequence of accepted pledges, each followed by its accept, that starts from a node list
with at most 50 Accepted nodes never leaves more than 50 Accepted nodes. -/
theorem bounded_node_set (c : Config) (x : Collab) :
    MaxKernelNodesCount = 50 ∧
    (∀ (node : Node) (clockNow : Nat) (s : Snapshot) (tx : VersionedTransaction)
        (finalized : Bool),
      validateNodePledgeSnapshot c x node clockNow s tx finalized = .ok () →
      (∀ cn ∈ node.NodesListWithoutState
          (pledgeOffset c (snapshotTimestamp node clockNow s)) false,
        cn.Transaction ≠ x.PayloadHash tx) →
      acceptedCount (node.NodesListWithoutState
          (pledgeOffset c (snapshotTimestamp node clockNow s)) false) < MaxKernelNodesCount) ∧
    (∀ timestamp : Nat, 0 ≤ c.KernelNodePledgePeriodMinimum →
      timestamp + c.KernelNodePledgePeriodMinimum.toNat < 2 ^ 64 →
      pledgeOffset c timestamp = timestamp + c.KernelNodePledgePeriodMinimum.toNat) ∧
    (∀ ns0 ns : List CNode, acceptedCount ns0 ≤ MaxKernelNodesCount →
      PledgeAcceptRun c x ns0 ns → acceptedCount ns ≤ MaxKernelNodesCount) := by
  refine ⟨rfl, ?_, ?_, ?_⟩
  · intro node clockNow s tx finalized hval hnew
    exact (validateNodePledgeSnapshot_bound c x node clockNow s tx finalized hval hnew).1
  · intro timestamp hk hlt
    unfold pledgeOffset u64 toUint64
    have h1 : (c.KernelNodePledgePeriodMinimum % 2 ^ 64).toNat =
        c.KernelNodePledgePeriodMinimum.toNat := by
      have : c.KernelNodePledgePeriodMinimum < 2 ^ 64 := by omega
      rw [Int.emod_eq_of_lt hk this]
    rw [h1, Nat.mod_eq_of_lt hlt]
  · intro ns0 ns h0 hrun
    induction hrun with
    | start => exact h0
    | round node clockNow s tx finalized created _ hlist hnew hval hc _ =>
      subst hlist
      obtain ⟨hlt, hall⟩ :=
        validateNodePledgeSnapshot_bound c x node clockNow s tx finalized hval hnew
      rw [acceptedCount_round _ _ _ hall hc]
      omega

/-- The bound at the sample node: the pledge is accepted with 7 Accepted nodes listed, and after
the pledge and its accept there are 8. -/
theorem bounded_node_set_witness :
    acceptedCount sampleNodes = 7 ∧
      acceptedCount (finaliseAccept (finalisePledge sampleNodes samplePledging) 165) = 8 ∧
      acceptedCount (finaliseAccept (finalisePledge sampleNodes samplePledging) 165) ≤
        MaxKernelNodesCount :=
  ⟨by decide, by decide,
    (bounded_node_set sampleConfig sampleCollab).2.2.2 sampleNodes
      (finaliseAccept (finalisePledge sampleNodes samplePledging) 165) (by decide)
      (PledgeAcceptRun.round (sampleNode none) 0
        { NodeId := 503, RoundNumber := 0, Timestamp := 86400000000000 } samplePledge false
        samplePledging (PledgeAcceptRun.start sampleNodes) rfl (by decide) (by decide)
        (by decide))⟩

/-! ### A single pledging node -/

theorem validateNodePledgeLoop_pledging (c : Config) (x : Collab) (tx : VersionedTransaction)
    (timestamp : Nat) (signerSpend : crypto.Key) :
    ∀ (ns : List CNode) (total : Nat),
      (∃ cn ∈ ns, cn.State = .Pledging) →
      (∀ cn ∈ ns, cn.Transaction ≠ x.PayloadHash tx) →
      ∃ e, validateNodePledgeLoop c x tx timestamp signerSpend ns total = .error (.err e) := by
  intro ns
  induction ns with
  | nil =>
    intro total hp _
    obtain ⟨cn, hcn, _⟩ := hp
    exact absurd hcn (by simp)
  | cons cn rest ih =>
    intro total hp hnew
    have hcn := hnew cn (List.mem_cons_self _ _)
    have hrest : ∀ m ∈ rest, m.Transaction ≠ x.PayloadHash tx :=
      fun m hm => hnew m (List.mem_cons_of_mem _ hm)
    have htail : cn.State ≠ .Pledging → ∃ m ∈ rest, m.State = .Pledging := by
      intro hne
      obtain ⟨m, hm, hst⟩ := hp
      rcases List.mem_cons.mp hm with rfl | hm
      · exact absurd hst hne
      · exact ⟨m, hm, hst⟩
    unfold validateNodePledgeLoop
    rw [if_neg hcn]
    split
    · exact ⟨_, rfl⟩
    simp only
    split
    · exact ⟨_, rfl⟩
    split
    · exact ⟨_, rfl⟩
    split
    · exact ⟨_, rfl⟩
    split
    · rename_i hst
      exact ih _ (htail (by rw [hst]; simp)) hrest
    · rename_i hst
      exact ih _ (htail (by rw [hst]; simp)) hrest
    · rename_i hst
      exact ih _ (htail (by rw [hst]; simp)) hrest
    · exact ⟨_, rfl⟩

/-- C11. Single pledging node: when the node list that validateNodePledgeSnapshot reads,
NodesListWithoutState(offset, false), contains a node in state Pledging, every pledge
transaction whose payload hash is not the Transaction of a node of that list is not accepted,
so no new pledge is accepted while one node is pledging; the validator returns an error
whenever electSnapshotNode returns and the transaction has an output (the two places where it
can panic before the list is read). -/
theorem single_pledging_node (c : Config) (x : Collab) (node : Node) (clockNow : Nat)
    (s : Snapshot) (tx : VersionedTransaction) (finalized : Bool)
    (hp : ∃ cn ∈ node.NodesListWithoutState
        (pledgeOffset c (snapshotTimestamp node clockNow s)) false, cn.State = .Pledging)
    (hnew : ∀ cn ∈ node.NodesListWithoutState
        (pledgeOffset c (snapshotTimestamp node clockNow s)) false,
      cn.Transaction ≠ x.PayloadHash tx) :
    validateNodePledgeSnapshot c x node clockNow s tx finalized ≠ .ok () ∧
      ((∃ eid, electSnapshotNode c node c.TransactionTypeNodePledge
          (snapshotTimestamp node clockNow s) = .ok eid) → tx.Outputs ≠ [] →
        ∃ e, validateNodePledgeSnapshot c x node clockNow s tx finalized = .error (.err e)) := by
  have hloop := validateNodePledgeLoop_pledging c x tx (snapshotTimestamp node clockNow s)
    (crypto.copyKey tx.Extra) _ 0 hp hnew
  obtain ⟨e0, he0⟩ := hloop
  constructor
  · unfold validateNodePledgeSnapshot
    simp only [he0]
    split
    · simp
    split
    · simp
    split
    · simp
    split
    · simp
    split
    · simp
    split
    · simp
    · simp
  · intro helect hout
    obtain ⟨eid, heid⟩ := helect
    unfold validateNodePledgeSnapshot
    simp only [heid, he0]
    split
    · exact ⟨_, rfl⟩
    split
    · exact ⟨_, rfl⟩
    split
    · exact ⟨_, rfl⟩
    split
    · rename_i hnone
      cases ho : tx.Outputs with
      | nil => exact absurd ho hout
      | cons o rest => rw [ho] at hnone; simp at hnone
    split
    · exact ⟨_, rfl⟩
    · exact ⟨_, rfl⟩

/-- C11 at the sample node with a pledging node in its list: the sample pledge is rejected for
the state of that node. -/
theorem single_pledging_node_witness :
    validateNodePledgeSnapshot sampleConfig sampleCollab
        (sampleKernel (sampleNodes ++ [otherPledging]) none (fun _ => none)) 0
        { NodeId := 503, RoundNumber := 0, Timestamp := 86400000000000 } samplePledge false =
      .error (.err (.invalidNodePendingState (sampleAddress 888) .Pledging)) ∧
    validateNodePledgeSnapshot sampleConfig sampleCollab
        (sampleKernel (sampleNodes ++ [otherPledging]) none (fun _ => none)) 0
        { NodeId := 503, RoundNumber := 0, Timestamp := 86400000000000 } samplePledge false ≠
      .ok () :=
  ⟨by decide,
    (single_pledging_node sampleConfig sampleCollab
      (sampleKernel (sampleNodes ++ [otherPledging]) none (fun _ => none)) 0
      { NodeId := 503, RoundNumber := 0, Timestamp := 86400000000000 } samplePledge false
      ⟨otherPledging, by decide, rfl⟩ (by decide)).1⟩

/-! ### The elected proposer -/

/-- C12. Elected-proposer gate: when electSnapshotNode(NodeRemove, t) returns an id N1 that
differs from the NodeId N2 of the snapshot, validateNodeRemoveSnapshot returns the error "node
remove operation at t only by N1 not N2", whatever the transaction, the rest of the state and
the finalized flag are; likewise validateNodePledgeSnapshot returns "node pledge operation at
t only by N1 not N2" when electSnapshotNode(NodePledge, t) returns an id that differs from the
NodeId. Here t is the timestamp of the snapshot, or the clock for an own snapshot without
timestamp. -/
theorem elected_proposer_gate (c : Config) (x : Collab) (k : KernelCollab) (node : Node)
    (clockNow : Nat) (s : Snapshot) (tx : VersionedTransaction) (finalized : Bool) :
    (∀ eid, electSnapshotNode c node c.TransactionTypeNodeRemove
          (snapshotTimestamp node clockNow s) = .ok eid → eid ≠ s.NodeId →
        validateNodeRemoveSnapshot c x k node clockNow s tx finalized =
          .error (.err (.removeOnlyBy (snapshotTimestamp node clockNow s) eid s.NodeId))) ∧
    (∀ eid, electSnapshotNode c node c.TransactionTypeNodePledge
          (snapshotTimestamp node clockNow s) = .ok eid → eid ≠ s.NodeId →
        validateNodePledgeSnapshot c x node clockNow s tx finalized =
          .error (.err (.pledgeOnlyBy (snapshotTimestamp node clockNow s) eid s.NodeId))) := by
  constructor
  · intro eid helect hne
    unfold validateNodeRemoveSnapshot
    simp only [helect, hne, ne_eq, not_false_eq_true, if_true]
  · intro eid helect hne
    unfold validateNodePledgeSnapshot
    simp only [helect, hne, ne_eq, not_false_eq_true, if_true]

/-- C12 at the sample node on day one: the node 501 is elected for the remove and the node 503
for the pledge, and a snapshot of the other node is turned down for each. -/
theorem elected_proposer_gate_witness :
    validateNodeRemoveSnapshot sampleConfig sampleCollab sampleKernelCollab
        (sampleKernel sampleNodes none (fun _ => none)) 0
        { NodeId := 503, RoundNumber := 0, Timestamp := 86400000000000 } samplePledge true =
      .error (.err (.removeOnlyBy 86400000000000 501 503)) ∧
    validateNodePledgeSnapshot sampleConfig sampleCollab
        (sampleKernel sampleNodes none (fun _ => none)) 0
        { NodeId := 501, RoundNumber := 0, Timestamp := 86400000000000 } samplePledge true =
      .error (.err (.pledgeOnlyBy 86400000000000 503 501)) :=
  ⟨(elected_proposer_gate sampleConfig sampleCollab sampleKernelCollab
      (sampleKernel sampleNodes none (fun _ => none)) 0
      { NodeId := 503, RoundNumber := 0, Timestamp := 86400000000000 } samplePledge true).1
      501 (by decide) (by decide),
    (elected_proposer_gate sampleConfig sampleCollab sampleKernelCollab
      (sampleKernel sampleNodes none (fun _ => none)) 0
      { NodeId := 501, RoundNumber := 0, Timestamp := 86400000000000 } samplePledge true).2
      503 (by decide) (by decide)⟩

/-! ### The extra of the pledge -/

/-- C13, at the failing input. The chain's consensus info has the signer key 999 and the payee
key 998; the stored pledge has an extra of 64 bytes that spells 999 and then 12345.
buildNodeAcceptTransaction succeeds and carries that extra over, although the extra is not
the signer key followed by the payee key; the sibling check of buildNodeRemoveTransaction
(lines 141-149) turns the same extra down. -/
theorem accept_built_on_foreign_payee :
    buildNodeAcceptTransaction sampleConfig sampleCollab
        (sampleKernel sampleNodes (some samplePledging)
          (fun h => if h = 165 then some foreignPayeePledge else none))
        sampleChain 46800000000000 false =
      .ok (newNodeAcceptTransaction sampleConfig 165 1350000000000
        foreignPayeePledge.Extra 900) ∧
    foreignPayeePledge.Extra.length = 64 ∧
    foreignPayeePledge.Extra ≠
      crypto.keyBytes samplePledging.Signer.PublicSpendKey ++
        crypto.keyBytes samplePledging.Payee.PublicSpendKey ∧
    buildNodeRemoveFromAccept sampleConfig sampleCollab sampleKernelCollab
        (sampleKernel sampleNodes none
          (fun h => if h = 165 then some foreignPayeePledge else none)) acceptedPledging =
      .error (.err (.invalidAcceptExtraKeys foreignPayeePledge.Extra 999
        (crypto.keyBytes 998))) := by
  refine ⟨by decide, by decide, by decide, by decide⟩

/-! ### The accept period -/

theorem toDuration_window (d : Nat) (lo hi : Int) (hd : d < 2 ^ 64) (hlo : 0 ≤ lo)
    (h1 : ¬ toDuration d < lo) (h2 : ¬ toDuration d > hi) : lo ≤ (d : Int) ∧ (d : Int) ≤ hi := by
  unfold toDuration u64 at h1 h2
  rw [Nat.mod_eq_of_lt hd] at h1 h2
  by_cases h : d < 2 ^ 63
  · rw [if_pos h] at h1 h2
    omega
  · rw [if_neg h] at h1 h2
    omega

theorem u64sub_of_le (a b : Nat) (h : b ≤ a) (ha : a < 2 ^ 64) : u64sub a b = a - b := by
  unfold u64sub u64
  have h1 : a % 2 ^ 64 = a := Nat.mod_eq_of_lt ha
  have h2 : b % 2 ^ 64 = b := Nat.mod_eq_of_lt (by omega)
  rw [h1, h2]
  omega

/-- What a successful checkNodeAcceptPossibility says about the pledging node. -/
theorem checkNodeAcceptPossibility_window (c : Config) (x : Collab) (node : Node)
    (chain : Chain) (t : Nat) (finalized : Bool)
    (hmin : 0 ≤ c.KernelNodeAcceptPeriodMinimum) (ht : t < 2 ^ 64)
    (h : checkNodeAcceptPossibility c x node chain t finalized = .ok ()) :
    ∃ pledging, node.PledgingNode t = some pledging ∧ pledging.Timestamp ≤ t ∧
      c.KernelNodeAcceptPeriodMinimum ≤ ((t - pledging.Timestamp : Nat) : Int) ∧
      ((t - pledging.Timestamp : Nat) : Int) ≤ c.KernelNodeAcceptPeriodMaximum := by
  unfold checkNodeAcceptPossibility at h
  simp only at h
  split at h
  · exact absurd h (by simp)
  split at h
  · exact absurd h (by simp)
  rename_i pledging hpl
  split at h
  · exact absurd h (by simp)
  split at h
  · exact absurd h (by simp)
  split at h
  · exact absurd h (by simp)
  split at h
  · exact absurd h (by simp)
  split at h
  · exact absurd h (by simp)
  split at h
  · exact absurd h (by simp)
  rename_i hts
  split at h
  · exact absurd h (by simp)
  rename_i hlo
  split at h
  · exact absurd h (by simp)
  rename_i hhi
  have hle : pledging.Timestamp ≤ t := not_lt.mp hts
  rw [u64sub_of_le t pledging.Timestamp hle ht] at hlo hhi
  have := toDuration_window (t - pledging.Timestamp) _ _ (by omega) hmin hlo hhi
  exact ⟨pledging, hpl, hle, this.1, this.2⟩

/-- C14. Accept period window: checkNodeAcceptPossibility, and so buildNodeAcceptTransaction,
succeeds at a timestamp t only if, for the pledging node `pledge` at t, t ≥ pledge.timestamp and
KernelNodeAcceptPeriodMinimum ≤ t - pledge.timestamp ≤ KernelNodeAcceptPeriodMaximum as
integers; a difference of 2^63 or more, which the conversion to a signed 64-bit duration
makes negative, is turned down. The minimum is a duration that is not negative and t is a
uint64. -/
theorem accept_period_window (c : Config) (x : Collab) (node : Node) (chain : Chain) (t : Nat)
    (finalized : Bool) (hmin : 0 ≤ c.KernelNodeAcceptPeriodMinimum) (ht : t < 2 ^ 64) :
    (checkNodeAcceptPossibility c x node chain t finalized = .ok () →
      ∃ pledge, node.PledgingNode t = some pledge ∧ pledge.Timestamp ≤ t ∧
        c.KernelNodeAcceptPeriodMinimum ≤ ((t - pledge.Timestamp : Nat) : Int) ∧
        ((t - pledge.Timestamp : Nat) : Int) ≤ c.KernelNodeAcceptPeriodMaximum) ∧
    (∀ tx, buildNodeAcceptTransaction c x node chain t finalized = .ok tx →
      ∃ pledge, node.PledgingNode t = some pledge ∧ pledge.Timestamp ≤ t ∧
        c.KernelNodeAcceptPeriodMinimum ≤ ((t - pledge.Timestamp : Nat) : Int) ∧
        ((t - pledge.Timestamp : Nat) : Int) ≤ c.KernelNodeAcceptPeriodMaximum) := by
  refine ⟨checkNodeAcceptPossibility_window c x node chain t finalized hmin ht, ?_⟩
  intro tx hbuild
  apply checkNodeAcceptPossibility_window c x node chain t finalized hmin ht
  unfold buildNodeAcceptTransaction at hbuild
  split at hbuild
  · exact absurd hbuild (by simp)
  · rename_i hcheck
    exact hcheck

/-- C14 at the sample pledging node, thirteen hours after the pledge: the check succeeds and
the thirteen hours lie between the twelve hours and the seven days of the sample
configuration. -/
theorem accept_period_window_witness :
    checkNodeAcceptPossibility sampleConfig sampleCollab (sampleNode (some samplePledging))
        sampleChain 46800000000000 false = .ok () ∧
      (43200000000000 : Int) ≤ ((46800000000000 - 0 : Nat) : Int) ∧
      ((46800000000000 - 0 : Nat) : Int) ≤ 604800000000000 := by
  have hcheck : checkNodeAcceptPossibility sampleConfig sampleCollab
      (sampleNode (some samplePledging)) sampleChain 46800000000000 false = .ok () := by
    decide
  obtain ⟨pledge, hp, _, hlo, hhi⟩ :=
    (accept_period_window sampleConfig sampleCollab (sampleNode (some samplePledging))
      sampleChain 46800000000000 false (by decide) (by decide)).1 hcheck
  have hpl : pledge = samplePledging := by
    have : some samplePledging = some pledge := hp
    exact (Option.some.inj this).symm
  subst hpl
  exact ⟨hcheck, hlo, hhi⟩

/-! ### The remove candidate -/

theorem toDuration_le (d : Nat) (hd : d < 2 ^ 64) : toDuration d ≤ (d : Int) := by
  unfold toDuration u64
  rw [Nat.mod_eq_of_lt hd]
  split <;> omega

/-- The loop of checkRemovePossibility, when it succeeds: the candidate is the one it started
with or a node named by `old`, and the accepted nodes are the Accepted nodes of the list that
`old` does not name, each of them at least the minimum period old. -/
theorem checkRemoveLoop_ok (c : Config) (x : Collab) (now : Nat)
    (old : Option VersionedTransaction) :
    ∀ (ns : List CNode) (st st1 : RemoveState),
      checkRemoveLoop c x now old ns st = .ok st1 →
      st1.accepted = st.accepted ++ ns.filter (fun cn =>
        !namedByOld x old cn.Transaction && decide (cn.State = .Accepted)) ∧
      (st1.candi = st.candi ∨
        ∃ cn ∈ ns, st1.candi = some cn ∧ namedByOld x old cn.Transaction = true) ∧
      (∀ cn ∈ ns, namedByOld x old cn.Transaction = false →
        cn.Timestamp ≤ now ∧
          c.KernelNodePledgePeriodMinimum ≤ toDuration (u64sub now cn.Timestamp)) := by
  intro ns
  induction ns with
  | nil =>
    intro st st1 h
    simp only [checkRemoveLoop, Except.ok.injEq] at h
    subst h
    simp
  | cons cn rest ih =>
    intro st st1 h
    unfold checkRemoveLoop at h
    split at h
    · rename_i hold
      obtain ⟨hacc, hcandi, hall⟩ := ih _ _ h
      refine ⟨?_, ?_, ?_⟩
      · rw [hacc]
        simp [List.filter_cons, hold]
      · rcases hcandi with hc | ⟨m, hm, hc, hn⟩
        · right
          exact ⟨cn, List.mem_cons_self _ _, hc, hold⟩
        · right
          exact ⟨m, List.mem_cons_of_mem _ hm, hc, hn⟩
      · intro m hm hn
        rcases List.mem_cons.mp hm with rfl | hm
        · rw [hold] at hn
          exact absurd hn (by simp)
        · exact hall m hm hn
    rename_i hold
    have hold1 : namedByOld x old cn.Transaction = false := by simpa using hold
    split at h
    · exact absurd h (by simp)
    rename_i hts
    simp only at h
    split at h
    · exact absurd h (by simp)
    rename_i hel
    have hcn : cn.Timestamp ≤ now ∧
        c.KernelNodePledgePeriodMinimum ≤ toDuration (u64sub now cn.Timestamp) :=
      ⟨not_lt.mp hts, not_lt.mp hel⟩
    have hstep : ∀ (st2 : RemoveState),
        checkRemoveLoop c x now old rest st2 = .ok st1 →
        st2.candi = st.candi →
        st2.accepted = st.accepted ++ [cn].filter (fun cn =>
          !namedByOld x old cn.Transaction && decide (cn.State = .Accepted)) →
        st1.accepted = st.accepted ++ (cn :: rest).filter (fun cn =>
          !namedByOld x old cn.Transaction && decide (cn.State = .Accepted)) ∧
        (st1.candi = st.candi ∨
          ∃ m ∈ cn :: rest, st1.candi = some m ∧ namedByOld x old m.Transaction = true) ∧
        (∀ m ∈ cn :: rest, namedByOld x old m.Transaction = false →
          m.Timestamp ≤ now ∧
            c.KernelNodePledgePeriodMinimum ≤ toDuration (u64sub now m.Timestamp)) := by
      intro st2 h2 hc2 ha2
      obtain ⟨hacc, hcandi, hall⟩ := ih _ _ h2
      refine ⟨?_, ?_, ?_⟩
      · rw [hacc, ha2, List.append_assoc, ← List.filter_append]
        rfl
      · rcases hcandi with hc | ⟨m, hm, hc, hn⟩
        · left
          rw [hc, hc2]
        · right
          exact ⟨m, List.mem_cons_of_mem _ hm, hc, hn⟩
      · intro m hm hn
        rcases List.mem_cons.mp hm with rfl | hm
        · exact hcn
        · exact hall m hm hn
    split at h
    · rename_i hst
      exact hstep _ h rfl (by simp [List.filter_cons, hold1, hst])
    · rename_i hst
      exact hstep _ h rfl (by simp [List.filter_cons, hold1, hst])
    · rename_i hst
      exact hstep _ h rfl (by simp [List.filter_cons, hold1, hst])
    · exact absurd h (by simp)

/-- What a successful checkRemovePossibility went through. -/
theorem checkRemovePossibility_ok (c : Config) (x : Collab) (node : Node) (nodeId : crypto.Hash)
    (now : Nat) (old : Option VersionedTransaction) (candi : CNode)
    (h : checkRemovePossibility c x node nodeId now old = .ok candi) :
    ∃ st, checkRemoveLoop c x now old (node.NodesListWithoutState now false)
        { candi := none, accepted := [] } = .ok st ∧
      c.KernelMinimumNodesCount < st.accepted.length ∧
      (st.candi = some candi ∨ (st.candi = none ∧ st.accepted[0]? = some candi)) ∧
      candi.IdForNetwork ≠ nodeId := by
  unfold checkRemovePossibility at h
  split at h
  · exact absurd h (by simp)
  split at h
  · exact absurd h (by simp)
  split at h
  · exact absurd h (by simp)
  split at h
  · exact absurd h (by simp)
  rename_i st hloop
  split at h
  · exact absurd h (by simp)
  rename_i hlen
  simp only at h
  split at h
  · exact absurd h (by simp)
  rename_i cn hcn
  split at h
  · exact absurd h (by simp)
  rename_i hid
  simp only [Except.ok.injEq] at h
  subst h
  refine ⟨st, hloop, by omega, ?_, hid⟩
  cases hc : st.candi with
  | none =>
    rw [hc] at hcn
    exact Or.inr ⟨rfl, hcn⟩
  | some m =>
    rw [hc] at hcn
    simp only [Option.some.injEq] at hcn
    exact Or.inl (by rw [hcn])

/-- C15, as stated, fails: the candidate is the first Accepted node of the listing, whatever
its timestamp. On a listing of eight accepted nodes in descending order of timestamp
checkRemovePossibility succeeds and returns the node of timestamp 8000, while the accepted node
of timestamp 1000 is in the listing. -/
theorem remove_candidate_not_oldest :
    checkRemovePossibility sampleConfig sampleCollab
        (sampleKernel agedNodes.reverse none (fun _ => none)) 503 46800000000000 none =
        .ok (agedCNode 7) ∧
      agedCNode 0 ∈ (sampleKernel agedNodes.reverse none (fun _ => none)).NodesListWithoutState
        46800000000000 false ∧
      (agedCNode 0).State = .Accepted ∧
      (agedCNode 0).Timestamp = 1000 ∧ (agedCNode 7).Timestamp = 8000 := by
  decide

/-- C15, amended. The remove candidate is the first eligible node, and the oldest one on a
listing in the order of the timestamps: when no old proposal is given and
checkRemovePossibility succeeds at a uint64 time `now`, the returned candidate is in state
Accepted, has now - timestamp ≥ KernelNodePledgePeriodMinimum, and is the first Accepted node
of NodesListWithoutState(now, false); and when that list is in non-decreasing order of
timestamp, no other Accepted node of it has a smaller timestamp. -/
theorem remove_candidate_oldest (c : Config) (x : Collab) (node : Node) (nodeId : crypto.Hash)
    (now : Nat) (candi : CNode) (hnow : now < 2 ^ 64)
    (h : checkRemovePossibility c x node nodeId now none = .ok candi) :
    candi.State = .Accepted ∧ candi.Timestamp ≤ now ∧
      c.KernelNodePledgePeriodMinimum ≤ ((now - candi.Timestamp : Nat) : Int) ∧
      (∃ pre post, node.NodesListWithoutState now false = pre ++ candi :: post ∧
        ∀ cn ∈ pre, cn.State ≠ .Accepted) ∧
      ((node.NodesListWithoutState now false).Pairwise
          (fun a b => a.Timestamp ≤ b.Timestamp) →
        ∀ cn ∈ node.NodesListWithoutState now false, cn.State = .Accepted →
          candi.Timestamp ≤ cn.Timestamp) := by
  obtain ⟨st, hloop, _, hcandi, _⟩ := checkRemovePossibility_ok c x node nodeId now none candi h
  obtain ⟨hacc, hc, hall⟩ := checkRemoveLoop_ok c x now none _ _ _ hloop
  have hnamed : ∀ t, namedByOld x none t = false := fun _ => rfl
  have hnone : st.candi = none := by
    rcases hc with hc | ⟨m, _, _, hn⟩
    · exact hc
    · rw [hnamed] at hn
      exact absurd hn (by simp)
  have hfirst : st.accepted[0]? = some candi := by
    rcases hcandi with hs | ⟨_, hs⟩
    · rw [hnone] at hs
      exact absurd hs (by simp)
    · exact hs
  simp only [List.nil_append, hnamed, Bool.not_false, Bool.true_and] at hacc
  rw [hacc] at hfirst
  cases hf : (node.NodesListWithoutState now false).filter
      (fun cn => decide (cn.State = .Accepted)) with
  | nil => rw [hf] at hfirst; simp at hfirst
  | cons a as =>
    rw [hf] at hfirst
    simp only [List.getElem?_cons_zero, Option.some.injEq] at hfirst
    subst hfirst
    obtain ⟨pre, post, hL, hpre, ha, _⟩ := List.filter_eq_cons_iff.mp hf
    have hmem : a ∈ node.NodesListWithoutState now false := by
      rw [hL]
      simp
    obtain ⟨hts, hel⟩ := hall a hmem (hnamed _)
    have hst : a.State = .Accepted := by simpa using ha
    refine ⟨hst, hts, ?_, ⟨pre, post, hL, ?_⟩, ?_⟩
    · rw [u64sub_of_le now a.Timestamp hts hnow] at hel
      exact le_trans hel (toDuration_le _ (by omega))
    · intro cn hcn
      simpa using hpre cn hcn
    · intro hsorted cn hcn hacn
      rw [hL] at hsorted hcn
      rw [List.pairwise_append] at hsorted
      obtain ⟨_, hpost, _⟩ := hsorted
      rw [List.pairwise_cons] at hpost
      rcases List.mem_append.mp hcn with hin | hin
      · have := hpre cn hin
        simp [hacn] at this
      · rcases List.mem_cons.mp hin with rfl | hin
        · exact le_refl _
        · exact hpost.1 cn hin

/-- The amended C15 on the listing of eight accepted nodes in ascending order of timestamp,
thirteen hours after the epoch: the candidate is the node of timestamp 1000, which is at most
the timestamp of every accepted node of the listing, that of the last one (8000) included. -/
theorem remove_candidate_oldest_witness :
    checkRemovePossibility sampleConfig sampleCollab
        (sampleKernel agedNodes none (fun _ => none)) 503 46800000000000 none =
        .ok (agedCNode 0) ∧
      (agedCNode 0).State = .Accepted ∧
      sampleConfig.KernelNodePledgePeriodMinimum ≤
        ((46800000000000 - (agedCNode 0).Timestamp : Nat) : Int) ∧
      agedNodes.Pairwise (fun a b => a.Timestamp ≤ b.Timestamp) ∧
      (agedCNode 0).Timestamp ≤ (agedCNode 7).Timestamp ∧
      (agedCNode 0).Timestamp ≤ (agedCNode 3).Timestamp := by
  have hcheck : checkRemovePossibility sampleConfig sampleCollab
      (sampleKernel agedNodes none (fun _ => none)) 503 46800000000000 none =
      .ok (agedCNode 0) := by decide
  have hsorted : agedNodes.Pairwise (fun a b => a.Timestamp ≤ b.Timestamp) := by decide
  have := remove_candidate_oldest sampleConfig sampleCollab
    (sampleKernel agedNodes none (fun _ => none)) 503 46800000000000
    (agedCNode 0) (by decide) hcheck
  exact ⟨hcheck, this.1, this.2.2.1, hsorted,
    this.2.2.2.2 hsorted (agedCNode 7) (by decide) (by decide),
    this.2.2.2.2 hsorted (agedCNode 3) (by decide) (by decide)⟩

theorem length_filter_named_le (x : Collab) (old : Option VersionedTransaction)
    (ns : List CNode) :
    (ns.filter (fun cn =>
      !namedByOld x old cn.Transaction && decide (cn.State = .Accepted))).length ≤
      acceptedCount ns := by
  unfold acceptedCount
  rw [← List.countP_eq_length_filter]
  apply List.countP_mono_left
  intro cn _ hcn
  simp only [Bool.and_eq_true, Bool.not_eq_true', decide_eq_true_eq] at hcn
  simpa using hcn.2

/-- C16. Remove refusal conditions: checkRemovePossibility succeeds only if strictly more than
KernelMinimumNodesCount nodes of NodesListWithoutState(now, false) are Accepted and the id of
the returned candidate differs from the proposer nodeId; and when the checks before pass (no
pledging node, time not before the epoch, accept hour, the loop over the list, more than the
minimum of accepted nodes) and the candidate, the node named by `old` or else the first
accepted one, is the proposer itself, the error is "never handle the node remove transaction
by the node self". -/
theorem remove_refusal_conditions (c : Config) (x : Collab) (node : Node)
    (nodeId : crypto.Hash) (now : Nat) (old : Option VersionedTransaction) :
    (∀ candi, checkRemovePossibility c x node nodeId now old = .ok candi →
      c.KernelMinimumNodesCount < acceptedCount (node.NodesListWithoutState now false) ∧
        candi.IdForNetwork ≠ nodeId) ∧
    (∀ st cn, node.PledgingNode now = none → node.Epoch ≤ now →
      checkConsensusAcceptHour c node now = true →
      checkRemoveLoop c x now old (node.NodesListWithoutState now false)
        { candi := none, accepted := [] } = .ok st →
      c.KernelMinimumNodesCount < st.accepted.length →
      (st.candi = some cn ∨ (st.candi = none ∧ st.accepted[0]? = some cn)) →
      cn.IdForNetwork = nodeId →
      checkRemovePossibility c x node nodeId now old = .error (.err .removeBySelf)) := by
  constructor
  · intro candi h
    obtain ⟨st, hloop, hlen, _, hid⟩ := checkRemovePossibility_ok c x node nodeId now old candi h
    obtain ⟨hacc, _, _⟩ := checkRemoveLoop_ok c x now old _ _ _ hloop
    refine ⟨?_, hid⟩
    rw [hacc] at hlen
    simp only [List.nil_append] at hlen
    exact lt_of_lt_of_le hlen (length_filter_named_le x old _)
  · intro st cn hp hepoch hhour hloop hlen hcandi hid
    unfold checkRemovePossibility
    simp only [hp, hloop, hhour]
    rw [if_neg (by omega), if_neg (by simp), if_neg (by omega)]
    rcases hcandi with hc | ⟨hc, hfirst⟩
    · simp only [hc, hid, if_true]
    · simp only [hc, hfirst, hid, if_true]

/-- C16 at the sample node with eight accepted nodes: the remove proposed by the node 503 goes
through with more than seven accepted nodes, and the one proposed by the candidate 500 itself
is refused. -/
theorem remove_refusal_conditions_witness :
    (sampleConfig.KernelMinimumNodesCount < acceptedCount (sampleNodes ++ [sampleCNode 7]) ∧
        (sampleCNode 0).IdForNetwork ≠ 503) ∧
      checkRemovePossibility sampleConfig sampleCollab
        (sampleKernel (sampleNodes ++ [sampleCNode 7]) none (fun _ => none)) 500
        46800000000000 none = .error (.err .removeBySelf) :=
  ⟨(remove_refusal_conditions sampleConfig sampleCollab
      (sampleKernel (sampleNodes ++ [sampleCNode 7]) none (fun _ => none)) 503 46800000000000
      none).1 (sampleCNode 0) (by decide),
    (remove_refusal_conditions sampleConfig sampleCollab
      (sampleKernel (sampleNodes ++ [sampleCNode 7]) none (fun _ => none)) 500 46800000000000
      none).2 { candi := none, accepted := sampleNodes ++ [sampleCNode 7] } (sampleCNode 0)
      rfl (by decide) (by decide) (by decide) (by decide) (Or.inr ⟨rfl, rfl⟩) rfl⟩

/-! ### The initial external reference -/

theorem externalReferenceLoop_nearest (nodeId : crypto.Hash) :
    ∀ (ids pre : List crypto.Hash) (g : crypto.Hash) (k : Nat),
      IsFirstNearest nodeId pre g k →
      ∃ g1 k1, externalReferenceLoop nodeId ids (g, nodeDistance nodeId g) =
          (g1, nodeDistance nodeId g1) ∧ IsFirstNearest nodeId (pre ++ ids) g1 k1 := by
  intro ids
  induction ids with
  | nil =>
    intro pre g k h
    exact ⟨g, k, rfl, by simpa using h⟩
  | cons id rest ih =>
    intro pre g k h
    obtain ⟨hk, hmin, hfirst⟩ := h
    have hklt : k < pre.length := by
      by_contra hcon
      rw [List.getElem?_eq_none (by omega)] at hk
      exact absurd hk (by simp)
    have hsplit : pre ++ id :: rest = (pre ++ [id]) ++ rest := by simp
    unfold externalReferenceLoop
    simp only
    split
    · rename_i hlt
      have hnew : IsFirstNearest nodeId (pre ++ [id]) id pre.length := by
        refine ⟨by simp, ?_, ?_⟩
        · intro j gj hj
          by_cases hjl : j < pre.length
          · rw [List.getElem?_append_left hjl] at hj
            exact le_of_lt (lt_of_lt_of_le hlt (hmin j gj hj))
          · by_cases hje : j = pre.length
            · subst hje
              simp only [List.getElem?_concat_length, Option.some.injEq] at hj
              subst hj
              exact le_refl _
            · rw [List.getElem?_eq_none (by simp; omega)] at hj
              exact absurd hj (by simp)
        · intro j gj hjl hj
          rw [List.getElem?_append_left hjl] at hj
          exact lt_of_lt_of_le hlt (hmin j gj hj)
      obtain ⟨g1, k1, hres, hn⟩ := ih (pre ++ [id]) id pre.length hnew
      exact ⟨g1, k1, hres, by rw [hsplit]; exact hn⟩
    · rename_i hlt
      have hge : nodeDistance nodeId g ≤ nodeDistance nodeId id := not_lt.mp hlt
      have hkeep : IsFirstNearest nodeId (pre ++ [id]) g k := by
        refine ⟨by rw [List.getElem?_append_left hklt]; exact hk, ?_, ?_⟩
        · intro j gj hj
          by_cases hjl : j < pre.length
          · rw [List.getElem?_append_left hjl] at hj
            exact hmin j gj hj
          · by_cases hje : j = pre.length
            · subst hje
              simp only [List.getElem?_concat_length, Option.some.injEq] at hj
              subst hj
              exact hge
            · rw [List.getElem?_eq_none (by simp; omega)] at hj
              exact absurd hj (by simp)
        · intro j gj hjk hj
          rw [List.getElem?_append_left (by omega)] at hj
          exact hfirst j gj hjk hj
      obtain ⟨g1, k1, hres, hn⟩ := ih (pre ++ [id]) g k hkeep
      exact ⟨g1, k1, hres, by rw [hsplit]; exact hn⟩

/-- C17. Initial external reference: for a non-empty genesis node list and a snapshot node id N,
getInitialExternalReference loads the final round 0 of the genesis node g that minimises
(|N - g| as big-endian integers) mod 100, and among the genesis nodes with that minimal value
the one that comes first in the genesis list. -/
theorem initial_external_reference (kc : KernelCollab) (node : Node) (s : Snapshot)
    (hne : node.genesisNodes ≠ []) :
    ∃ g k, IsFirstNearest s.NodeId node.genesisNodes g k ∧
      initialExternalId node s = some g ∧
      getInitialExternalReference kc node s =
        (match kc.loadFinalRoundForNode g 0 with
          | .error e => .error (.err (.store e))
          | .ok round => .ok round) := by
  cases hg : node.genesisNodes with
  | nil => exact absurd hg hne
  | cons g0 rest =>
    have hfirst : IsFirstNearest s.NodeId [g0] g0 0 := by
      refine ⟨rfl, ?_, ?_⟩
      · intro j gj hj
        cases j with
        | zero =>
          simp only [List.getElem?_cons_zero, Option.some.injEq] at hj
          subst hj
          exact le_refl _
        | succ n => simp at hj
      · intro j gj hj _
        omega
    obtain ⟨g1, k1, hres, hn⟩ := externalReferenceLoop_nearest s.NodeId rest [g0] g0 0 hfirst
    have hloop : externalReferenceLoop s.NodeId (g0 :: rest) (g0, nodeDistance s.NodeId g0) =
        (g1, nodeDistance s.NodeId g1) := by
      rw [← hres]
      conv_lhs => unfold externalReferenceLoop
      simp
    have hid : initialExternalId node s = some g1 := by
      unfold initialExternalId
      rw [hg]
      simp only [List.getElem?_cons_zero]
      rw [hloop]
    refine ⟨g1, k1, by simpa using hn, hid, ?_⟩
    unfold getInitialExternalReference
    rw [hid]

/-- C17 at the genesis nodes 1234, 560, 1207 and 707 for the node id 1000: the distances are 34,
40, 7 and 93, and the round of the third genesis node is loaded. -/
theorem initial_external_reference_witness :
    initialExternalId (sampleKernel sampleNodes none (fun _ => none))
        { NodeId := 1000, RoundNumber := 0, Timestamp := 5 } = some 1207 ∧
      nodeDistance 1000 1207 = 7 ∧
      IsFirstNearest 1000 [1234, 560, 1207, 707] 1207 2 := by
  have hid : initialExternalId (sampleKernel sampleNodes none (fun _ => none))
      { NodeId := 1000, RoundNumber := 0, Timestamp := 5 } = some 1207 := by decide
  obtain ⟨g, k, hn, hg, _⟩ := initial_external_reference sampleKernelCollab
    (sampleKernel sampleNodes none (fun _ => none))
    { NodeId := 1000, RoundNumber := 0, Timestamp := 5 } (by decide)
  have hg1 : g = 1207 := Option.some.inj (hg.symm.trans hid)
  subst hg1
  have hk : k = 2 := by
    have h1 : ([1234, 560, 1207, 707] : List crypto.Hash)[k]? = some 1207 := hn.1
    have hklt : k < 4 := by
      by_contra hcon
      rw [List.getElem?_eq_none (by simp; omega)] at h1
      exact absurd h1 (by simp)
    interval_cases k
    · exact absurd h1 (by decide)
    · exact absurd h1 (by decide)
    · rfl
    · exact absurd h1 (by decide)
  subst hk
  exact ⟨hid, by decide, hn⟩

/-! ### The gates of Validate -/

/-- An accepted transaction has passed the structural gates. -/
theorem Validate_ok_gates {σ : Type} (c : Config) (x : Collab) (v : ValidateEnv σ) (s : σ)
    (ver : VersionedTransaction) (snapTime : Nat) (fork : Bool)
    (h : (Validate c x v s ver snapTime fork).1 = .ok ()) :
    structuralGates c x v ver (v.TransactionType ver) = none := by
  unfold Validate at h
  simp only at h
  split at h
  · exact absurd h (by simp)
  · rename_i hg
    exact hg

theorem structuralGates_none_signatureGate {σ : Type} (c : Config) (x : Collab)
    (v : ValidateEnv σ) (ver : VersionedTransaction) (txType : Nat)
    (h : structuralGates c x v ver txType = none) : signatureGate c ver txType = none := by
  unfold structuralGates at h
  split at h
  · exact absurd h (by simp)
  split at h
  · exact absurd h (by simp)
  split at h
  · exact absurd h (by simp)
  split at h
  · exact absurd h (by simp)
  split at h
  · exact absurd h (by simp)
  split at h
  · exact absurd h (by simp)
  split at h
  · exact absurd h (by simp)
  split at h
  · exact absurd h (by simp)
  · rename_i hs
    exact hs

/-- C18, as stated, fails: Validate accepts a script transaction with one input and an
aggregated signature; its signatures map is nil, so the number of entries of the map is 0 and
not the number of inputs. -/
theorem aggregated_without_signatures_map_accepted :
    (Validate sampleConfig sampleCollab sampleValidateEnv () aggregatedTx 0 false).1 = .ok () ∧
      sampleValidateEnv.TransactionType aggregatedTx ≠ sampleConfig.TransactionTypeNodeAccept ∧
      sampleValidateEnv.TransactionType aggregatedTx ≠ sampleConfig.TransactionTypeNodeRemove ∧
      aggregatedTx.sigs.length = 0 ∧ aggregatedTx.Inputs.length = 1 := by
  refine ⟨by decide, by decide, by decide, by decide, by decide⟩

/-- C18, amended. Signature-count gate: for every transaction that Validate accepts, that
carries no aggregated signature and whose type is neither NodeAccept nor NodeRemove, the number
of entries of the signatures map equals the number of inputs; and no accepted transaction
carries both an aggregated signature and a signatures map: with an aggregated signature the
map is nil. -/
theorem signature_count_gate {σ : Type} (c : Config) (x : Collab) (v : ValidateEnv σ) (s : σ)
    (ver : VersionedTransaction) (snapTime : Nat) (fork : Bool)
    (h : (Validate c x v s ver snapTime fork).1 = .ok ()) :
    (ver.AggregatedSignature = none →
        v.TransactionType ver ≠ c.TransactionTypeNodeAccept →
        v.TransactionType ver ≠ c.TransactionTypeNodeRemove →
        ver.sigs.length = ver.Inputs.length) ∧
      (ver.AggregatedSignature.isSome = true → ver.SignaturesMap = none) := by
  have hgate := structuralGates_none_signatureGate c x v ver _
    (Validate_ok_gates c x v s ver snapTime fork h)
  unfold signatureGate at hgate
  constructor
  · intro hagg hacc hrem
    rw [hagg] at hgate
    simp only at hgate
    split at hgate
    · exact absurd hgate (by simp)
    · rename_i hcond
      by_contra hne
      exact hcond ⟨fun heq => hne heq.symm, hacc, hrem⟩
  · intro hagg
    cases ha : ver.AggregatedSignature with
    | none => rw [ha] at hagg; simp at hagg
    | some a =>
      rw [ha] at hgate
      simp only at hgate
      split at hgate
      · exact absurd hgate (by simp)
      · rename_i hm
        exact hm

/-- The amended C18 at an accepted script transaction with one input and one signature map. -/
theorem signature_count_gate_witness :
    (Validate sampleConfig sampleCollab sampleValidateEnv ()
        (sampleTx [plainInput 11 0] [scriptOutput 5 [31]] [[(0, 9)]]) 0 false).1 = .ok () ∧
      (sampleTx [plainInput 11 0] [scriptOutput 5 [31]] [[(0, 9)]]).sigs.length =
        (sampleTx [plainInput 11 0] [scriptOutput 5 [31]] [[(0, 9)]]).Inputs.length :=
  ⟨by decide,
    (signature_count_gate sampleConfig sampleCollab sampleValidateEnv ()
      (sampleTx [plainInput 11 0] [scriptOutput 5 [31]] [[(0, 9)]]) 0 false (by decide)).1
      rfl (by decide) (by decide)⟩

/-! ### The UTXO sub-validator -/

theorem aggregatedSignersLoop_eq (utxo : UTXO) (offset : Nat) :
    ∀ (signers : List Int) (keySigs : KeySigs) (n : Nat),
      aggregatedSignersLoop utxo offset (offset + utxo.Keys.length) signers keySigs n =
        .ok ((retainedSigners offset (offset + utxo.Keys.length) signers).foldl
            (markSigner utxo offset) keySigs,
          n + (retainedSigners offset (offset + utxo.Keys.length) signers).length) := by
  intro signers
  induction signers with
  | nil =>
    intro keySigs n
    simp [aggregatedSignersLoop, retainedSigners]
  | cons m rest ih =>
    intro keySigs n
    unfold aggregatedSignersLoop
    split
    · rename_i hlim
      have : ¬ m < (offset : Int) + utxo.Keys.length := not_lt.mpr hlim
      simp [retainedSigners, List.takeWhile_cons, this]
    rename_i hlim
    have hlt : m < (offset : Int) + utxo.Keys.length := not_le.mp hlim
    split
    · rename_i hoff
      rw [ih]
      have : ¬ (offset : Int) ≤ m := not_le.mpr hoff
      simp [retainedSigners, List.takeWhile_cons, hlt, List.filter_cons, this]
    rename_i hoff
    have hge : (offset : Int) ≤ m := not_lt.mp hoff
    have hidx : (m - (offset : Int)).toNat < utxo.Keys.length := by omega
    split
    · rename_i hnone
      rw [List.getElem?_eq_none_iff] at hnone
      omega
    · rename_i key hkey
      rw [ih]
      simp only [retainedSigners, List.takeWhile_cons, hlt, decide_True, if_true,
        List.filter_cons, hge, List.foldl_cons, List.length_cons, markSigner, hkey]
      congr 2
      omega

theorem retainedSigners_mem (offset limit : Int) (signers : List Int) (m : Int)
    (h : m ∈ retainedSigners offset limit signers) : offset ≤ m ∧ m < limit := by
  unfold retainedSigners at h
  rw [List.mem_filter] at h
  obtain ⟨htw, hoff⟩ := h
  refine ⟨by simpa using hoff, ?_⟩
  have := List.mem_takeWhile_imp htw
  simpa using this

theorem retainedSigners_sorted (offset limit : Int) :
    ∀ (signers : List Int), signers.Pairwise (fun a b => a ≤ b) →
      retainedSigners offset limit signers =
        signers.filter (fun m => decide (offset ≤ m) && decide (m < limit)) := by
  intro signers
  induction signers with
  | nil => intro _; rfl
  | cons m rest ih =>
    intro hs
    rw [List.pairwise_cons] at hs
    obtain ⟨hm, hrest⟩ := hs
    by_cases hlt : m < limit
    · have := ih hrest
      unfold retainedSigners at this ⊢
      simp only [List.takeWhile_cons, hlt, decide_True, if_true, List.filter_cons]
      rw [this]
      simp
    · have hnone : rest.filter (fun m => decide (offset ≤ m) && decide (m < limit)) = [] := by
        rw [List.filter_eq_nil_iff]
        intro a ha
        have := hm a ha
        simp only [Bool.and_eq_true, decide_eq_true_eq, not_and, not_lt]
        intro _
        exact le_trans (not_lt.mp hlt) this
      simp [retainedSigners, List.takeWhile_cons, hlt, List.filter_cons, hnone]

/-- C19, as stated, fails: for the script UTXO with one key, offset 0 and the signer list [5, 0],
the entry 0 lies in [0, 1), yet validateUTXO passes the count 0 to Script.Validate (which here
asks for one signer and fails), because the loop breaks at the entry 5 before it sees the
entry 0. -/
theorem unordered_signers_miscounted :
    validateUTXO sampleConfig thresholdCollab 0 sampleUTXO []
        (some { Signers := [5, 0], Signature := 1 }) 0 [] 0 =
      .error (.err (.scriptValidate sampleUTXO.Script 0)) ∧
    (([5, 0] : List Int).filter (fun m =>
      decide ((0 : Int) ≤ m) && decide (m < 0 + (sampleUTXO.Keys.length : Int)))).length = 1 := by
  constructor
  · decide
  · decide

/-- C19, amended. Aggregated signer counting: for every Script or NodeRemove UTXO, every offset
and every aggregated signer list, validateUTXO passes to Script.Validate the number of entries
m with offset ≤ m among the entries of agg.signers that come before its first entry at or
above offset + |utxo.keys|, and marks in keySigs exactly the keys utxo.keys[m - offset] for
those entries; for a signer list in ascending order these are all the entries m with
offset ≤ m < offset + |utxo.keys|. -/
theorem aggregated_signer_counting (c : Config) (x : Collab) (index : Nat) (utxo : UTXO)
    (sigs : List SigMap) (a : AggregatedSignature) (txType : Nat) (keySigs : KeySigs)
    (offset : Nat)
    (htyp : utxo.Typ = c.OutputTypeScript ∨ utxo.Typ = c.OutputTypeNodeRemove) :
    validateUTXO c x index utxo sigs (some a) txType keySigs offset =
        (if x.Validate utxo.Script
            (retainedSigners offset (offset + utxo.Keys.length) a.Signers).length then
          .ok ((retainedSigners offset (offset + utxo.Keys.length) a.Signers).foldl
            (markSigner utxo offset) keySigs)
        else .error (.err (.scriptValidate utxo.Script
          (retainedSigners offset (offset + utxo.Keys.length) a.Signers).length))) ∧
      (∀ m ∈ retainedSigners offset (offset + utxo.Keys.length) a.Signers,
        (offset : Int) ≤ m ∧ m < offset + utxo.Keys.length ∧
          ∃ key, utxo.Keys[(m - (offset : Int)).toNat]? = some key) ∧
      (a.Signers.Pairwise (fun m1 m2 => m1 ≤ m2) →
        retainedSigners offset (offset + utxo.Keys.length) a.Signers =
          a.Signers.filter (fun m =>
            decide ((offset : Int) ≤ m) && decide (m < offset + utxo.Keys.length))) := by
  refine ⟨?_, ?_, retainedSigners_sorted _ _ a.Signers⟩
  · unfold validateUTXO
    rw [if_pos htyp]
    simp only [aggregatedSignersLoop_eq, zero_add]
  · intro m hm
    obtain ⟨h1, h2⟩ := retainedSigners_mem _ _ _ m hm
    refine ⟨h1, h2, ?_⟩
    have hidx : (m - (offset : Int)).toNat < utxo.Keys.length := by omega
    exact ⟨utxo.Keys[(m - (offset : Int)).toNat], List.getElem?_eq_getElem hidx⟩

/-- The amended C19 at the script UTXO with one key, offset 0 and the signers [0, 5]: one signer
is counted and the key 21 is marked at position 0. -/
theorem aggregated_signer_counting_witness :
    retainedSigners 0 (0 + (sampleUTXO.Keys.length : Int)) [0, 5] = [0] ∧
      validateUTXO sampleConfig thresholdCollab 0 sampleUTXO []
        (some { Signers := [0, 5], Signature := 1 }) 0 [] 0 = .ok [(0, 21, none)] := by
  have hret : retainedSigners 0 (0 + (sampleUTXO.Keys.length : Int)) [0, 5] = [0] := by decide
  refine ⟨hret, ?_⟩
  have h := (aggregated_signer_counting sampleConfig thresholdCollab 0 sampleUTXO []
    { Signers := [0, 5], Signature := 1 } 0 [] 0 (Or.inl rfl)).1
  rw [h]
  decide

/-- C20. The spending table of the kernel UTXOs: for a UTXO whose type is neither Script nor
NodeRemove and any type of the enclosing transaction, validateUTXO returns no error if and
only if the UTXO is a NodePledge and the transaction a NodeAccept or NodeCancel, or the UTXO
is a NodeAccept and the transaction a NodeRemove; otherwise it returns an error, as it always
does for a NodeCancel UTXO and for every other UTXO type. The three output types are cases of
one Go switch and so differ. -/
theorem kernel_utxo_spending_table (c : Config) (x : Collab) (index : Nat) (utxo : UTXO)
    (sigs : List SigMap) (as : Option AggregatedSignature) (txType : Nat) (keySigs : KeySigs)
    (offset : Nat)
    (hs : utxo.Typ ≠ c.OutputTypeScript) (hr : utxo.Typ ≠ c.OutputTypeNodeRemove)
    (hpa : c.OutputTypeNodePledge ≠ c.OutputTypeNodeAccept)
    (hpc : c.OutputTypeNodePledge ≠ c.OutputTypeNodeCancel)
    (hac : c.OutputTypeNodeAccept ≠ c.OutputTypeNodeCancel) :
    (validateUTXO c x index utxo sigs as txType keySigs offset = .ok keySigs ↔
        (utxo.Typ = c.OutputTypeNodePledge ∧
          (txType = c.TransactionTypeNodeAccept ∨ txType = c.TransactionTypeNodeCancel)) ∨
        (utxo.Typ = c.OutputTypeNodeAccept ∧ txType = c.TransactionTypeNodeRemove)) ∧
      (validateUTXO c x index utxo sigs as txType keySigs offset = .ok keySigs ∨
        ∃ e, validateUTXO c x index utxo sigs as txType keySigs offset = .error (.err e)) ∧
      (utxo.Typ = c.OutputTypeNodeCancel →
        ∃ e, validateUTXO c x index utxo sigs as txType keySigs offset = .error (.err e)) ∧
      (utxo.Typ ≠ c.OutputTypeNodePledge → utxo.Typ ≠ c.OutputTypeNodeAccept →
        ∃ e, validateUTXO c x index utxo sigs as txType keySigs offset = .error (.err e)) := by
  have hsr : ¬ (utxo.Typ = c.OutputTypeScript ∨ utxo.Typ = c.OutputTypeNodeRemove) := by
    rintro (h | h)
    · exact hs h
    · exact hr h
  have hother : utxo.Typ ≠ c.OutputTypeNodePledge → utxo.Typ ≠ c.OutputTypeNodeAccept →
      ∃ e, validateUTXO c x index utxo sigs as txType keySigs offset = .error (.err e) := by
    intro hp ha
    unfold validateUTXO
    rw [if_neg hsr, if_neg hp, if_neg ha]
    split
    · exact ⟨_, rfl⟩
    · exact ⟨_, rfl⟩
  refine ⟨?_, ?_, ?_, hother⟩
  · unfold validateUTXO
    rw [if_neg hsr]
    by_cases hp : utxo.Typ = c.OutputTypeNodePledge
    · have ha : utxo.Typ ≠ c.OutputTypeNodeAccept := fun h => hpa (hp ▸ h)
      rw [if_pos hp]
      by_cases ht : txType = c.TransactionTypeNodeAccept ∨ txType = c.TransactionTypeNodeCancel
      · rw [if_pos ht]
        simp [hp, ht]
      · rw [if_neg ht]
        simp [ha, ht]
    · rw [if_neg hp]
      by_cases ha : utxo.Typ = c.OutputTypeNodeAccept
      · rw [if_pos ha]
        by_cases ht : txType = c.TransactionTypeNodeRemove
        · rw [if_pos ht]
          simp [ha, ht]
        · rw [if_neg ht]
          simp [hp, ht]
      · rw [if_neg ha]
        split <;> simp [hp, ha]
  · unfold validateUTXO
    rw [if_neg hsr]
    split
    · split
      · exact Or.inl rfl
      · exact Or.inr ⟨_, rfl⟩
    · split
      · split
        · exact Or.inl rfl
        · exact Or.inr ⟨_, rfl⟩
      · split
        · exact Or.inr ⟨_, rfl⟩
        · exact Or.inr ⟨_, rfl⟩
  · intro hc
    exact hother (fun h => hpc (h ▸ hc)) (fun h => hac (h ▸ hc))

/-- C20 at a NodePledge UTXO of the sample configuration: it may be spent by a NodeAccept
transaction and not by a script transaction. -/
theorem kernel_utxo_spending_table_witness :
    validateUTXO sampleConfig sampleCollab 0
        { sampleUTXO with toOutput := pledgeOutput 5 } [] none 7 [] 0 = .ok [] ∧
      validateUTXO sampleConfig sampleCollab 0
        { sampleUTXO with toOutput := pledgeOutput 5 } [] none 0 [] 0 =
        .error (.err (.pledgeInputInvalidType 0)) :=
  ⟨((kernel_utxo_spending_table sampleConfig sampleCollab 0
      { sampleUTXO with toOutput := pledgeOutput 5 } [] none 7 [] 0
      (by decide) (by decide) (by decide) (by decide) (by decide)).1).mpr
      (Or.inl ⟨rfl, Or.inl rfl⟩),
    by decide⟩

/-! ### The hours of the day -/

theorem consensusHour_of_le (node : Node) (t : Nat) (h : node.Epoch ≤ t) (ht : t < 2 ^ 64) :
    consensusHour node t = (t - node.Epoch) / 3600000000000 % 24 := by
  unfold consensusHour timeHour
  rw [u64sub_of_le t node.Epoch h ht]

/-- C24. The pledge and accept windows are disjoint: with hour = ((t - epoch) / hour_ns) mod 24
(the uint64 difference, which is the plain one for t ≥ epoch), checkConsensusAcceptHour(t) holds
iff KernelNodeAcceptTimeBegin ≤ hour ≤ KernelNodeAcceptTimeEnd, checkConsensusPledgeHour(t) holds
iff the hour is outside both [KernelMintTimeBegin, KernelMintTimeEnd] and
[KernelNodeAcceptTimeBegin, KernelNodeAcceptTimeEnd], and so for no timestamp do both checks
hold. -/
theorem pledge_accept_windows_disjoint (c : Config) (node : Node) (t : Nat) :
    (checkConsensusAcceptHour c node t = true ↔
      c.KernelNodeAcceptTimeBegin ≤ consensusHour node t ∧
        consensusHour node t ≤ c.KernelNodeAcceptTimeEnd) ∧
    (checkConsensusPledgeHour c node t = true ↔
      ¬ (c.KernelMintTimeBegin ≤ consensusHour node t ∧
          consensusHour node t ≤ c.KernelMintTimeEnd) ∧
        ¬ (c.KernelNodeAcceptTimeBegin ≤ consensusHour node t ∧
          consensusHour node t ≤ c.KernelNodeAcceptTimeEnd)) ∧
    ¬ (checkConsensusAcceptHour c node t = true ∧ checkConsensusPledgeHour c node t = true) ∧
    (node.Epoch ≤ t → t < 2 ^ 64 →
      consensusHour node t = (t - node.Epoch) / 3600000000000 % 24) := by
  have hacc : checkConsensusAcceptHour c node t = true ↔
      c.KernelNodeAcceptTimeBegin ≤ consensusHour node t ∧
        consensusHour node t ≤ c.KernelNodeAcceptTimeEnd := by
    unfold checkConsensusAcceptHour
    simp
  have hpl : checkConsensusPledgeHour c node t = true ↔
      ¬ (c.KernelMintTimeBegin ≤ consensusHour node t ∧
          consensusHour node t ≤ c.KernelMintTimeEnd) ∧
        ¬ (c.KernelNodeAcceptTimeBegin ≤ consensusHour node t ∧
          consensusHour node t ≤ c.KernelNodeAcceptTimeEnd) := by
    unfold checkConsensusPledgeHour
    simp
    omega
  refine ⟨hacc, hpl, ?_, consensusHour_of_le node t⟩
  rintro ⟨h1, h2⟩
  exact (hpl.mp h2).2 (hacc.mp h1)

/-- C24 at the sample node: thirteen hours after the epoch the accept check holds and the pledge
check does not; at the epoch it is the other way round. -/
theorem pledge_accept_windows_disjoint_witness :
    consensusHour (sampleNode none) 46800000000000 = 13 ∧
      checkConsensusAcceptHour sampleConfig (sampleNode none) 46800000000000 = true ∧
      checkConsensusPledgeHour sampleConfig (sampleNode none) 46800000000000 = false ∧
      checkConsensusAcceptHour sampleConfig (sampleNode none) 0 = false ∧
      checkConsensusPledgeHour sampleConfig (sampleNode none) 0 = true := by
  have h := pledge_accept_windows_disjoint sampleConfig (sampleNode none) 46800000000000
  have hhour : consensusHour (sampleNode none) 46800000000000 = 13 := by
    rw [h.2.2.2 (by decide) (by decide)]
    decide
  have hacc : checkConsensusAcceptHour sampleConfig (sampleNode none) 46800000000000 = true :=
    h.1.mpr (by rw [hhour]; decide)
  refine ⟨hhour, hacc, ?_, by decide, by decide⟩
  cases hp : checkConsensusPledgeHour sampleConfig (sampleNode none) 46800000000000 with
  | false => rfl
  | true => exact absurd ⟨hacc, hp⟩ h.2.2.1

/-! ### The election index -/

theorem u64sub_lt (a b : Nat) : u64sub a b < 2 ^ 64 := by
  unfold u64sub
  exact Nat.mod_lt _ (by norm_num)

theorem electionDay_le (epoch now : Nat) : electionDay epoch now ≤ 213503 := by
  unfold electionDay timeHour
  have := u64sub_lt now epoch
  omega

/-- C27. The election index is always in range: for every operation (a byte when below 256),
every `now` and epoch, wrapped or not, the day is at most 213503, so it and day + op fit the
signed int type; for every accepted list of length ≥ 3 the slice is taken, the index
idx = (day + op) mod (|accepted| - 2) is below |accepted| - 2 and the indexed entry exists, so
an elected operation with at least KernelMinimumNodesCount accepted nodes returns a node. A
list of length 2 passes the guard on the length exactly when KernelMinimumNodesCount < 3; its
slice is empty, the modulus is zero and the call panics. -/
theorem election_index_in_range (c : Config) (node : Node) (operation now : Nat) :
    (electionDay node.Epoch now ≤ 213503 ∧
      (operation < 256 → electionDay node.Epoch now + operation < 2 ^ 31)) ∧
    (3 ≤ (node.NodesListWithoutState now true).length →
      (electionDay node.Epoch now + operation) %
          ((node.NodesListWithoutState now true).length - 2) <
        (node.NodesListWithoutState now true).length - 2 ∧
      ∃ t n, sliceInner (node.NodesListWithoutState now true) = some t ∧
        t.length = (node.NodesListWithoutState now true).length - 2 ∧
        t[(electionDay node.Epoch now + operation) % t.length]? = some n ∧
        (isElectedOperation c operation →
          c.KernelMinimumNodesCount ≤ (node.NodesListWithoutState now true).length →
          electSnapshotNode c node operation now = .ok n.IdForNetwork)) ∧
    ((node.NodesListWithoutState now true).length = 2 →
      sliceInner (node.NodesListWithoutState now true) = some [] ∧
      ((node.NodesListWithoutState now true).length < c.KernelMinimumNodesCount ↔
        3 ≤ c.KernelMinimumNodesCount) ∧
      (isElectedOperation c operation →
        electSnapshotNode c node operation now = .error .goPanic)) := by
  have hday := electionDay_le node.Epoch now
  refine ⟨⟨hday, fun hop => by omega⟩, ?_, ?_⟩
  · intro h3
    generalize hL : node.NodesListWithoutState now true = L at h3 ⊢
    have hidx : (electionDay node.Epoch now + operation) % (L.length - 2) < L.length - 2 :=
      Nat.mod_lt _ (by omega)
    refine ⟨hidx, ?_⟩
    obtain ⟨t, ht, hlen, hget⟩ := sliceInner_getElem? L (by omega) _ hidx
    have hpos : 1 + (electionDay node.Epoch now + operation) % (L.length - 2) < L.length := by
      omega
    refine ⟨t, L[1 + (electionDay node.Epoch now + operation) % (L.length - 2)], ht, hlen, ?_, ?_⟩
    · rw [hlen, hget, List.getElem?_eq_getElem hpos]
    · intro hop hmin
      unfold electSnapshotNode
      rw [if_pos hop]
      simp only [hL]
      rw [if_neg (by omega), ht]
      simp only
      rw [if_neg (by omega), hlen, hget, List.getElem?_eq_getElem hpos]
  · intro h2
    generalize hL : node.NodesListWithoutState now true = L at h2 ⊢
    have hslice : sliceInner L = some [] := by
      unfold sliceInner
      rw [if_neg (by omega), h2]
      simp
    refine ⟨hslice, by omega, ?_⟩
    intro hop
    unfold electSnapshotNode
    rw [if_pos hop]
    simp only [hL]
    split
    · rfl
    · rw [hslice]
      simp

/-- C27 at the pledge operation and time 0 on a node whose epoch is 100: the difference wraps to
2^64 - 100, the day is 213503, the index is 213509 mod 5 = 4 and the sixth accepted node is
elected. -/
theorem election_index_in_range_witness :
    electionDay 100 0 = 213503 ∧
      (electionDay 100 0 + 6) % (sampleNodes.length - 2) = 4 ∧
      (electionDay 100 0 + 6) % (sampleNodes.length - 2) < sampleNodes.length - 2 ∧
      electSnapshotNode sampleConfig lateEpochNode 6 0 = .ok 505 :=
  ⟨by decide, by decide,
    ((election_index_in_range sampleConfig lateEpochNode 6 0).2.1 (by decide)).1, by decide⟩

/-! ### The daily rotation -/

/-- The node an elected operation gets with enough accepted nodes. -/
theorem electSnapshotNode_slot (c : Config) (node : Node) (operation now : Nat)
    (hop : isElectedOperation c operation)
    (hmin : c.KernelMinimumNodesCount ≤ (node.NodesListWithoutState now true).length)
    (h3 : 3 ≤ (node.NodesListWithoutState now true).length) :
    ∃ n, (node.NodesListWithoutState now true)[1 + (electionDay node.Epoch now + operation) %
          ((node.NodesListWithoutState now true).length - 2)]? = some n ∧
      electSnapshotNode c node operation now = .ok n.IdForNetwork := by
  generalize hL : node.NodesListWithoutState now true = L at hmin h3 ⊢
  have hidx : (electionDay node.Epoch now + operation) % (L.length - 2) < L.length - 2 :=
    Nat.mod_lt _ (by omega)
  obtain ⟨t, ht, hlen, hget⟩ := sliceInner_getElem? L (by omega) _ hidx
  have hpos : 1 + (electionDay node.Epoch now + operation) % (L.length - 2) < L.length := by
    omega
  refine ⟨L[1 + (electionDay node.Epoch now + operation) % (L.length - 2)],
    List.getElem?_eq_getElem hpos, ?_⟩
  unfold electSnapshotNode
  rw [if_pos hop]
  simp only [hL]
  rw [if_neg (by omega), ht]
  simp only
  rw [if_neg (by omega), hlen, hget, List.getElem?_eq_getElem hpos]

theorem electionDay_next (epoch now : Nat) (h : epoch ≤ now)
    (hlt : now + 86400000000000 < 2 ^ 64) :
    electionDay epoch (now + 86400000000000) = electionDay epoch now + 1 := by
  rw [electionDay_of_le epoch _ (by omega) hlt, electionDay_of_le epoch now h (by omega)]
  omega

theorem succ_slot (a n : Nat) : (a + 1) % n = (a % n + 1) % n := by
  rw [Nat.add_mod a 1 n, Nat.add_mod (a % n) 1 n, Nat.mod_mod]

/-- C25, as stated, fails on two guards of electSnapshotNode. The pledge operation (6) is an
elected operation and its successor 7 is not: at time 0 the sample node elects the node 502 for
the operation 6 and gets the zero hash for the operation 7, not the node 503 of the next slot.
And a node whose accepted list has three entries, fewer than KernelMinimumNodesCount, selects
no slot at all: electSnapshotNode panics at time 0 and 24 hours later. -/
theorem rotation_stops_at_guards :
    isElectedOperation sampleConfig 6 ∧ ¬ isElectedOperation sampleConfig 7 ∧
      electSnapshotNode sampleConfig (sampleNode none) 6 0 = .ok 502 ∧
      electSnapshotNode sampleConfig (sampleNode none) 7 0 = .ok 0 ∧
      ((sampleNode none).NodesListWithoutState 0 true)[1 + (1 + 1) % 5]? =
        some (sampleCNode 3) ∧
      (shortListNode.NodesListWithoutState 0 true).length = 3 ∧
      shortListNode.NodesListWithoutState 86400000000000 true =
        shortListNode.NodesListWithoutState 0 true ∧
      electSnapshotNode sampleConfig shortListNode 6 0 = .error .goPanic ∧
      electSnapshotNode sampleConfig shortListNode 6 86400000000000 = .error .goPanic := by
  decide

/-- C25, amended. Daily rotation: for an elected operation op, an accepted list L with
|L| = n + 2 ≥ 3 and at least KernelMinimumNodesCount entries that is the same at both times,
and a time now ≥ epoch whose next day is still a uint64, electSnapshotNode selects at now the
slot (day + op) mod n, at now + 24 hours that slot advanced by one modulo n, and for the
operation op + 1 at now, when it is an elected operation too, again that slot advanced by one
modulo n. -/
theorem daily_rotation (c : Config) (node node2 : Node) (operation now : Nat)
    (hop : isElectedOperation c operation)
    (hepoch : node2.Epoch = node.Epoch)
    (hlist : node2.NodesListWithoutState (now + 86400000000000) true =
      node.NodesListWithoutState now true)
    (hmin : c.KernelMinimumNodesCount ≤ (node.NodesListWithoutState now true).length)
    (h3 : 3 ≤ (node.NodesListWithoutState now true).length)
    (hnow : node.Epoch ≤ now) (hlt : now + 86400000000000 < 2 ^ 64) :
    ∃ slot a b, slot = (electionDay node.Epoch now + operation) %
          ((node.NodesListWithoutState now true).length - 2) ∧
      (node.NodesListWithoutState now true)[1 + slot]? = some a ∧
      (node.NodesListWithoutState now true)[1 + (slot + 1) %
          ((node.NodesListWithoutState now true).length - 2)]? = some b ∧
      electSnapshotNode c node operation now = .ok a.IdForNetwork ∧
      electSnapshotNode c node2 operation (now + 86400000000000) = .ok b.IdForNetwork ∧
      (isElectedOperation c (operation + 1) →
        electSnapshotNode c node (operation + 1) now = .ok b.IdForNetwork) := by
  obtain ⟨a, ha, hea⟩ := electSnapshotNode_slot c node operation now hop hmin h3
  obtain ⟨b, hb, heb⟩ := electSnapshotNode_slot c node2 operation (now + 86400000000000) hop
    (by rw [hlist]; exact hmin) (by rw [hlist]; exact h3)
  rw [hlist, hepoch, electionDay_next node.Epoch now hnow hlt] at hb
  have hshift : (electionDay node.Epoch now + 1 + operation) %
      ((node.NodesListWithoutState now true).length - 2) =
      ((electionDay node.Epoch now + operation) %
        ((node.NodesListWithoutState now true).length - 2) + 1) %
        ((node.NodesListWithoutState now true).length - 2) := by
    rw [← succ_slot]
    congr 1
    omega
  rw [hshift] at hb
  refine ⟨_, a, b, rfl, ha, hb, hea, heb, ?_⟩
  intro hop1
  obtain ⟨b1, hb1, heb1⟩ := electSnapshotNode_slot c node (operation + 1) now hop1 hmin h3
  have hshift1 : (electionDay node.Epoch now + (operation + 1)) %
      ((node.NodesListWithoutState now true).length - 2) =
      ((electionDay node.Epoch now + operation) %
        ((node.NodesListWithoutState now true).length - 2) + 1) %
        ((node.NodesListWithoutState now true).length - 2) := by
    rw [← succ_slot]
    congr 1
  rw [hshift1, hb] at hb1
  rw [heb1]
  congr 2
  exact (Option.some.inj hb1).symm

/-- C25 at the sample node: for the custodian update (19) the slot is 4 on day 0 and 0 on day 1,
and for the custodian slash (20) it is 0 on day 0. -/
theorem daily_rotation_witness :
    electSnapshotNode sampleConfig (sampleNode none) 19 0 = .ok 505 ∧
      electSnapshotNode sampleConfig (sampleNode none) 19 86400000000000 = .ok 501 ∧
      electSnapshotNode sampleConfig (sampleNode none) 20 0 = .ok 501 := by
  obtain ⟨slot, a, b, hslot, ha, hb, hea, heb, hop1⟩ :=
    daily_rotation sampleConfig (sampleNode none) (sampleNode none) 19 0 (by decide) rfl rfl
      (by decide) (by decide) (by decide) (by decide)
  have h1 : electSnapshotNode sampleConfig (sampleNode none) 19 0 = .ok 505 := by decide
  have h2 : electSnapshotNode sampleConfig (sampleNode none) 19 86400000000000 = .ok 501 := by
    decide
  refine ⟨h1, h2, ?_⟩
  rw [hop1 (by decide), ← heb, h2]

/-! ### The lock of the ghost keys -/

/-- C23. Ghost-key locking is the last step of output validation. When the loop over the outputs
fails, or the input amount differs from the sum of the output amounts, validateOutputs returns
that error and leaves the ghost-key store as it was. Otherwise it makes the one call
LockGhostKeys(keys, hash, fork) with the keys of the outputs without withdrawal in output
order, and returns nil or the error of that call unchanged, leaving the store in the state
the call left it. On a store that records its calls, the record grows by at most that one
call. -/
theorem ghost_key_locking_last {σ : Type} (c : Config) (x : Collab) (store : GhostLocker σ)
    (s : σ) (tx : Transaction) (hash : crypto.Hash) (inputAmount : Integer) (fork : Bool) :
    (∀ e, validateOutputsLoop c x tx.Outputs
          { outputAmount := 0, ghostKeysFilter := [], ghostKeys := [] } = .error e →
        validateOutputs c x store s tx hash inputAmount fork = (.error e, s)) ∧
    (∀ st, validateOutputsLoop c x tx.Outputs
          { outputAmount := 0, ghostKeysFilter := [], ghostKeys := [] } = .ok st →
        inputAmount ≠ (tx.Outputs.map (fun o => o.Amount)).sum →
        validateOutputs c x store s tx hash inputAmount fork =
          (.error (.err (.invalidInputOutputAmount inputAmount
            (tx.Outputs.map (fun o => o.Amount)).sum)), s)) ∧
    (∀ st, validateOutputsLoop c x tx.Outputs
          { outputAmount := 0, ghostKeysFilter := [], ghostKeys := [] } = .ok st →
        inputAmount = (tx.Outputs.map (fun o => o.Amount)).sum →
        validateOutputs c x store s tx hash inputAmount fork =
          (match store.LockGhostKeys s (collectedGhostKeys tx.Outputs) hash fork with
            | (some e, s1) => (.error (.err (.store e)), s1)
            | (none, s1) => (.ok (), s1))) ∧
    (∀ (reply : Option StoreErr) (log : List (List crypto.Key × crypto.Hash × Bool)),
        (validateOutputs c x (recordingLocker reply) log tx hash inputAmount fork).2 = log ∨
        (validateOutputs c x (recordingLocker reply) log tx hash inputAmount fork).2 =
          log ++ [(collectedGhostKeys tx.Outputs, hash, fork)]) := by
  have hok : ∀ {τ : Type} (locker : GhostLocker τ) (t : τ) (st : OutputsState),
      validateOutputsLoop c x tx.Outputs
        { outputAmount := 0, ghostKeysFilter := [], ghostKeys := [] } = .ok st →
      validateOutputs c x locker t tx hash inputAmount fork =
        if inputAmount ≠ (tx.Outputs.map (fun o => o.Amount)).sum then
          (.error (.err (.invalidInputOutputAmount inputAmount
            (tx.Outputs.map (fun o => o.Amount)).sum)), t)
        else
          (match locker.LockGhostKeys t (collectedGhostKeys tx.Outputs) hash fork with
            | (some e, s1) => (.error (.err (.store e)), s1)
            | (none, s1) => (.ok (), s1)) := by
    intro τ locker t st hst
    obtain ⟨hamt, _, hkeys, _⟩ := validateOutputsLoop_ok c x _ _ _ hst
    simp only [zero_add, List.nil_append] at hamt hkeys
    unfold validateOutputs
    rw [hst]
    simp only [hamt, hkeys]
  refine ⟨?_, ?_, ?_, ?_⟩
  · intro e he
    unfold validateOutputs
    rw [he]
  · intro st hst hne
    rw [hok store s st hst, if_pos hne]
  · intro st hst heq
    rw [hok store s st hst, if_neg (by simpa using heq)]
  · intro reply log
    cases hl : validateOutputsLoop c x tx.Outputs
        { outputAmount := 0, ghostKeysFilter := [], ghostKeys := [] } with
    | error e =>
      left
      unfold validateOutputs
      rw [hl]
    | ok st =>
      rw [hok (recordingLocker reply) log st hl]
      split
      · exact Or.inl rfl
      · right
        cases reply <;> rfl

/-- C23 at two transactions on a recording store: outputs of amounts 2 and 3 against the input
amount 5 make the one call with the keys 31 and 32, and against the input amount 6 make
none. -/
theorem ghost_key_locking_last_witness :
    validateOutputs sampleConfig sampleCollab (recordingLocker none) []
        (sampleTx [plainInput 11 0] [scriptOutput 2 [31], scriptOutput 3 [32]]
          [[(0, 9)]]).toTransaction 99 5 true = (.ok (), [([31, 32], 99, true)]) ∧
      validateOutputs sampleConfig sampleCollab (recordingLocker none) []
        (sampleTx [plainInput 11 0] [scriptOutput 2 [31], scriptOutput 3 [32]]
          [[(0, 9)]]).toTransaction 99 6 true =
        (.error (.err (.invalidInputOutputAmount 6 5)), []) :=
  ⟨by decide,
    (ghost_key_locking_last sampleConfig sampleCollab (recordingLocker none) []
      (sampleTx [plainInput 11 0] [scriptOutput 2 [31], scriptOutput 3 [32]]
        [[(0, 9)]]).toTransaction 99 6 true).2.1
      { outputAmount := 5, ghostKeysFilter := [31, 32], ghostKeys := [31, 32] }
      (by decide) (by decide)⟩

/-! ### The short circuit of Mint and Deposit -/

theorem validateUTXO_congr (c : Config) (x x1 : Collab) (hx : x1.Validate = x.Validate)
    (index : Nat) (utxo : UTXO) (sigs : List SigMap) (as : Option AggregatedSignature)
    (txType : Nat) (keySigs : KeySigs) (offset : Nat) :
    validateUTXO c x1 index utxo sigs as txType keySigs offset =
      validateUTXO c x index utxo sigs as txType keySigs offset := by
  unfold validateUTXO
  rw [hx]

theorem validateInputsLoop_short_circuit (c : Config) (x x1 : Collab)
    (store store1 : UTXOLockReader) (tx tx1 : SignedTransaction) (hash : crypto.Hash)
    (txType : Nat) (fork : Bool) (inp : Input) (post1 : List Input) (amount : Integer)
    (hx : x1.Validate = x.Validate) (hasset : tx1.Asset = tx.Asset)
    (hsigs : tx1.sigs = tx.sigs) (hagg : tx1.AggregatedSignature = tx.AggregatedSignature)
    (hg : inp.Genesis = []) (hamt : descriptorAmount inp = some amount) :
    ∀ (pre : List Input) (i : Nat) (st st1 : InputsState),
      (∀ p ∈ pre, store1.ReadUTXOLock p.Hash p.Index = store.ReadUTXOLock p.Hash p.Index) →
      validateInputsLoop c x store tx hash txType fork i pre st = .ok (.completed st1) →
      validateInputsLoop c x1 store1 tx1 hash txType fork i (pre ++ inp :: post1) st =
          .ok (.returned st1.inputsFilter amount) ∧
        ∀ p ∈ pre, p.Mint = none ∧ p.Deposit = none := by
  intro pre
  induction pre with
  | nil =>
    intro i st st1 _ h
    simp only [validateInputsLoop, Except.ok.injEq, InputsExit.completed.injEq] at h
    subst h
    refine ⟨?_, by simp⟩
    rw [List.nil_append]
    unfold validateInputsLoop
    rw [if_neg (by simp [hg])]
    unfold descriptorAmount at hamt
    cases hM : inp.Mint with
    | some m =>
      rw [hM] at hamt
      simp only [Option.some.injEq] at hamt
      simp only [hamt]
    | none =>
      rw [hM] at hamt
      simp only at hamt
      cases hD : inp.Deposit with
      | some d =>
        rw [hD] at hamt
        simp only [Option.some.injEq] at hamt
        simp only [hamt]
      | none =>
        rw [hD] at hamt
        exact absurd hamt (by simp)
  | cons p rest ih =>
    intro i st st1 hstore h
    have hp := hstore p (List.mem_cons_self _ _)
    have hrest : ∀ q ∈ rest,
        store1.ReadUTXOLock q.Hash q.Index = store.ReadUTXOLock q.Hash q.Index :=
      fun q hq => hstore q (List.mem_cons_of_mem _ hq)
    rw [List.cons_append]
    unfold validateInputsLoop at h ⊢
    by_cases hgen : p.Genesis.length > 0
    · rw [if_pos hgen] at h
      exact absurd h (by simp)
    rw [if_neg hgen] at h ⊢
    cases hM : p.Mint with
    | some m =>
      simp only [hM] at h
      exact absurd h (by simp)
    | none =>
      cases hD : p.Deposit with
      | some d =>
        simp only [hM, hD] at h
        exact absurd h (by simp)
      | none =>
        simp only [hM, hD] at h ⊢
        by_cases hf : (st.inputsFilter.any (fun e => decide (e.1 = p.fk))) = true
        · rw [if_pos hf] at h
          exact absurd h (by simp)
        rw [if_neg hf] at h ⊢
        rw [hp]
        cases hr : store.ReadUTXOLock p.Hash p.Index with
        | error e =>
          simp only [hr] at h
          exact absurd h (by simp)
        | ok ou =>
          cases ou with
          | none =>
            simp only [hr] at h
            exact absurd h (by simp)
          | some utxo =>
            simp only [hr] at h ⊢
            rw [hasset]
            by_cases ha : utxo.Asset ≠ tx.Asset
            · rw [if_pos ha] at h
              exact absurd h (by simp)
            rw [if_neg ha] at h ⊢
            by_cases hl : crypto.HasValue utxo.LockHash = true ∧ utxo.LockHash ≠ hash ∧
                fork = false
            · rw [if_pos hl] at h
              exact absurd h (by simp)
            rw [if_neg hl] at h ⊢
            rw [hsigs, hagg, validateUTXO_congr c x x1 hx]
            cases hv : validateUTXO c x i utxo.toUTXO tx.sigs tx.AggregatedSignature txType
                st.keySigs st.allKeys.length with
            | error e =>
              simp only [hv] at h
              exact absurd h (by simp)
            | ok ks =>
              simp only [hv] at h ⊢
              obtain ⟨hres, hplain⟩ := ih _ _ _ hrest h
              refine ⟨hres, ?_⟩
              intro q hq
              rcases List.mem_cons.mp hq with rfl | hq
              · exact ⟨hM, hD⟩
              · exact hplain q hq

/-- C21. Mint/Deposit short circuit: when the inputs of `tx` are `pre ++ inp :: post`, the loop
of validateInputs runs over `pre` without an error and without returning (every input before
position `|pre|` passes its checks), and `inp` has an empty genesis field and carries a Mint or
Deposit descriptor of amount `amount`, then validateInputs returns no error and exactly `amount`
as the input amount, whatever the amounts collected over `pre`; no input of `pre` carries a
descriptor, so `inp` is the first one that does. The result does not depend on what follows
`inp`, on what the store answers for inputs other than those of `pre`, or on the batch and
aggregate verifications: a transaction `tx1` with other inputs after `inp`, a store `store1` that
agrees with `store` on the inputs of `pre` only, and collaborators `x1` that agree with `x` on
the per-signature threshold check only, give the same result. -/
theorem mint_deposit_short_circuit (c : Config) (x x1 : Collab) (store store1 : UTXOLockReader)
    (tx tx1 : SignedTransaction) (hash : crypto.Hash) (txType : Nat) (fork : Bool)
    (pre : List Input) (inp : Input) (post post1 : List Input) (st : InputsState)
    (amount : Integer)
    (hin : tx.Inputs = pre ++ inp :: post)
    (hpre : validateInputsLoop c x store tx hash txType fork 0 pre InputsState.initial =
      .ok (.completed st))
    (hg : inp.Genesis = [])
    (hamt : descriptorAmount inp = some amount)
    (hin1 : tx1.Inputs = pre ++ inp :: post1)
    (hasset : tx1.Asset = tx.Asset) (hsigs : tx1.sigs = tx.sigs)
    (hagg : tx1.AggregatedSignature = tx.AggregatedSignature)
    (hx : x1.Validate = x.Validate)
    (hstore : ∀ p ∈ pre,
      store1.ReadUTXOLock p.Hash p.Index = store.ReadUTXOLock p.Hash p.Index) :
    validateInputs c x store tx hash txType fork = .ok (st.inputsFilter, amount) ∧
      validateInputs c x1 store1 tx1 hash txType fork = .ok (st.inputsFilter, amount) ∧
      ∀ p ∈ pre, p.Mint = none ∧ p.Deposit = none := by
  have h0 := validateInputsLoop_short_circuit c x x store store tx tx hash txType fork inp post
    amount rfl rfl rfl rfl hg hamt pre 0 InputsState.initial st (fun _ _ => rfl) hpre
  have h1 := validateInputsLoop_short_circuit c x x1 store store1 tx tx1 hash txType fork inp
    post1 amount hx hasset hsigs hagg hg hamt pre 0 InputsState.initial st hstore hpre
  refine ⟨?_, ?_, h0.2⟩
  · unfold validateInputs
    rw [hin]
    have h := h0.1
    unfold InputsState.initial at h
    rw [h]
  · unfold validateInputs
    rw [hin1]
    have h := h1.1
    unfold InputsState.initial at h
    rw [h]

/-- C21 at a transaction whose second input carries a Mint descriptor of amount 7, after an
input spending the UTXO of amount 5: the input amount is 7, also when another input follows,
the store fails on every other read and the batch and aggregate verifications fail. -/
theorem mint_deposit_short_circuit_witness :
    validateInputs sampleConfig sampleCollab (sampleStore 0)
        (sampleTx [plainInput 11 0, mintInput 7, plainInput 11 0] [scriptOutput 7 [31]]
          [[(0, 9)], [], []]) 99 1 false = .ok ([((11, 0), sampleUTXO)], 7) ∧
      validateInputs sampleConfig rejectingCollab narrowStore
        (sampleTx [plainInput 11 0, mintInput 7, plainInput 55 3, plainInput 11 0]
          [scriptOutput 9 [31]] [[(0, 9)], [], []]) 99 1 false =
        .ok ([((11, 0), sampleUTXO)], 7) :=
  have h := mint_deposit_short_circuit sampleConfig sampleCollab rejectingCollab (sampleStore 0)
    narrowStore
    (sampleTx [plainInput 11 0, mintInput 7, plainInput 11 0] [scriptOutput 7 [31]]
      [[(0, 9)], [], []])
    (sampleTx [plainInput 11 0, mintInput 7, plainInput 55 3, plainInput 11 0]
      [scriptOutput 9 [31]] [[(0, 9)], [], []]) 99 1 false
    [plainInput 11 0] (mintInput 7) [plainInput 11 0] [plainInput 55 3, plainInput 11 0]
    { inputsFilter := [((11, 0), sampleUTXO)], inputAmount := 5, allKeys := [21],
      keySigs := [(0, 21, some 9)] } 7
    rfl (by decide) rfl (by decide) rfl rfl rfl rfl rfl (by decide)
  ⟨h.1, h.2.1⟩

/-! ### The read of the signatures map in validateUTXO -/

/-- C22 fails in the code. The transaction `removeWithoutSignatures` has the type node remove,
one input, one output, no signatures map and no aggregated signature: it passes every
structural gate of Validate, the gate on the number of signatures included, because that gate
exempts the node accept and node remove types. Its input names a script UTXO, so validateUTXO
reads `sigs[0]` in a signatures map of length 0: validateInputs, and Validate with it, ends in
an index out of range panic. -/
theorem signature_index_out_of_range :
    removeTypedEnv.TransactionType removeWithoutSignatures =
        sampleConfig.TransactionTypeNodeRemove ∧
      structuralGates sampleConfig sampleCollab removeTypedEnv removeWithoutSignatures
        (removeTypedEnv.TransactionType removeWithoutSignatures) = none ∧
      removeWithoutSignatures.sigs.length = 0 ∧
      validateUTXO sampleConfig sampleCollab 0 sampleUTXO removeWithoutSignatures.sigs
        removeWithoutSignatures.AggregatedSignature 9 [] 0 = .error .goPanic ∧
      validateInputs sampleConfig sampleCollab (removeTypedEnv.utxoReader ())
        removeWithoutSignatures (sampleCollab.PayloadHash removeWithoutSignatures)
        (removeTypedEnv.TransactionType removeWithoutSignatures) false = .error .goPanic ∧
      (Validate sampleConfig sampleCollab removeTypedEnv () removeWithoutSignatures 0 false).1 =
        .error .goPanic := by
  decide

/-! ### The pause of the importer -/

theorem importFromStep_paused {σ : Type} (env : ImportEnv σ) (fuel : Nat) (st : ImportState σ)
    (h : st.round > u64 (st.threshold + 16)) :
    (importFromStep env fuel st) = .next { st with world := env.sleep st.world } := by
  unfold importFromStep
  rw [if_pos h]

theorem importFromRun_paused {σ : Type} (env : ImportEnv σ) (fuel : Nat) :
    ∀ (n : Nat) (st : ImportState σ), st.round > u64 (st.threshold + 16) →
      (importFromRun env fuel n st) =
        .next { st with world := Nat.iterate env.sleep n st.world }
  | 0, st, _ => by simp [importFromRun]
  | n + 1, st, h => by
    unfold importFromRun
    rw [importFromStep_paused env fuel st h]
    simp only
    rw [importFromRun_paused env fuel n { st with world := env.sleep st.world } h]
    simp [Function.iterate_succ_apply]

theorem importFromRun_add {σ : Type} (env : ImportEnv σ) (fuel : Nat) :
    ∀ (a b : Nat) (st st1 : ImportState σ), importFromRun env fuel a st = .next st1 →
      (importFromRun env fuel (a + b) st) = importFromRun env fuel b st1
  | 0, b, st, st1, h => by
    simp only [importFromRun, ImportStep.next.injEq] at h
    subst h
    simp
  | a + 1, b, st, st1, h => by
    have e : a + 1 + b = (a + b) + 1 := by omega
    rw [e]
    unfold importFromRun at h
    conv_lhs => unfold importFromRun
    cases hs : importFromStep env fuel st with
    | next st2 =>
      rw [hs] at h
      simp only at h ⊢
      exact importFromRun_add env fuel a b st2 st1 h
    | returned r err w =>
      rw [hs] at h
      exact absurd h (by simp)
    | panicked =>
      rw [hs] at h
      exact absurd h (by simp)
    | stalled =>
      rw [hs] at h
      exact absurd h (by simp)

theorem slowChainEnv_sleeps (n : Nat) (w : SlowWorld) :
    Nat.iterate slowChainEnv.sleep n w = { w with sleeps := w.sleeps + n } := by
  induction n generalizing w with
  | zero => rfl
  | succ n ih =>
    rw [Function.iterate_succ_apply, ih]
    simp only [slowChainEnv]
    congr 1
    omega

theorem slowChainEnv_reaches_pause :
    (importFrom slowChainEnv 1 17 { sleeps := 0, appended := 0 }) =
      .next { threshold := 0, round := 17, world := { sleeps := 0, appended := 17 },
              fetched := List.range 17 } := by
  decide

/-- C26 fails in the code. The paused branch of importFrom sleeps and goes back to the head of
the loop without reading `chain.State.FinalRound` again: `threshold` is assigned only after a
round has been imported (lines 77-79), so a paused state is never left. In `slowChainEnv`
the importer imports the rounds 0 to 16 while the final round number of the chain is 0, and
pauses at round 17 with threshold 0; from the first sleep on the final round number is 100, so
that 17 is within 16 rounds of it, and yet after every number `18 + n` of iterations the loop
is still going on in the same paused state, having slept `n + 1` times, and has never asked
the source for the snapshots of round 17. -/
theorem import_pause_never_ends (n : Nat) :
    (importFrom slowChainEnv 1 (18 + n) { sleeps := 0, appended := 0 }) =
        .next { threshold := 0, round := 17, world := { sleeps := n + 1, appended := 17 },
                fetched := List.range 17 } ∧
      slowChainEnv.State { sleeps := n + 1, appended := 17 } =
        some (some { NodeId := 1, Number := 100, Hash := 0 }) ∧
      ¬ (17 > u64 (100 + 16)) ∧
      17 ∉ List.range 17 := by
  refine ⟨?_, ?_, by decide, by decide⟩
  · have e : 18 + n = 17 + (n + 1) := by omega
    unfold importFrom
    rw [e, importFromRun_add slowChainEnv 1 17 (n + 1) _ _ slowChainEnv_reaches_pause]
    rw [importFromRun_paused slowChainEnv 1 (n + 1) _ (by decide), slowChainEnv_sleeps]
    simp
  · simp [slowChainEnv]

end Mixin
